import Mathlib

/-! search-ec2: query interpretation, filter construction and embedding cache

A shallow embedding of the Go sources

* `internal/models/search.go` (`ParsedQuery`, `ToQdrantFilter`, `GetSearchQuery`),
* `internal/services/function_calling.go` (`ValidateQuery`, `EnhanceQuery`),
* `internal/services/embedding.go` (`EmbeddingService`, `EmbeddingCache`,
  `CachedEmbeddingService`, `BatchEmbedding`),
* `internal/services/qdrant.go` (`SearchProducts`, `InsertProduct`,
  `GetProduct`, `DeleteProduct`, `parseProductFromPayload`),
* `internal/services/variant_generation.go` (`GenerateVariants` and its
  helpers, `GenerateVariantsWithEmbeddings`, `RegenerateVariants`),
* `internal/models/product.go` (`Product`, `ToProduct`, the batch import types),
* `internal/handlers/search.go` (`Search`, `GetSuggestions`),
* `internal/handlers/product.go` (`BatchImport`),

followed by theorems about them.

Modelling conventions.

* Go `string` is `String`, the sequence of its characters, which is faithful
  for valid UTF-8 text; the builtin `len` and index expressions count bytes of
  the UTF-8 encoding, and the functions of package `strings` are defined on the
  characters.
* Go `float64` prices are `Rat`: a price decoded from JSON is a finite binary
  fraction, and the comparisons `>` and `< 0` on finite floats agree with the
  comparisons on the rationals they denote.
* Go `error` results are `Except String`, a run-time panic is its own outcome.
* A Go `map` is a list of key/value pairs; where the source ranges over a map
  the list order stands for the iteration order of that run.
* External services (chat endpoint, embedding endpoint, vector store) are
  function parameters: the theorems hold for every behaviour of them unless a
  hypothesis says otherwise. So are the library functions `json.Unmarshal`,
  `unicode.ToLower`, `fmt.Sscanf` and the formatting of a value by
  `fmt.Sprintf`, and the order in which `range` visits a map that the code
  builds itself.
* For the methods that write to the vector store (`InsertProduct`,
  `DeleteProduct`) and for `GetProduct`, the collection behind the client is a
  list of points keyed by point id, with upsert, delete by filter and query by
  filter; which client calls fail is a parameter, and a call that fails leaves
  the collection as it was.
-/

namespace SearchEC2

/-! ## Dynamic values (`interface{}`) -/

/-- Values of Go type `interface{}` that occur in intents and filters: what
`encoding/json` decodes into (`nil`, `bool`, `float64`, `string`,
`[]interface{}`, `map[string]interface{}`), and the `[]map[string]interface{}`
that `ToQdrantFilter` stores under `"must"`. -/
inductive Value where
  | null : Value
  | bool (b : Bool) : Value
  | float64 (x : Rat) : Value
  | string (s : String) : Value
  | slice (xs : List Value) : Value
  | map (kvs : List (String × Value)) : Value
  | maps (ms : List (List (String × Value))) : Value

/-- A Go `map[string]interface{}`. -/
abbrev GoMap := List (String × Value)

/-! ## `models.ParsedQuery` -/

/-- The struct `models.ParsedQuery`; `*float64` is `Option Rat`. -/
structure ParsedQuery where
  ProductType : String := ""
  Color : String := ""
  PriceMin : Option Rat := none
  PriceMax : Option Rat := none
  Brand : String := ""
  Size : String := ""
  Material : String := ""
  Style : String := ""
  Occasion : String := ""
  Gender : String := ""
  Filters : GoMap := []

/-! ## `FunctionCallingService.ValidateQuery` -/

/-- The method `ValidateQuery` of function_calling.go: `nil` is `.ok ()`. -/
def ValidateQuery (parsedQuery : ParsedQuery) : Except String Unit :=
  if parsedQuery.ProductType = "" then
    .error "product_type is required"
  else if (match parsedQuery.PriceMin, parsedQuery.PriceMax with
      | some lo, some hi => decide (lo > hi)
      | _, _ => false) then
    .error "price_min cannot be greater than price_max"
  else if (match parsedQuery.PriceMin with
      | some lo => decide (lo < 0)
      | none => false) then
    .error "price_min cannot be negative"
  else if (match parsedQuery.PriceMax with
      | some hi => decide (hi < 0)
      | none => false) then
    .error "price_max cannot be negative"
  else
    .ok ()

/-- Whether a Go call returned a non-nil error. -/
def isError {ε α : Type} : Except ε α → Bool
  | .error _ => true
  | .ok _ => false

/-! ## Go maps as association lists -/

/-- The Go assignment `m[k] = v`: replaces the value of an existing key, adds
the key otherwise. -/
def mapSet {β : Type} (m : List (String × β)) (k : String) (v : β) : List (String × β) :=
  match m with
  | [] => [(k, v)]
  | (k0, v0) :: rest => if k0 = k then (k, v) :: rest else (k0, v0) :: mapSet rest k v

/-- The Go lookup `v, ok := m[k]`. -/
def mapGet {β : Type} (m : List (String × β)) (k : String) : Option β :=
  m.lookup k

/-! ## `ParsedQuery.ToQdrantFilter` and `ParsedQuery.GetSearchQuery` -/

/-- The map literal `{"key": key, "match": {"value": value}}` that
`ToQdrantFilter` appends for an exact-match condition. -/
def matchClause (key : String) (value : Value) : GoMap :=
  [("key", .string key), ("match", .map [("value", value)])]

/-- The body of `if pq.PriceMin != nil || pq.PriceMax != nil { ... }`: the map
`{"key": "price", "range": rangeCondition}`. -/
def priceRangeClause (priceMin priceMax : Option Rat) : GoMap :=
  let priceRange : GoMap := [("key", .string "price")]
  let rangeCondition : GoMap := []
  let rangeCondition := match priceMin with
    | some lo => mapSet rangeCondition "gte" (.float64 lo)
    | none => rangeCondition
  let rangeCondition := match priceMax with
    | some hi => mapSet rangeCondition "lte" (.float64 hi)
    | none => rangeCondition
  mapSet priceRange "range" (.map rangeCondition)

/-- The method `ToQdrantFilter` of models/search.go. The loop over
`pq.Filters` visits the entries in list order. -/
def ParsedQuery.ToQdrantFilter (pq : ParsedQuery) : GoMap :=
  let filter : GoMap := []
  let must : List GoMap := []
  let must := if pq.Color ≠ "" then must ++ [matchClause "color" (.string pq.Color)] else must
  let must := if pq.Brand ≠ "" then must ++ [matchClause "brand" (.string pq.Brand)] else must
  let must := if pq.Size ≠ "" then must ++ [matchClause "size" (.string pq.Size)] else must
  let must :=
    if pq.Material ≠ "" then must ++ [matchClause "material" (.string pq.Material)] else must
  let must := if pq.Style ≠ "" then must ++ [matchClause "style" (.string pq.Style)] else must
  let must :=
    if pq.Occasion ≠ "" then must ++ [matchClause "occasion" (.string pq.Occasion)] else must
  let must := if pq.Gender ≠ "" then must ++ [matchClause "gender" (.string pq.Gender)] else must
  let must :=
    if pq.PriceMin.isSome || pq.PriceMax.isSome then
      must ++ [priceRangeClause pq.PriceMin pq.PriceMax]
    else must
  let must := must ++ [matchClause "status" (.string "active")]
  let must := pq.Filters.foldl (fun must kv => must ++ [matchClause kv.1 kv.2]) must
  if must.length > 0 then mapSet filter "must" (.maps must) else filter

/-- The method `GetSearchQuery` of models/search.go. -/
def ParsedQuery.GetSearchQuery (pq : ParsedQuery) : String :=
  if pq.ProductType ≠ "" then pq.ProductType else ""

/-- The list stored under `"must"` in a filter map, when there is one. -/
def mustList (filter : GoMap) : Option (List GoMap) :=
  match mapGet filter "must" with
  | some (.maps must) => some must
  | _ => none

/-! ### The must list in the words of the specification -/

/-- The exact-match clause of the specification for a scalar field: one clause
on `key` when the field is present (non-empty), none otherwise. -/
def scalarClauseSpec (key value : String) : List GoMap :=
  if value = "" then [] else [[("key", .string key), ("match", .map [("value", .string value)])]]

/-- A bound of the range clause of the specification, when it is present. -/
def boundSpec (name : String) (bound : Option Rat) : GoMap :=
  match bound with
  | some x => [(name, .float64 x)]
  | none => []

/-- The range clause of the specification: a single clause on `price` when a
bound is present, combining whichever bounds are set. -/
def priceClauseSpec (priceMin priceMax : Option Rat) : List GoMap :=
  match priceMin, priceMax with
  | none, none => []
  | lo, hi =>
    [[("key", .string "price"), ("range", .map (boundSpec "gte" lo ++ boundSpec "lte" hi))]]

/-- The clause `status = active` of the specification. -/
def statusClauseSpec : GoMap :=
  [("key", .string "status"), ("match", .map [("value", .string "active")])]

/-- The exact-match clauses of the specification for the free-form filter map,
one per entry. -/
def dynamicClausesSpec (filters : GoMap) : List GoMap :=
  filters.map (fun kv => [("key", .string kv.1), ("match", .map [("value", kv.2)])])

/-- The scalar and price clauses of the specification, in the order of the
source. -/
def fieldClausesSpec (pq : ParsedQuery) : List GoMap :=
  scalarClauseSpec "color" pq.Color ++ scalarClauseSpec "brand" pq.Brand ++
    scalarClauseSpec "size" pq.Size ++ scalarClauseSpec "material" pq.Material ++
    scalarClauseSpec "style" pq.Style ++ scalarClauseSpec "occasion" pq.Occasion ++
    scalarClauseSpec "gender" pq.Gender ++ priceClauseSpec pq.PriceMin pq.PriceMax

/-! ## `FunctionCallingService.EnhanceQuery` -/

/-- The table `productTypeMap` of `EnhanceQuery`. -/
def productTypeMap : List (String × String) :=
  [("牛仔服", "牛仔裤"), ("丹宁裤", "牛仔裤"), ("T恤衫", "T恤"), ("短袖", "T恤"),
   ("运动鞋", "鞋子"), ("跑步鞋", "鞋子"), ("球鞋", "鞋子"), ("手机", "智能手机"),
   ("电话", "智能手机")]

/-- The table `colorMap` of `EnhanceQuery`. -/
def colorMap : List (String × String) :=
  [("红", "红色"), ("蓝", "蓝色"), ("黑", "黑色"), ("白", "白色"), ("绿", "绿色"),
   ("黄", "黄色"), ("紫", "紫色"), ("粉", "粉色"), ("灰", "灰色"), ("棕", "棕色"),
   ("深蓝", "深蓝色"), ("浅蓝", "浅蓝色"), ("天蓝", "天蓝色"), ("海蓝", "海蓝色")]

/-- The table `sizeMap` of `EnhanceQuery`. -/
def sizeMap : List (String × String) :=
  [("小", "S"), ("中", "M"), ("大", "L"), ("特大", "XL"), ("超大", "XXL"),
   ("小号", "S"), ("中号", "M"), ("大号", "L"), ("特大号", "XL")]

/-- The method `EnhanceQuery` of function_calling.go; `enhanced := *parsedQuery`
copies the struct, the result is the modified copy. -/
def EnhanceQuery (parsedQuery : ParsedQuery) : ParsedQuery :=
  let enhanced := parsedQuery
  let enhanced := match mapGet productTypeMap enhanced.ProductType with
    | some synonym => { enhanced with ProductType := synonym }
    | none => enhanced
  let enhanced := match mapGet colorMap enhanced.Color with
    | some standardColor => { enhanced with Color := standardColor }
    | none => enhanced
  let enhanced := match mapGet sizeMap enhanced.Size with
    | some standardSize => { enhanced with Size := standardSize }
    | none => enhanced
  enhanced

/-! ## `EmbeddingService`, `EmbeddingCache`, `CachedEmbeddingService`

The vectors (`[]float32`) are never inspected by this code, so the development
is parametric in their type `V`; `default : V` is the `nil` slice. -/

/-- Outcome of a Go call that may return normally, return an error, or panic. -/
inductive Outcome (α : Type) where
  | ok (a : α) : Outcome α
  | error (msg : String) : Outcome α
  | panic (msg : String) : Outcome α
  deriving DecidableEq

/-- The embedding endpoint as seen by `EmbeddingService.GetEmbeddings` (lines
56-119 of embedding.go): called with the number of requests sent before and
the texts of this request, it yields either an error or the list
`embeddings` built from `response.Data`, whatever its length. -/
abbrev EmbeddingAPI (V : Type) := Nat → List String → Except String (List V)

/-- The struct `EmbeddingService`; the field `sent` records the requests sent
to the endpoint so far, oldest first. -/
structure EmbeddingService where
  sent : List (List String) := []
  deriving DecidableEq

/-- The method `EmbeddingService.GetEmbeddings`. -/
def EmbeddingService.GetEmbeddings {V : Type} (api : EmbeddingAPI V) (s : EmbeddingService)
    (texts : List String) : Except String (List V) × EmbeddingService :=
  if texts.length = 0 then
    (.error "no texts provided", s)
  else
    (api s.sent.length texts, { sent := s.sent ++ [texts] })

/-- The method `EmbeddingService.GetEmbedding`. -/
def EmbeddingService.GetEmbedding {V : Type} (api : EmbeddingAPI V) (s : EmbeddingService)
    (text : String) : Except String V × EmbeddingService :=
  match s.GetEmbeddings api [text] with
  | (.error err, s1) => (.error err, s1)
  | (.ok embeddings, s1) =>
    match embeddings with
    | [] => (.error "no embedding returned", s1)
    | first :: _ => (.ok first, s1)

/-- The struct `EmbeddingCache`. -/
structure EmbeddingCache (V : Type) where
  cache : List (String × V) := []
  deriving DecidableEq

/-- The constructor `NewEmbeddingCache`. -/
def NewEmbeddingCache {V : Type} : EmbeddingCache V :=
  { cache := [] }

/-- The method `EmbeddingCache.Get`; `(embedding, true)` is `some embedding`. -/
def EmbeddingCache.Get {V : Type} (c : EmbeddingCache V) (text : String) : Option V :=
  mapGet c.cache text

/-- The method `EmbeddingCache.Set`. -/
def EmbeddingCache.Set {V : Type} (c : EmbeddingCache V) (text : String) (embedding : V) :
    EmbeddingCache V :=
  { cache := mapSet c.cache text embedding }

/-- The method `EmbeddingCache.Size`. -/
def EmbeddingCache.Size {V : Type} (c : EmbeddingCache V) : Nat :=
  c.cache.length

/-- The struct `CachedEmbeddingService`: the embedded `*EmbeddingService` and
the cache. -/
structure CachedEmbeddingService (V : Type) where
  EmbeddingService : EmbeddingService := {}
  cache : EmbeddingCache V := {}
  deriving DecidableEq

/-- The method `CachedEmbeddingService.GetEmbedding`. -/
def CachedEmbeddingService.GetEmbedding {V : Type} (api : EmbeddingAPI V)
    (s : CachedEmbeddingService V) (text : String) :
    Except String V × CachedEmbeddingService V :=
  match s.cache.Get text with
  | some embedding => (.ok embedding, s)
  | none =>
    match s.EmbeddingService.GetEmbedding api text with
    | (.error err, svc) => (.error err, { s with EmbeddingService := svc })
    | (.ok embedding, svc) =>
      (.ok embedding, { EmbeddingService := svc, cache := s.cache.Set text embedding })

/-- The local variables of the first loop of `CachedEmbeddingService.GetEmbeddings`. -/
structure Scan (V : Type) where
  embeddings : List V
  uncachedTexts : List String
  uncachedIndices : List Nat

/-- One iteration of the loop `for i, text := range texts` (lines 260-267). -/
def scanStep {V : Type} (cache : EmbeddingCache V) (st : Scan V) (it : Nat × String) : Scan V :=
  match cache.Get it.2 with
  | some embedding => { st with embeddings := st.embeddings.set it.1 embedding }
  | none =>
    { st with
      uncachedTexts := st.uncachedTexts ++ [it.2]
      uncachedIndices := st.uncachedIndices ++ [it.1] }

/-- The first loop of `CachedEmbeddingService.GetEmbeddings`, started from
`embeddings := make([][]float32, len(texts))` and two empty lists. -/
def scanTexts {V : Type} [Inhabited V] (cache : EmbeddingCache V) (texts : List String) : Scan V :=
  texts.enum.foldl (scanStep cache)
    { embeddings := List.replicate texts.length default, uncachedTexts := [], uncachedIndices := [] }

/-- The loop `for i, embedding := range newEmbeddings` (lines 277-282), from
iteration `i` on; an index expression out of range panics. -/
def fillLoop {V : Type} (uncachedIndices : List Nat) (uncachedTexts : List String) :
    List V → Nat → List V → EmbeddingCache V → Outcome (List V) × EmbeddingCache V
  | [], _, embeddings, cache => (.ok embeddings, cache)
  | embedding :: rest, i, embeddings, cache =>
    match uncachedIndices[i]? with
    | none => (.panic "index out of range", cache)
    | some index =>
      match uncachedTexts[i]? with
      | none => (.panic "index out of range", cache)
      | some text =>
        if index < embeddings.length then
          fillLoop uncachedIndices uncachedTexts rest (i + 1) (embeddings.set index embedding)
            (cache.Set text embedding)
        else
          (.panic "index out of range", cache)

/-- The method `CachedEmbeddingService.GetEmbeddings`. -/
def CachedEmbeddingService.GetEmbeddings {V : Type} [Inhabited V] (api : EmbeddingAPI V)
    (s : CachedEmbeddingService V) (texts : List String) :
    Outcome (List V) × CachedEmbeddingService V :=
  let st := scanTexts s.cache texts
  if st.uncachedTexts.length > 0 then
    match s.EmbeddingService.GetEmbeddings api st.uncachedTexts with
    | (.error err, svc) => (.error err, { s with EmbeddingService := svc })
    | (.ok newEmbeddings, svc) =>
      let r := fillLoop st.uncachedIndices st.uncachedTexts newEmbeddings 0 st.embeddings s.cache
      (r.1, { EmbeddingService := svc, cache := r.2 })
  else
    (.ok st.embeddings, s)

/-! ### The batched lookup in the words of the specification -/

/-- Whether `text` has no cached vector. -/
def EmbeddingCache.misses {V : Type} (c : EmbeddingCache V) (text : String) : Bool :=
  (c.Get text).isNone

/-- The uncached subset of the input, in original order. -/
def uncachedSpec {V : Type} (c : EmbeddingCache V) (texts : List String) : List String :=
  texts.filter c.misses

/-- The stitching of the specification: going through the input in order, a
cached text takes its cached vector and an uncached text takes the next fresh
vector. -/
def stitchSpec {V : Type} [Inhabited V] (c : EmbeddingCache V) : List String → List V → List V
  | [], _ => []
  | text :: texts, fresh =>
    match c.Get text with
    | some embedding => embedding :: stitchSpec c texts fresh
    | none => fresh.headD default :: stitchSpec c texts fresh.tail

/-- The cache after a list of `Set` calls, in order. -/
def setAll {V : Type} (c : EmbeddingCache V) (writes : List (String × V)) : EmbeddingCache V :=
  writes.foldl (fun c kv => c.Set kv.1 kv.2) c

/-- The indices, counted from `n`, of the uncached texts of a list. -/
def uncachedIndicesFrom {V : Type} (c : EmbeddingCache V) : Nat → List String → List Nat
  | _, [] => []
  | n, text :: texts =>
    if c.misses text then n :: uncachedIndicesFrom c (n + 1) texts
    else uncachedIndicesFrom c (n + 1) texts

/-- The array `embeddings` after the cached vectors of a list of texts,
indexed from `n`, were stored in it. -/
def storeCachedFrom {V : Type} (c : EmbeddingCache V) : Nat → List String → List V → List V
  | _, [], embeddings => embeddings
  | n, text :: texts, embeddings =>
    match c.Get text with
    | some embedding => storeCachedFrom c (n + 1) texts (embeddings.set n embedding)
    | none => storeCachedFrom c (n + 1) texts embeddings

/-- A call on the cached service. -/
inductive Call where
  | getEmbedding (text : String) : Call
  | getEmbeddings (texts : List String) : Call

/-- The state of the cached service after a call, whatever its outcome. -/
def Call.run {V : Type} [Inhabited V] (api : EmbeddingAPI V) (s : CachedEmbeddingService V) :
    Call → CachedEmbeddingService V
  | .getEmbedding text => (s.GetEmbedding api text).2
  | .getEmbeddings texts => (s.GetEmbeddings api texts).2

/-- The state of the cached service after a sequence of calls. -/
def runCalls {V : Type} [Inhabited V] (api : EmbeddingAPI V) (s : CachedEmbeddingService V)
    (calls : List Call) : CachedEmbeddingService V :=
  calls.foldl (Call.run api) s

/-! ## `QdrantService.SearchProducts` -/

/-- A `*qdrant.Condition` as built by `qdrant.NewMatch` and `qdrant.NewRange`. -/
inductive Condition where
  | Match (key : String) (value : String) : Condition
  | Range (key : String) (Gte : Option Rat) (Lte : Option Rat) : Condition
  deriving DecidableEq

/-- The struct `qdrant.Filter`; a `nil` slice is `[]`. -/
structure Filter where
  Must : List Condition := []
  Should : List Condition := []
  MustNot : List Condition := []
  deriving DecidableEq

/-- The struct `qdrant.QueryPoints`, with the fields that `SearchProducts` sets. -/
structure QueryPoints (V : Type) where
  CollectionName : String
  Query : V
  Limit : Nat
  WithPayload : Bool
  Filter : Option Filter := none

/-- The type `qdrant.Value` of payload values. -/
inductive QValue where
  | null : QValue
  | double (x : Rat) : QValue
  | integer (n : Int) : QValue
  | string (s : String) : QValue
  | bool (b : Bool) : QValue
  | struct (fields : List (String × QValue)) : QValue
  | list (values : List (Option QValue)) : QValue

/-- A payload `map[string]*qdrant.Value`; a `nil` pointer is `none`. -/
abbrev Payload := List (String × Option QValue)

/-- A `*qdrant.ScoredPoint`, with the fields that `SearchProducts` reads; the
`float32` score is the rational it denotes, a `nil` payload is `none`. -/
structure ScoredPoint where
  Score : Rat
  Payload : Option Payload

/-- A `time.Time`, as seconds since the Unix epoch and nanoseconds. -/
structure Time where
  Unix : Int := -62135596800
  Nanosecond : Nat := 0

/-- The struct `models.Product`; a `nil` slice is `[]`. -/
structure Product where
  ID : String := ""
  Name : String := ""
  Category : String := ""
  Description : String := ""
  Price : Rat := 0
  Currency : String := ""
  Brand : String := ""
  Color : String := ""
  Size : String := ""
  Material : String := ""
  Style : String := ""
  Gender : String := ""
  Occasion : String := ""
  ImageURLs : List String := []
  Tags : List String := []
  Attributes : GoMap := []
  Status : String := ""
  CreatedAt : Time := {}
  UpdatedAt : Time := {}

/-- The struct `models.SearchResult`. -/
structure SearchResult where
  Product : Option Product := none
  Score : Rat := 0
  MatchReason : String := ""
  Variant : String := ""

/-- The method `extractStringFromValue`. -/
def extractStringFromValue : Option QValue → String
  | some (.string s) => s
  | _ => ""

/-- The method `extractFloatFromValue`. -/
def extractFloatFromValue : Option QValue → Rat
  | some (.double x) => x
  | _ => 0

/-- The method `extractIntFromValue`. -/
def extractIntFromValue : Option QValue → Int
  | some (.integer n) => n
  | _ => 0

/-- The method `extractArrayFromValue`. -/
def extractArrayFromValue : Option QValue → List String
  | some (.list values) =>
    values.foldl (fun result item =>
      match item with
      | some v => result ++ [extractStringFromValue (some v)]
      | none => result) []
  | _ => []

/-- The Go function `strings.HasPrefix`. -/
def HasPrefix (s pre : String) : Bool :=
  pre.toList.isPrefixOf s.toList

/-- The Go function `strings.TrimPrefix`. -/
def TrimPrefix (s pre : String) : String :=
  if HasPrefix s pre then String.mk (s.toList.drop pre.toList.length) else s

/-- The last loop of `parseProductFromPayload` (lines 463-470): the custom
attributes, visited in list order. -/
def parseAttributes (payload : Payload) (product : Product) : Product :=
  payload.foldl (fun (product : Product) (kv : String × Option QValue) =>
    if HasPrefix kv.1 "attr_" = true then
      let attrKey := TrimPrefix kv.1 "attr_"
      { product with
        Attributes := mapSet product.Attributes attrKey (.string (extractStringFromValue kv.2)) }
    else product) product

/-- The method `parseProductFromPayload`. -/
def parseProductFromPayload (payload : Payload) : Product :=
  let product : Product := { Attributes := [] }
  let product := match mapGet payload "product_id" with
    | some val => { product with ID := extractStringFromValue val }
    | none => product
  let product := match mapGet payload "product_name" with
    | some val => { product with Name := extractStringFromValue val }
    | none => product
  let product := match mapGet payload "category" with
    | some val => { product with Category := extractStringFromValue val }
    | none => product
  let product := match mapGet payload "description" with
    | some val => { product with Description := extractStringFromValue val }
    | none => product
  let product := match mapGet payload "price" with
    | some val => { product with Price := extractFloatFromValue val }
    | none => product
  let product := match mapGet payload "currency" with
    | some val => { product with Currency := extractStringFromValue val }
    | none => product
  let product := match mapGet payload "brand" with
    | some val => { product with Brand := extractStringFromValue val }
    | none => product
  let product := match mapGet payload "color" with
    | some val => { product with Color := extractStringFromValue val }
    | none => product
  let product := match mapGet payload "size" with
    | some val => { product with Size := extractStringFromValue val }
    | none => product
  let product := match mapGet payload "material" with
    | some val => { product with Material := extractStringFromValue val }
    | none => product
  let product := match mapGet payload "style" with
    | some val => { product with Style := extractStringFromValue val }
    | none => product
  let product := match mapGet payload "gender" with
    | some val => { product with Gender := extractStringFromValue val }
    | none => product
  let product := match mapGet payload "occasion" with
    | some val => { product with Occasion := extractStringFromValue val }
    | none => product
  let product := match mapGet payload "created_at" with
    | some val => { product with CreatedAt := { Unix := extractIntFromValue val, Nanosecond := 0 } }
    | none => product
  let product := match mapGet payload "updated_at" with
    | some val => { product with UpdatedAt := { Unix := extractIntFromValue val, Nanosecond := 0 } }
    | none => product
  let product := match mapGet payload "tags" with
    | some val => { product with Tags := extractArrayFromValue val }
    | none => product
  let product := match mapGet payload "image_urls" with
    | some val => { product with ImageURLs := extractArrayFromValue val }
    | none => product
  parseAttributes payload product

/-- The method `generateMatchReason`; the loop over the keys of `filter` visits
them in list order. The score is a `float32` and the constants `0.9` and `0.7`
are rounded to `float32`, both downwards; no `float32` lies between a rounded
constant and the constant, so the comparisons agree with the comparisons of
the rational that the score denotes with 9/10 and 7/10. -/
def generateMatchReason (score : Rat) (filter : GoMap) : String :=
  let reasons : List String := []
  let reasons :=
    if score > 9 / 10 then reasons ++ ["高度语义匹配"]
    else if score > 7 / 10 then reasons ++ ["良好语义匹配"]
    else reasons ++ ["基础语义匹配"]
  let reasons :=
    if filter.length > 0 then
      let filterReasons : List String := filter.foldl (fun filterReasons kv =>
        if kv.1 = "brand" then filterReasons ++ ["品牌匹配"]
        else if kv.1 = "color" then filterReasons ++ ["颜色匹配"]
        else if kv.1 = "price_min" ∨ kv.1 = "price_max" then filterReasons ++ ["价格范围匹配"]
        else if kv.1 = "size" then filterReasons ++ ["尺寸匹配"]
        else filterReasons) []
      if filterReasons.length > 0 then reasons ++ [String.intercalate "、" filterReasons]
      else reasons
    else reasons
  String.intercalate " + " reasons

/-- The local condition lists of `SearchProducts`. -/
structure Conditions where
  mustConditions : List Condition := []
  shouldConditions : List Condition := []
  mustNotConditions : List Condition := []

/-- One iteration of the loop `for key, value := range filter` of
`SearchProducts` (lines 214-245): the `switch key`. -/
def conditionStep (acc : Conditions) (kv : String × Value) : Conditions :=
  let key := kv.1
  let value := kv.2
  if key = "price_min" then
    match value with
    | .float64 minPrice =>
      { acc with mustConditions := acc.mustConditions ++ [.Range "price" (some minPrice) none] }
    | _ => acc
  else if key = "price_max" then
    match value with
    | .float64 maxPrice =>
      { acc with mustConditions := acc.mustConditions ++ [.Range "price" none (some maxPrice)] }
    | _ => acc
  else if key ∈ ["brand", "color", "size", "material", "style", "gender", "occasion",
      "category"] then
    match value with
    | .string strValue =>
      if strValue ≠ "" then
        { acc with mustConditions := acc.mustConditions ++ [.Match key strValue] }
      else acc
    | _ => acc
  else if key ∈ ["exclude_brand", "exclude_color"] then
    match value with
    | .string strValue =>
      if strValue ≠ "" then
        let actualKey := TrimPrefix key "exclude_"
        { acc with mustNotConditions := acc.mustNotConditions ++ [.Match actualKey strValue] }
      else acc
    | _ => acc
  else if key = "any_tags" then
    match value with
    | .slice tags =>
      tags.foldl (fun acc tag =>
        match tag with
        | .string tagStr =>
          if tagStr ≠ "" then
            { acc with shouldConditions := acc.shouldConditions ++ [.Match "tags" tagStr] }
          else acc
        | _ => acc) acc
    | _ => acc
  else acc

/-- The request that `SearchProducts` builds (lines 204-253); `uint64(limit)`
wraps a negative `limit`. -/
def buildQueryRequest {V : Type} (collectionName : String) (queryVector : V) (filter : GoMap)
    (limit : Int) : QueryPoints V :=
  let queryRequest : QueryPoints V :=
    { CollectionName := collectionName
      Query := queryVector
      Limit := (limit % 2 ^ 64).toNat
      WithPayload := true }
  if filter.length > 0 then
    let c := filter.foldl conditionStep {}
    if c.mustConditions.length > 0 ∨ c.shouldConditions.length > 0
        ∨ c.mustNotConditions.length > 0 then
      let filterObj : Filter := {}
      let filterObj :=
        if c.mustConditions.length > 0 then { filterObj with Must := c.mustConditions }
        else filterObj
      let filterObj :=
        if c.shouldConditions.length > 0 then { filterObj with Should := c.shouldConditions }
        else filterObj
      let filterObj :=
        if c.mustNotConditions.length > 0 then { filterObj with MustNot := c.mustNotConditions }
        else filterObj
      { queryRequest with Filter := some filterObj }
    else queryRequest
  else queryRequest

/-- The struct `QdrantService` with the vector store behind it: the outcome of
`ensureInitialized` and the answer of `client.Query` to each request. -/
structure QdrantService (V : Type) where
  collectionName : String
  ensureInitialized : Except String Unit
  Query : QueryPoints V → Except String (List ScoredPoint)

/-- The body of the loop `for _, point := range searchResult` of
`SearchProducts` (lines 263-283). -/
def toSearchResult (filter : GoMap) (point : ScoredPoint) : SearchResult :=
  let result : SearchResult := { Score := point.Score }
  match point.Payload with
  | some payload =>
    let result := { result with Product := some (parseProductFromPayload payload) }
    let result := match mapGet payload "variant_text" with
      | some variantText => { result with Variant := extractStringFromValue variantText }
      | none => result
    { result with MatchReason := generateMatchReason point.Score filter }
  | none => result

/-- The method `SearchProducts`. -/
def QdrantService.SearchProducts {V : Type} (s : QdrantService V) (queryVector : V)
    (filter : GoMap) (limit : Int) : Except String (List SearchResult) :=
  match s.ensureInitialized with
  | .error err => .error err
  | .ok () =>
    let queryRequest := buildQueryRequest s.collectionName queryVector filter limit
    match s.Query queryRequest with
    | .error err => .error ("failed to query Qdrant: " ++ err)
    | .ok searchResult => .ok (searchResult.map (toSearchResult filter))

/-! ## `SearchHandler.Search` -/

/-- The struct `models.SearchRequest`. -/
structure SearchRequest where
  Query : String
  Limit : Int := 0
  Offset : Int := 0

/-- The struct `models.SearchResponse`. -/
structure SearchResponse where
  Query : String
  Total : Nat
  Results : List SearchResult
  ParsedQuery : Option ParsedQuery
  TimeTaken : Int

/-- The struct `handlers.Response` together with the HTTP status it is sent
with. -/
structure Response where
  Status : Nat
  Code : Nat
  Message : String
  Data : Option SearchResponse := none
  Timestamp : Int

/-- The function `SuccessResponse`. -/
def SuccessResponse (now : Int) (data : SearchResponse) : Response :=
  { Status := 200, Code := 0, Message := "success", Data := some data, Timestamp := now }

/-- The function `ErrorResponse`. -/
def ErrorResponse (now : Int) (code : Nat) (message : String) : Response :=
  { Status := code, Code := code, Message := message, Timestamp := now }

/-- The function `BadRequestResponse`. -/
def BadRequestResponse (now : Int) (message : String) : Response :=
  ErrorResponse now 400 message

/-- The function `InternalErrorResponse`. -/
def InternalErrorResponse (now : Int) (message : String) : Response :=
  ErrorResponse now 500 message

/-- The services and surroundings of one `Search` request: the configured
`Search.MaxResults`, the outcome of `FunctionCalling.ParseQuery` on each query,
the embedding endpoint, the vector store, and the clock. -/
structure SearchEnv (V : Type) where
  MaxResults : Int
  ParseQuery : String → Except String ParsedQuery
  api : EmbeddingAPI V
  Qdrant : QdrantService V
  now : Int
  timeTaken : Int

/-- The clamping of `req.Limit` in `Search` (lines 39-44). -/
def Search.limit (maxResults : Int) (reqLimit : Int) : Int :=
  let limit := if reqLimit ≤ 0 then maxResults else reqLimit
  if limit > maxResults then maxResults else limit

/-- Step 1 of `Search` (lines 50-57): the parsed intent, or the fallback intent
when `ParseQuery` fails. -/
def Search.parsedQuery (parsed : Except String ParsedQuery) (query : String) : ParsedQuery :=
  match parsed with
  | .error _ => { ProductType := query }
  | .ok parsedQuery => parsedQuery

/-- Step 4 of `Search` (lines 69-72): the text that is embedded. -/
def Search.searchText (enhancedQuery : ParsedQuery) (query : String) : String :=
  let searchText := enhancedQuery.GetSearchQuery
  if searchText = "" then query else searchText

/-- Steps 3 to 7 of `Search` (lines 66-106). -/
def Search.afterValidation {V : Type} (env : SearchEnv V) (embedding : CachedEmbeddingService V)
    (req : SearchRequest) (limit : Int) (parsedQuery : ParsedQuery) :
    Response × CachedEmbeddingService V :=
  let enhancedQuery := EnhanceQuery parsedQuery
  let searchText := Search.searchText enhancedQuery req.Query
  match embedding.GetEmbedding env.api searchText with
  | (.error _, embedding1) =>
    (InternalErrorResponse env.now "Failed to process search query", embedding1)
  | (.ok queryVector, embedding1) =>
    let filter := enhancedQuery.ToQdrantFilter
    match env.Qdrant.SearchProducts queryVector filter limit with
    | .error _ => (InternalErrorResponse env.now "Search failed", embedding1)
    | .ok results =>
      (SuccessResponse env.now
        { Query := req.Query
          Total := results.length
          Results := results
          ParsedQuery := some enhancedQuery
          TimeTaken := env.timeTaken }, embedding1)

/-- The handler `Search`; `bound` is the outcome of `c.ShouldBindJSON(&req)`.
A failed validation is only logged, both branches continue alike. -/
def Search {V : Type} (env : SearchEnv V) (embedding : CachedEmbeddingService V)
    (bound : Except String SearchRequest) : Response × CachedEmbeddingService V :=
  match bound with
  | .error err => (BadRequestResponse env.now ("Invalid request: " ++ err), embedding)
  | .ok req =>
    if req.Query = "" then
      (BadRequestResponse env.now "Query is required", embedding)
    else
      let limit := Search.limit env.MaxResults req.Limit
      let parsedQuery := Search.parsedQuery (env.ParseQuery req.Query) req.Query
      match ValidateQuery parsedQuery with
      | .error _ => Search.afterValidation env embedding req limit parsedQuery
      | .ok () => Search.afterValidation env embedding req limit parsedQuery

/-! ## Sample inputs -/

/-- A sample environment for `Search`: intent parsing always fails, the
embedding endpoint answers every text with the vector `[1]`, and the vector
store is reachable and finds nothing. -/
def sampleEnv : SearchEnv (List Nat) :=
  { MaxResults := 10
    ParseQuery := fun _ => .error "no function call in response"
    api := fun _ texts => .ok (texts.map (fun _ => [1]))
    Qdrant :=
      { collectionName := "products"
        ensureInitialized := .ok ()
        Query := fun _ => .ok [] }
    now := 0
    timeTaken := 0 }

/-- A vector store that holds a single point, of an inactive product, and
honours the filter of a request: the point is returned unless the request
carries the must condition status = active. -/
def inactiveStore : QdrantService (List Nat) :=
  { collectionName := "products"
    ensureInitialized := .ok ()
    Query := fun request =>
      if (request.Filter.map (fun f => decide (Condition.Match "status" "active" ∈ f.Must))).getD
          false then
        .ok []
      else
        .ok [{ Score := 1
               Payload := some [("product_id", some (.string "p1")),
                 ("status", some (.string "inactive"))] }] }

/-- An embedding endpoint that answers every request successfully with an
empty list of vectors. -/
def emptyAnswerAPI : EmbeddingAPI (List Nat) :=
  fun _ _ => .ok []

/-- An embedding endpoint that answers the text at position `i` of a request
with the vector `[i]`. -/
def positionAPI : EmbeddingAPI (List Nat) :=
  fun _ texts => .ok (texts.enum.map (fun it => [it.1]))

/-- A cached service that holds the vector `[7]` for the text "b". -/
def sampleService : CachedEmbeddingService (List Nat) :=
  { cache := { cache := [("b", [7])] } }

/-- An embedding endpoint that answers every text with the vector made of its
length. -/
def lengthAPI : EmbeddingAPI (List Nat) :=
  fun _ texts => .ok (texts.map (fun text => [text.length]))

/-! ## The Go packages `strings` and `unicode`

A Go string is its sequence of characters (`String`), which is faithful for the
valid UTF-8 text that the JSON decoder delivers; the builtin `len` and the
index expression count bytes of the UTF-8 encoding. -/

/-- The UTF-8 encoding of a character, as byte values. -/
def utf8Bytes (c : Char) : List Nat :=
  let n := c.toNat
  if n < 0x80 then [n]
  else if n < 0x800 then [0xC0 + n / 64, 0x80 + n % 64]
  else if n < 0x10000 then [0xE0 + n / 4096, 0x80 + n / 64 % 64, 0x80 + n % 64]
  else [0xF0 + n / 262144, 0x80 + n / 4096 % 64, 0x80 + n / 64 % 64, 0x80 + n % 64]

/-- The bytes of a Go string. -/
def bytes (s : String) : List Nat :=
  s.toList.flatMap utf8Bytes

/-- The Go builtin `len` on a string: its number of bytes. -/
def len (s : String) : Nat :=
  (bytes s).length

/-- The Go function `unicode.IsSpace`: the characters with the Unicode property
White_Space. -/
def IsSpace (c : Char) : Bool :=
  let n := c.toNat
  (0x09 ≤ n && n ≤ 0x0D) || n = 0x20 || n = 0x85 || n = 0xA0 || n = 0x1680 ||
    (0x2000 ≤ n && n ≤ 0x200A) || n = 0x2028 || n = 0x2029 || n = 0x202F || n = 0x205F ||
    n = 0x3000

/-- Removal of the leading and trailing characters that satisfy `p`. -/
def trimBoth (p : Char → Bool) (l : List Char) : List Char :=
  ((l.dropWhile p).reverse.dropWhile p).reverse

/-- The Go function `strings.TrimSpace`. -/
def TrimSpace (s : String) : String :=
  String.mk (trimBoth IsSpace s.toList)

/-- The Go function `strings.Trim`. -/
def Trim (s cutset : String) : String :=
  String.mk (trimBoth (fun c => cutset.toList.contains c) s.toList)

/-- The Go function `strings.Fields`. -/
def Fields (s : String) : List String :=
  ((s.toList.splitOnP IsSpace).filter (fun field => !field.isEmpty)).map String.mk

/-- The Go function `strings.Split`, for a separator of one character. -/
def Split (s : String) (sep : Char) : List String :=
  (s.toList.splitOn sep).map String.mk

/-- Whether `sub` occurs in a list of characters as a contiguous block. -/
def hasInfix (sub : List Char) : List Char → Bool
  | [] => sub.isEmpty
  | c :: cs => sub.isPrefixOf (c :: cs) || hasInfix sub cs

/-- The Go function `strings.Contains`. -/
def Contains (s substr : String) : Bool :=
  hasInfix substr.toList s.toList

/-- The Go function `strings.ToLower`, given the Go function `unicode.ToLower`
on characters. -/
def ToLower (lower : Char → Char) (s : String) : String :=
  String.mk (s.toList.map lower)

/-- The scan of `strings.ReplaceAll` for a non-empty `old`: the non-overlapping
occurrences of `old` are replaced from left to right; `skip` characters of a
matched occurrence remain to be passed over. -/
def replaceScan (old new : List Char) : Nat → List Char → List Char
  | _, [] => []
  | skip + 1, _ :: cs => replaceScan old new skip cs
  | 0, c :: cs =>
    if old.isPrefixOf (c :: cs) then new ++ replaceScan old new (old.length - 1) cs
    else c :: replaceScan old new 0 cs

/-- The Go function `strings.ReplaceAll`; for an empty `old`, `new` is inserted
before every character and at the end. -/
def ReplaceAll (s old new : String) : String :=
  if old = "" then String.mk (new.toList ++ s.toList.flatMap (fun c => c :: new.toList))
  else String.mk (replaceScan old.toList new.toList 0 s.toList)

/-- The position, among the characters of `s`, of the first occurrence of `c`:
the Go function `strings.Index` for a one-character ASCII argument, `-1`
being `none`. -/
def Index (s : String) (c : Char) : Option Nat :=
  let i := s.toList.indexOf c
  if i < s.toList.length then some i else none

/-- The position of the last occurrence of `c`: the Go function
`strings.LastIndex` for a one-character ASCII argument. -/
def LastIndex (s : String) (c : Char) : Option Nat :=
  let i := s.toList.reverse.indexOf c
  if i < s.toList.length then some (s.toList.length - 1 - i) else none

/-! ## `VariantGenerationService` -/

/-- The struct `models.OpenAIMessage`, with the fields used here. -/
structure OpenAIMessage where
  Role : String := ""
  Content : String := ""

/-- The struct `models.OpenAIRequest`, with the fields that `GenerateVariants`
sets. -/
structure OpenAIRequest where
  Model : String
  Messages : List OpenAIMessage
  MaxTokens : Int
  Temperature : Rat

/-- The struct `models.OpenAIChoice`, with the field used here. -/
structure OpenAIChoice where
  Message : OpenAIMessage

/-- The struct `models.OpenAIResponse`, with the field used here. -/
structure OpenAIResponse where
  Choices : List OpenAIChoice

/-- The surroundings of the variant generation service: the configured prompt
template and chat model, the chat endpoint behind `sendChatRequest`, the
library functions `json.Unmarshal` (into a `[]string`), `unicode.ToLower` and
`fmt.Sprintf("%.2f", x)`, and the order in which a `range` statement of this
run visits the entries of a map. -/
structure VariantEnv where
  VariantPromptTemplate : String
  model : String
  sendChatRequest : OpenAIRequest → Except String OpenAIResponse
  Unmarshal : String → Except String (List String)
  lower : Char → Char
  formatPrice : Rat → String
  rangeOrder : List (String × String) → List (String × String)

/-- The clamping of `variantCount` in `GenerateVariants` (lines 39-45). -/
def GenerateVariants.variantCount (variantCount : Int) : Int :=
  let variantCount := if variantCount ≤ 0 then 5 else variantCount
  if variantCount > 20 then 20 else variantCount

/-- The map literal `replacements` of `buildPrompt`, in the order in which it
is written. -/
def replacements (formatPrice : Rat → String) (product : Product) (variantCount : Int) :
    List (String × String) :=
  [("\x7bvariant_count\x7d", toString variantCount),
   ("\x7bproduct_name\x7d", product.Name),
   ("\x7bcategory\x7d", product.Category),
   ("\x7bcolor\x7d", product.Color),
   ("\x7bprice\x7d", formatPrice product.Price ++ product.Currency),
   ("\x7bbrand\x7d", product.Brand),
   ("\x7bsize\x7d", product.Size),
   ("\x7bmaterial\x7d", product.Material),
   ("\x7bdescription\x7d", product.Description)]

/-- The body of the loop of `buildPrompt` (lines 109-112). -/
def replaceStep (prompt : String) (entry : String × String) : String :=
  let value := if entry.2 = "" then "未指定" else entry.2
  ReplaceAll prompt entry.1 value

/-- The method `buildPrompt`; the loop visits the entries of `replacements` in
the order `rangeOrder` gives them. -/
def buildPrompt (env : VariantEnv) (product : Product) (variantCount : Int) : String :=
  let prompt := env.VariantPromptTemplate
  (env.rangeOrder (replacements env.formatPrice product variantCount)).foldl replaceStep prompt

/-- The method `parseVariants`. -/
def parseVariants (Unmarshal : String → Except String (List String)) (content : String) :
    Except String (List String) :=
  match Unmarshal content with
  | .ok variants => .ok variants
  | .error _ =>
    match Index content '[', LastIndex content ']' with
    | some start, some stop =>
      if stop > start then
        let jsonStr := String.mk ((content.toList.drop start).take (stop + 1 - start))
        match Unmarshal jsonStr with
        | .ok variants => .ok variants
        | .error _ => .error "failed to parse JSON variants"
      else .error "failed to parse JSON variants"
    | _, _ => .error "failed to parse JSON variants"

/-- The removal of a numeric ordinal in `parseVariantsFallback` (lines
160-162): `line[1]` is the second byte, and when it is the full stop the first
byte is a character of its own, so `line[2:]` drops two characters. -/
def dropOrdinal (line : String) : String :=
  if len line > 2 ∧ (bytes line)[1]? = some 46 then String.mk (line.toList.drop 2) else line

/-- The body of the loop of `parseVariantsFallback` (lines 146-168): the
variant that the line contributes, if any. -/
def fallbackLine (line : String) : Option String :=
  let line := TrimSpace line
  if line = "" ∨ HasPrefix line "```" = true ∨ HasPrefix line "#" = true
      ∨ HasPrefix line "//" = true then
    none
  else
    let line := TrimPrefix line "-"
    let line := TrimPrefix line "*"
    let line := TrimPrefix line "•"
    let line := dropOrdinal line
    let line := Trim line " \t\"',"
    if len line > 5 ∧ len line < 100 then some line else none

/-- The method `parseVariantsFallback`. -/
def parseVariantsFallback (content : String) : List String :=
  (Split content '\n').filterMap fallbackLine

/-- The method `isValidVariant`. -/
def isValidVariant (lower : Char → Char) (variant : String) (product : Product) : Bool :=
  let variant := ToLower lower variant
  let productName := ToLower lower product.Name
  let category := ToLower lower product.Category
  let keywords : List String := []
  let keywords := if productName ≠ "" then keywords ++ Fields productName else keywords
  let keywords := if category ≠ "" then keywords ++ Fields category else keywords
  keywords.any (fun keyword => decide (len keyword > 1) && Contains variant keyword)

/-- The local variables of the loop of `filterVariants`. -/
structure FilterState where
  validVariants : List String := []
  seen : List (String × Bool) := []

/-- The body of the loop of `filterVariants` (lines 180-196). -/
def filterStep (lower : Char → Char) (product : Product) (st : FilterState)
    (variant : String) : FilterState :=
  let variant := TrimSpace variant
  if len variant < 5 ∨ len variant > 100 then st
  else if (mapGet st.seen variant).getD false = true then st
  else
    let seen := mapSet st.seen variant true
    if isValidVariant lower variant product = true then
      { validVariants := st.validVariants ++ [variant], seen := seen }
    else { st with seen := seen }

/-- The method `filterVariants`. -/
def filterVariants (lower : Char → Char) (variants : List String) (product : Product) :
    List String :=
  (variants.foldl (filterStep lower product) {}).validVariants

/-- The method `GenerateVariants`. -/
def GenerateVariants (env : VariantEnv) (product : Product) (variantCount : Int) :
    Except String (List String) :=
  let variantCount := GenerateVariants.variantCount variantCount
  let prompt := buildPrompt env product variantCount
  let request : OpenAIRequest :=
    { Model := env.model
      Messages := [{ Role := "user", Content := prompt }]
      MaxTokens := 1500
      Temperature := 4 / 5 }
  match env.sendChatRequest request with
  | .error err => .error ("failed to generate variants: " ++ err)
  | .ok response =>
    match response.Choices with
    | [] => .error "no response choices returned"
    | choice :: _ =>
      let content := choice.Message.Content
      let variants :=
        match parseVariants env.Unmarshal content with
        | .ok variants => variants
        | .error _ => parseVariantsFallback content
      .ok (filterVariants env.lower variants product)

/-! ## `GetProductVariantEmbeddings` and `GenerateVariantsWithEmbeddings` -/

/-- The struct `models.ProductVariant`. -/
structure ProductVariant (V : Type) where
  ID : String
  ProductID : String := ""
  Text : String
  Vector : V
  GeneratedAt : Time

/-- The Go method `Time.UnixNano`. -/
def Time.UnixNano (t : Time) : Int :=
  t.Unix * 1000000000 + t.Nanosecond

/-- The loop of `GetProductVariantEmbeddings` (lines 136-143) over the variants
with their indices; `now k` is the k-th reading of the clock in the call, and
`embeddings[i]` out of range panics. -/
def variantLoop {V : Type} (now : Nat → Time) (embeddings : List V) :
    List (Nat × String) → Outcome (List (ProductVariant V))
  | [] => .ok []
  | (i, variant) :: rest =>
    match embeddings[i]? with
    | none => .panic "index out of range"
    | some vector =>
      match variantLoop now embeddings rest with
      | .ok productVariants =>
        .ok ({ ID := "variant_" ++ toString (now (2 * i)).UnixNano ++ "_" ++ toString i
               Text := variant
               Vector := vector
               GeneratedAt := now (2 * i + 1) } :: productVariants)
      | .error err => .error err
      | .panic msg => .panic msg

/-- The method `EmbeddingService.GetProductVariantEmbeddings`. -/
def EmbeddingService.GetProductVariantEmbeddings {V : Type} (api : EmbeddingAPI V)
    (now : Nat → Time) (s : EmbeddingService) (variants : List String) :
    Outcome (List (ProductVariant V)) × EmbeddingService :=
  if variants.length = 0 then
    (.error "no variants provided", s)
  else
    match s.GetEmbeddings api variants with
    | (.error err, s1) => (.error ("failed to get embeddings: " ++ err), s1)
    | (.ok embeddings, s1) => (variantLoop now embeddings variants.enum, s1)

/-- The method `GetProductVariantEmbeddings` of `CachedEmbeddingService`: it is
the method of the embedded `*EmbeddingService`, promoted; its receiver is the
embedded service, so the `s.GetEmbeddings` in its body is
`EmbeddingService.GetEmbeddings`. -/
def CachedEmbeddingService.GetProductVariantEmbeddings {V : Type} (api : EmbeddingAPI V)
    (now : Nat → Time) (s : CachedEmbeddingService V) (variants : List String) :
    Outcome (List (ProductVariant V)) × CachedEmbeddingService V :=
  let r := s.EmbeddingService.GetProductVariantEmbeddings api now variants
  (r.1, { s with EmbeddingService := r.2 })

/-- The method `GenerateVariantsWithEmbeddings`, called with the cache-wrapped
embedding service of the service manager as `embeddingService`. -/
def GenerateVariantsWithEmbeddings {V : Type} (env : VariantEnv) (api : EmbeddingAPI V)
    (now : Nat → Time) (product : Product) (variantCount : Int)
    (embeddingService : CachedEmbeddingService V) :
    Outcome (List (ProductVariant V)) × CachedEmbeddingService V :=
  match GenerateVariants env product variantCount with
  | .error err => (.error ("failed to generate variant texts: " ++ err), embeddingService)
  | .ok variantTexts =>
    if variantTexts.length = 0 then
      (.error "no valid variants generated", embeddingService)
    else
      match embeddingService.GetProductVariantEmbeddings api now variantTexts with
      | (.error err, svc) => (.error ("failed to get variant embeddings: " ++ err), svc)
      | (.panic msg, svc) => (.panic msg, svc)
      | (.ok productVariants, svc) =>
        (.ok (productVariants.map (fun pv => { pv with ProductID := product.ID })), svc)

/-! ### The match reason in the words of the specification -/

/-- The similarity tier label of the specification: high above 0.9, good above
0.7, basic otherwise. -/
def tierLabelSpec (score : Rat) : String :=
  if score > 9 / 10 then "高度语义匹配"
  else if score > 7 / 10 then "良好语义匹配"
  else "基础语义匹配"

/-- The labels of the filter dimensions in a match reason. -/
def filterLabels : List String :=
  ["品牌匹配", "颜色匹配", "价格范围匹配", "尺寸匹配"]

/-! ## Sample inputs for the variant filter -/

/-- A product with a Chinese name and category. -/
def redDress : Product :=
  { Name := "红裙", Category := "裙子" }

/-- A product with an English name and category. -/
def blueJeans : Product :=
  { Name := "Blue Jeans", Category := "Pants" }

/-- A product whose name is a single letter and whose category is empty. -/
def teeShirt : Product :=
  { Name := "T", Category := "" }

/-- A candidate of 40 Chinese characters that ends with the category token of
`redDress`. -/
def longChineseCandidate : String :=
  String.mk (List.replicate 38 '好' ++ ['裙', '子'])

/-! ### The prompt in the words of the specification -/

/-- The named placeholders of the prompt template. -/
def placeholders : List String :=
  ["\x7bvariant_count\x7d", "\x7bproduct_name\x7d", "\x7bcategory\x7d", "\x7bcolor\x7d",
   "\x7bprice\x7d", "\x7bbrand\x7d", "\x7bsize\x7d", "\x7bmaterial\x7d", "\x7bdescription\x7d"]

/-- The opening brace, with which every placeholder starts. -/
def openBrace : Char :=
  Char.ofNat 123

/-- The value substituted for a placeholder: the value itself, or the
unspecified marker when the value is empty. -/
def substitutedValue (value : String) : String :=
  if value = "" then "未指定" else value

/-- A piece of a template: literal text, or a placeholder. -/
inductive Piece where
  | text (s : String) : Piece
  | hole (key : String) : Piece

/-- The text of a piece. -/
def Piece.render : Piece → String
  | .text s => s
  | .hole key => key

/-- The template made of a list of pieces. -/
def renderPieces (pieces : List Piece) : String :=
  String.mk (pieces.flatMap (fun piece => piece.render.toList))

/-- A piece is well formed when its literal text has no opening brace and its
placeholder is one of the named ones. -/
def Piece.WellFormed : Piece → Bool
  | .text s => decide (openBrace ∉ s.toList)
  | .hole key => decide (key ∈ placeholders)

/-- A piece after the placeholder `key` was replaced by `value`. -/
def Piece.replace (key value : String) : Piece → Piece
  | .text s => .text s
  | .hole k => if k = key then .text value else .hole k

/-- A piece after every placeholder that has a value was replaced by its
substituted value. -/
def Piece.fill (values : List (String × String)) : Piece → Piece
  | .text s => .text s
  | .hole key =>
    match mapGet values key with
    | some value => .text (substitutedValue value)
    | none => .hole key

/-- The prompt of the specification: the template with each placeholder
replaced by its substituted value. -/
def fillSpec (values : List (String × String)) (pieces : List Piece) : String :=
  renderPieces (pieces.map (Piece.fill values))

/-! ## Sample inputs for the prompt -/

/-- A sample environment of the variant generation service: the template is the
placeholder of the product name alone, the chat endpoint is unreachable, and
`range` visits a map in the order in which it is written. -/
def sampleVariantEnv : VariantEnv :=
  { VariantPromptTemplate := "\x7bproduct_name\x7d"
    model := "chat"
    sendChatRequest := fun _ => .error "unreachable"
    Unmarshal := fun _ => .error "invalid character"
    lower := Char.toLower
    formatPrice := fun _ => "0.00"
    rangeOrder := id }

/-- A product whose name is the text of the color placeholder. -/
def bracedProduct : Product :=
  { Name := "\x7bcolor\x7d", Color := "red" }

/-- A template with three placeholders, as a list of pieces. -/
def samplePieces : List Piece :=
  [.text "Write ", .hole "\x7bvariant_count\x7d", .text " texts for ",
   .hole "\x7bproduct_name\x7d", .text " (", .hole "\x7bmaterial\x7d", .text ")."]

/-- A sample environment whose template is made of `samplePieces` and whose
`range` visits a map in the reverse of the order in which it is written. -/
def piecesVariantEnv : VariantEnv :=
  { sampleVariantEnv with
    VariantPromptTemplate := renderPieces samplePieces
    rangeOrder := List.reverse }

/-- A chat endpoint that fails with the prompt it was sent as its message. -/
def echoChat (request : OpenAIRequest) : Except String OpenAIResponse :=
  .error (String.join (request.Messages.map (fun message => message.Content)))

/-- A sample environment whose template holds the placeholder of the variant
count and whose chat endpoint is `echoChat`. -/
def countEnv : VariantEnv :=
  { sampleVariantEnv with
    VariantPromptTemplate := "Generate \x7bvariant_count\x7d variants"
    sendChatRequest := echoChat }

/-! ## The vector store: `InsertProduct`, `GetProduct`, `DeleteProduct`

The collection behind the Qdrant client is a list of points keyed by their
numeric point id: an upsert replaces the point that has the same id and adds
the point otherwise, a delete by filter removes the points that satisfy the
filter, a query by filter answers with points that satisfy it. A client call
that fails leaves the collection as it was. -/

/-- The struct `qdrant.PointStruct`; `Id` is the `uint64` of `qdrant.NewIDNum`. -/
structure PointStruct (V : Type) where
  Id : Nat
  Vectors : V
  Payload : Payload

/-- The conversion of a `[]string` to the `[]interface{}` stored in a payload
(lines 132-135, 141-144), as the payload value that `qdrant.NewValueMap` makes
of it. -/
def stringsValue (xs : List String) : Option QValue :=
  some (.list (xs.map (fun x => some (.string x))))

/-- The map literal with which `InsertProduct` starts the payload of a variant
(lines 110-128), as `qdrant.NewValueMap` converts it: a `string` becomes a
string value, the `float64` price a double value, the `int64` of `Unix()` an
integer value. -/
def InsertProduct.literal {V : Type} (product : Product) (variant : ProductVariant V) :
    Payload :=
  [("product_id", some (.string product.ID)),
   ("variant_id", some (.string variant.ID)),
   ("variant_text", some (.string variant.Text)),
   ("product_name", some (.string product.Name)),
   ("category", some (.string product.Category)),
   ("description", some (.string product.Description)),
   ("price", some (.double product.Price)),
   ("currency", some (.string product.Currency)),
   ("brand", some (.string product.Brand)),
   ("color", some (.string product.Color)),
   ("size", some (.string product.Size)),
   ("material", some (.string product.Material)),
   ("style", some (.string product.Style)),
   ("gender", some (.string product.Gender)),
   ("occasion", some (.string product.Occasion)),
   ("created_at", some (.integer product.CreatedAt.Unix)),
   ("updated_at", some (.integer product.UpdatedAt.Unix))]

/-- The payload that `InsertProduct` builds for a variant (lines 110-153).
`Sprint value` is `fmt.Sprintf("%v", value)`; the loop over the attribute map
visits it in list order. -/
def InsertProduct.payload {V : Type} (Sprint : Value → String) (product : Product)
    (variant : ProductVariant V) : Payload :=
  let payload : Payload := InsertProduct.literal product variant
  let payload :=
    if product.Tags.length > 0 then mapSet payload "tags" (stringsValue product.Tags)
    else payload
  let payload :=
    if product.ImageURLs.length > 0 then
      mapSet payload "image_urls" (stringsValue product.ImageURLs)
    else payload
  if product.Attributes.length > 0 then
    product.Attributes.foldl (fun (payload : Payload) (kv : String × Value) =>
      mapSet payload ("attr_" ++ kv.1) (some (.string (Sprint kv.2)))) payload
  else payload

/-- The points that `InsertProduct` builds (lines 105-163): one per variant,
the variant at index `i` with the point id `uint64(i + 1)`; an index of a
slice is below 2^63, so the conversion does not wrap. -/
def InsertProduct.points {V : Type} (Sprint : Value → String) (product : Product)
    (variants : List (ProductVariant V)) : List (PointStruct V) :=
  variants.enum.map (fun it =>
    { Id := it.1 + 1
      Vectors := it.2.Vector
      Payload := InsertProduct.payload Sprint product it.2 })

/-- The upsert of one point into a collection keyed by point id. -/
def upsertPoint {V : Type} : List (PointStruct V) → PointStruct V → List (PointStruct V)
  | [], p => [p]
  | q :: rest, p => if q.Id = p.Id then p :: rest else q :: upsertPoint rest p

/-- Whether a point satisfies the filter `Must: [NewMatch("product_id",
productID)]` of `GetProduct` and `DeleteProduct`. -/
def matchesProduct {V : Type} (productID : String) (p : PointStruct V) : Bool :=
  match mapGet p.Payload "product_id" with
  | some (some (.string id)) => decide (id = productID)
  | _ => false

/-- The struct `QdrantService` together with the collection behind its client:
the outcome of `ensureInitialized`, the points of the collection, the number of
client calls made so far, the error with which the client call number `k`
fails, if it fails, and the library function `fmt.Sprintf("%v", value)`. -/
structure QdrantStore (V : Type) where
  ensureInitialized : Except String Unit := .ok ()
  points : List (PointStruct V) := []
  calls : Nat := 0
  fault : Nat → Option String := fun _ => none
  Sprint : Value → String := fun _ => ""

/-- The method `InsertProduct`. -/
def QdrantStore.InsertProduct {V : Type} (s : QdrantStore V) (product : Product)
    (variants : List (ProductVariant V)) : Except String Unit × QdrantStore V :=
  match s.ensureInitialized with
  | .error err => (.error err, s)
  | .ok () =>
    let points := InsertProduct.points s.Sprint product variants
    match s.fault s.calls with
    | some err =>
      (.error ("failed to upsert points to Qdrant: " ++ err), { s with calls := s.calls + 1 })
    | none =>
      (.ok (), { s with calls := s.calls + 1, points := points.foldl upsertPoint s.points })

/-- The method `GetProduct`; the query with limit 1 answers with the first
point in storage order that satisfies the filter. -/
def QdrantStore.GetProduct {V : Type} (s : QdrantStore V) (productID : String) :
    Except String Product × QdrantStore V :=
  match s.ensureInitialized with
  | .error err => (.error err, s)
  | .ok () =>
    match s.fault s.calls with
    | some err =>
      (.error ("failed to query product from Qdrant: " ++ err), { s with calls := s.calls + 1 })
    | none =>
      let searchResult := (s.points.filter (matchesProduct productID)).take 1
      match searchResult with
      | [] => (.error "product not found in Qdrant", { s with calls := s.calls + 1 })
      | point :: _ => (.ok (parseProductFromPayload point.Payload), { s with calls := s.calls + 1 })

/-- The method `DeleteProduct`. -/
def QdrantStore.DeleteProduct {V : Type} (s : QdrantStore V) (productID : String) :
    Except String Unit × QdrantStore V :=
  match s.ensureInitialized with
  | .error err => (.error err, s)
  | .ok () =>
    match s.fault s.calls with
    | some err =>
      (.error ("failed to delete product from Qdrant: " ++ err), { s with calls := s.calls + 1 })
    | none =>
      (.ok (),
        { s with
          calls := s.calls + 1
          points := s.points.filter (fun p => !matchesProduct productID p) })

/-- The method `RegenerateVariants`, called with the cache-wrapped embedding
service. -/
def RegenerateVariants {V : Type} (env : VariantEnv) (api : EmbeddingAPI V) (now : Nat → Time)
    (productID : String) (variantCount : Int) (qdrantService : QdrantStore V)
    (embeddingService : CachedEmbeddingService V) :
    Outcome Unit × QdrantStore V × CachedEmbeddingService V :=
  match qdrantService.GetProduct productID with
  | (.error err, qdrant1) => (.error ("failed to get product: " ++ err), qdrant1, embeddingService)
  | (.ok product, qdrant1) =>
    match qdrant1.DeleteProduct productID with
    | (.error err, qdrant2) =>
      (.error ("failed to delete old variants: " ++ err), qdrant2, embeddingService)
    | (.ok (), qdrant2) =>
      match GenerateVariantsWithEmbeddings env api now product variantCount embeddingService with
      | (.error err, embedding1) =>
        (.error ("failed to generate new variants: " ++ err), qdrant2, embedding1)
      | (.panic msg, embedding1) => (.panic msg, qdrant2, embedding1)
      | (.ok variants, embedding1) =>
        match qdrant2.InsertProduct product variants with
        | (.error err, qdrant3) =>
          (.error ("failed to insert new variants: " ++ err), qdrant3, embedding1)
        | (.ok (), qdrant3) => (.ok (), qdrant3, embedding1)

/-! ## `ProductHandler.BatchImport` -/

/-- The struct `models.ProductCreateRequest`. -/
structure ProductCreateRequest where
  Name : String := ""
  Category : String := ""
  Description : String := ""
  Price : Rat := 0
  Currency : String := ""
  Brand : String := ""
  Color : String := ""
  Size : String := ""
  Material : String := ""
  Style : String := ""
  Gender : String := ""
  Occasion : String := ""
  ImageURLs : List String := []
  Tags : List String := []
  Attributes : GoMap := []

/-- The method `ToProduct`; `now` is the reading of the clock in it. -/
def ProductCreateRequest.ToProduct (now : Time) (req : ProductCreateRequest) : Product :=
  { Name := req.Name
    Category := req.Category
    Description := req.Description
    Price := req.Price
    Currency := req.Currency
    Brand := req.Brand
    Color := req.Color
    Size := req.Size
    Material := req.Material
    Style := req.Style
    Gender := req.Gender
    Occasion := req.Occasion
    ImageURLs := req.ImageURLs
    Tags := req.Tags
    Attributes := req.Attributes
    Status := "active"
    CreatedAt := now
    UpdatedAt := now }

/-- The struct `models.BatchImportRequest`. -/
structure BatchImportRequest where
  Products : List ProductCreateRequest

/-- The struct `models.BatchImportError`. -/
structure BatchImportError where
  Index : Nat
  Product : String
  Error : String
  deriving DecidableEq

/-- The struct `models.BatchImportResponse`. -/
structure BatchImportResponse where
  Total : Nat
  Success : Nat
  Failed : Nat
  Errors : List BatchImportError
  ProcessID : String
  deriving DecidableEq

/-- The struct `handlers.Response` with data of type `α`, together with the
HTTP status it is sent with. -/
structure ResponseOf (α : Type) where
  Status : Nat
  Code : Nat
  Message : String
  Data : Option α := none
  Timestamp : Int
  deriving DecidableEq

/-- The function `SuccessResponse`, for data of type `α`. -/
def SuccessResponseOf {α : Type} (now : Int) (data : α) : ResponseOf α :=
  { Status := 200, Code := 0, Message := "success", Data := some data, Timestamp := now }

/-- The function `BadRequestResponse`, for a handler with data of type `α`. -/
def BadRequestResponseOf {α : Type} (now : Int) (message : String) : ResponseOf α :=
  { Status := 400, Code := 400, Message := message, Timestamp := now }

/-- The surroundings of one `BatchImport` request: those of the variant
generation service, the embedding endpoint, the identifiers that the calls of
`uuid.New()` yield (the first is the process id, call `i + 1` is the id of the
product at index `i`), the readings of the clock while the product at index
`i` is processed (the first in `ToProduct`, the following in
`GetProductVariantEmbeddings`), and the time of the response. -/
structure ImportEnv (V : Type) where
  variants : VariantEnv
  api : EmbeddingAPI V
  uuid : Nat → String
  clock : Nat → Nat → Time
  now : Int

/-- The local variable `response` of `BatchImport` and the services of the
service manager that the loop uses. -/
structure ImportState (V : Type) where
  response : BatchImportResponse
  Embedding : CachedEmbeddingService V
  Qdrant : QdrantStore V

/-- The product that the loop of `BatchImport` makes of the request at index
`i` (lines 190-191). -/
def BatchImport.product {V : Type} (env : ImportEnv V) (it : Nat × ProductCreateRequest) :
    Product :=
  { it.2.ToProduct (env.clock it.1 0) with ID := env.uuid (it.1 + 1) }

/-- The body of the loop of `BatchImport` (lines 189-222) for the request at
index `i`; a panic leaves the loop. -/
def BatchImport.item {V : Type} (env : ImportEnv V) (st : ImportState V)
    (it : Nat × ProductCreateRequest) : Outcome (ImportState V) :=
  let i := it.1
  let product := BatchImport.product env it
  match GenerateVariantsWithEmbeddings env.variants env.api (fun k => env.clock i (k + 1))
      product 3 st.Embedding with
  | (.panic msg, _) => .panic msg
  | (.error err, embedding) =>
    .ok { st with
      Embedding := embedding
      response := { st.response with
        Failed := st.response.Failed + 1
        Errors := st.response.Errors ++
          [{ Index := i, Product := product.Name
             Error := "Failed to generate variants: " ++ err }] } }
  | (.ok variants, embedding) =>
    match st.Qdrant.InsertProduct product variants with
    | (.error err, qdrant) =>
      .ok { Embedding := embedding
            Qdrant := qdrant
            response := { st.response with
              Failed := st.response.Failed + 1
              Errors := st.response.Errors ++
                [{ Index := i, Product := product.Name
                   Error := "Failed to save product: " ++ err }] } }
    | (.ok (), qdrant) =>
      .ok { Embedding := embedding
            Qdrant := qdrant
            response := { st.response with Success := st.response.Success + 1 } }

/-- The loop `for i, productReq := range req.Products` of `BatchImport`. -/
def BatchImport.loop {V : Type} (env : ImportEnv V) :
    List (Nat × ProductCreateRequest) → ImportState V → Outcome (ImportState V)
  | [], st => .ok st
  | it :: rest, st =>
    match BatchImport.item env st it with
    | .ok st1 => BatchImport.loop env rest st1
    | .error err => .error err
    | .panic msg => .panic msg

/-- The handler `BatchImport`; `bound` is the outcome of
`c.ShouldBindJSON(&req)`. The result is the response, with the services as the
request leaves them, or the panic that ended the handler. -/
def BatchImport {V : Type} (env : ImportEnv V) (Embedding : CachedEmbeddingService V)
    (Qdrant : QdrantStore V) (bound : Except String BatchImportRequest) :
    Outcome (ResponseOf BatchImportResponse × CachedEmbeddingService V × QdrantStore V) :=
  match bound with
  | .error err => .ok (BadRequestResponseOf env.now ("Invalid request: " ++ err), Embedding, Qdrant)
  | .ok req =>
    let processID := env.uuid 0
    let response : BatchImportResponse :=
      { Total := req.Products.length
        Success := 0
        Failed := 0
        Errors := []
        ProcessID := processID }
    match BatchImport.loop env req.Products.enum
        { response := response, Embedding := Embedding, Qdrant := Qdrant } with
    | .ok st => .ok (SuccessResponseOf env.now st.response, st.Embedding, st.Qdrant)
    | .error err => .error err
    | .panic msg => .panic msg

/-! ### The failing items of a batch, in the words of the specification -/

/-- Whether the request at index `i` fails when it is processed in the state
`st`: the variant generation or the insertion returns an error. -/
def BatchImport.itemFails {V : Type} (env : ImportEnv V) (st : ImportState V)
    (it : Nat × ProductCreateRequest) : Bool :=
  match GenerateVariantsWithEmbeddings env.variants env.api (fun k => env.clock it.1 (k + 1))
      (BatchImport.product env it) 3 st.Embedding with
  | (.panic _, _) => false
  | (.error _, _) => true
  | (.ok variants, _) => isError (st.Qdrant.InsertProduct (BatchImport.product env it) variants).1

/-- The indices of the failing items of a batch, in the order in which the
items are processed, each item in the state that the items before it left. -/
def BatchImport.failingItems {V : Type} (env : ImportEnv V) :
    List (Nat × ProductCreateRequest) → ImportState V → List Nat
  | [], _ => []
  | it :: rest, st =>
    match BatchImport.item env st it with
    | .ok st1 =>
      (if BatchImport.itemFails env st it = true then [it.1] else [])
        ++ BatchImport.failingItems env rest st1
    | .error _ => []
    | .panic _ => []

/-- The outcome of a call with a function applied to the value returned. -/
def Outcome.map {α β : Type} (f : α → β) : Outcome α → Outcome β
  | .ok a => .ok (f a)
  | .error err => .error err
  | .panic msg => .panic msg

/-! ## `EmbeddingService.BatchEmbedding` -/

/-- The loop `for i := 0; i < len(texts); i += batchSize` of `BatchEmbedding`
(lines 164-182) from the index `i` on, for at most `fuel` iterations: `none`
when the iterations do not suffice. The pause between two batches does not
change a value and is left out. -/
def BatchEmbedding.loop {V : Type} (api : EmbeddingAPI V) (texts : List String)
    (batchSize : Nat) :
    Nat → Nat → List V → EmbeddingService → Option (Except String (List V) × EmbeddingService)
  | 0, i, allEmbeddings, s => if i < texts.length then none else some (.ok allEmbeddings, s)
  | fuel + 1, i, allEmbeddings, s =>
    if i < texts.length then
      let stop := if i + batchSize > texts.length then texts.length else i + batchSize
      let batch := (texts.take stop).drop i
      match s.GetEmbeddings api batch with
      | (.error err, s1) =>
        some (.error ("failed to process batch " ++ toString i ++ "-" ++ toString stop ++ ": "
          ++ err), s1)
      | (.ok embeddings, s1) =>
        BatchEmbedding.loop api texts batchSize fuel (i + batchSize) (allEmbeddings ++ embeddings)
          s1
    else some (.ok allEmbeddings, s)

/-- The method `BatchEmbedding`; the loop is given one iteration per text. -/
def EmbeddingService.BatchEmbedding {V : Type} (api : EmbeddingAPI V) (s : EmbeddingService)
    (texts : List String) (batchSize : Int) :
    Option (Except String (List V) × EmbeddingService) :=
  let batchSize : Nat := if batchSize ≤ 0 then 100 else batchSize.toNat
  BatchEmbedding.loop api texts batchSize texts.length 0 [] s

/-! ## `SearchHandler.GetSuggestions` -/

/-- The struct `models.SearchSuggestionsResponse`. -/
structure SearchSuggestionsResponse where
  Query : String
  Suggestions : List String
  deriving DecidableEq

/-- The surroundings of one `GetSuggestions` request: the outcome of
`FunctionCalling.GetQuerySuggestions` on each query, the library call
`fmt.Sscanf(limitStr, "%d", &limit)` (the integer it stores when it reads one
item without error), and the clock. -/
structure SuggestionsEnv where
  GetQuerySuggestions : String → Except String (List String)
  Sscanf : String → Option Int
  now : Int

/-- The slice expression `suggestions[:limit]` for an `int` limit that is not
above the length: it panics when the limit is negative. -/
def sliceTo (suggestions : List String) (limit : Int) : Outcome (List String) :=
  if limit < 0 then .panic "slice bounds out of range" else .ok (suggestions.take limit.toNat)

/-- The method `getDefaultSuggestions`. -/
def getDefaultSuggestions (query : String) (limit : Int) : Outcome (List String) :=
  let suggestions : List String :=
    [query ++ " 黑色", query ++ " 白色", query ++ " 蓝色", query ++ " 100元以下",
     query ++ " 200元以下", query ++ " 品牌", query ++ " 大码", query ++ " 小码"]
  if (suggestions.length : Int) > limit then sliceTo suggestions limit else .ok suggestions

/-- The limit of `GetSuggestions` (lines 117-124); `limitParam` is the query
parameter `limit`, if the request has one. -/
def GetSuggestions.limit (env : SuggestionsEnv) (limitParam : Option String) : Int :=
  let limitStr := limitParam.getD "5"
  let limit : Int :=
    match env.Sscanf limitStr with
    | some l => l
    | none => 5
  if limit > 20 then 20 else limit

/-- The truncation at the end of `GetSuggestions` (lines 137-139). -/
def GetSuggestions.truncate (suggestions : List String) (limit : Int) : Outcome (List String) :=
  if (suggestions.length : Int) > limit then sliceTo suggestions limit else .ok suggestions

/-- The handler `GetSuggestions`; `query` and `limitParam` are the query
parameters of the request. -/
def GetSuggestions (env : SuggestionsEnv) (query : String) (limitParam : Option String) :
    Outcome (ResponseOf SearchSuggestionsResponse) :=
  if query = "" then
    .ok (BadRequestResponseOf env.now "Query parameter is required")
  else
    let limit := GetSuggestions.limit env limitParam
    let suggestions : Outcome (List String) :=
      match env.GetQuerySuggestions query with
      | .error _ => getDefaultSuggestions query limit
      | .ok suggestions => .ok suggestions
    match suggestions with
    | .panic msg => .panic msg
    | .error err => .error err
    | .ok suggestions =>
      match GetSuggestions.truncate suggestions limit with
      | .panic msg => .panic msg
      | .error err => .error err
      | .ok suggestions =>
        .ok (SuccessResponseOf env.now { Query := query, Suggestions := suggestions })

/-! ## Sample inputs for the vector store -/

/-- A product with the identifier "A". -/
def lampA : Product :=
  { ID := "A", Name := "green lamp", Category := "lamps", Status := "active" }

/-- A product with the identifier "B". -/
def tableB : Product :=
  { ID := "B", Name := "white table", Category := "tables", Status := "active" }

/-- A variant with the given text, the vector `[1]` and no product id yet. -/
def sampleVariant (text : String) : ProductVariant (List Nat) :=
  { ID := "variant_0_0", Text := text, Vector := [1], GeneratedAt := {} }

/-- What a point shows of itself: its id, the product id and the variant text
of its payload. -/
def PointStruct.summary {V : Type} (p : PointStruct V) : Nat × String × String :=
  (p.Id, extractStringFromValue ((mapGet p.Payload "product_id").getD none),
    extractStringFromValue ((mapGet p.Payload "variant_text").getD none))

/-- A collection with two points of the product "A" and one of the product
"B", behind a client that does not fail. -/
def sampleStore : QdrantStore (List Nat) :=
  { points :=
      [{ Id := 1, Vectors := [1]
         Payload := InsertProduct.payload (fun _ => "") lampA (sampleVariant "green desk lamp") },
       { Id := 2, Vectors := [1]
         Payload := InsertProduct.payload (fun _ => "") lampA (sampleVariant "green floor lamp") },
       { Id := 3, Vectors := [1]
         Payload := InsertProduct.payload (fun _ => "") tableB (sampleVariant "white oak table") }] }

/-! ## Sample inputs for `BatchImport` -/

/-- A sample environment of a batch import: the prompt is the product name,
the chat endpoint times out for the product "broken lamp" and answers every
other prompt with the prompt itself, which is taken as the single variant; the
embedding endpoint answers the text at position `i` with the vector `[i]`. -/
def importEnv : ImportEnv (List Nat) :=
  { variants :=
      { sampleVariantEnv with
        sendChatRequest := fun request =>
          match request.Messages with
          | [message] =>
            if message.Content = "broken lamp" then .error "timeout"
            else .ok { Choices := [{ Message := { Role := "assistant", Content := message.Content } }] }
          | _ => .error "bad request"
        Unmarshal := fun content => .ok [content] }
    api := positionAPI
    uuid := fun k => String.mk ['i', 'd', Char.ofNat (48 + k)]
    clock := fun _ _ => {}
    now := 0 }

/-- A batch of three products, of which the chat endpoint of `importEnv` fails
for the second. -/
def sampleBatch : BatchImportRequest :=
  { Products :=
      [{ Name := "green lamp", Category := "lamps" },
       { Name := "broken lamp", Category := "lamps" },
       { Name := "white table", Category := "tables" }] }

/-! ### The match reason of a filter, in the words of the specification -/

/-- The label that a key of the filter contributes to the match reason, if it
contributes one. -/
def labelOf (key : String) : Option String :=
  if key = "brand" then some "品牌匹配"
  else if key = "color" then some "颜色匹配"
  else if key = "price_min" ∨ key = "price_max" then some "价格范围匹配"
  else if key = "size" then some "尺寸匹配"
  else none

/-- The labels of the keys of a filter, in the order in which the keys are
visited. -/
def labelsOf (filter : GoMap) : List String :=
  filter.filterMap (fun kv => labelOf kv.1)

/-- The two-part match reason: the tier label, followed when there are labels
by the separator and the labels joined. -/
def reasonSpec (score : Rat) (labels : List String) : String :=
  if labels = [] then tierLabelSpec score
  else tierLabelSpec score ++ " + " ++ String.intercalate "、" labels

/-! ## Sample inputs for the cached lookup and the suggestions -/

/-- An embedding endpoint that answers every request with one vector more than
it has texts. -/
def extraAnswerAPI : EmbeddingAPI (List Nat) :=
  fun _ texts => .ok ([0] :: texts.map (fun _ => [1]))

/-- A sample environment of `GetSuggestions`: the suggestion service is
unreachable, and `fmt.Sscanf` reads the texts "-1", "0" and "3" as the
integers they denote and fails on every other text but "5". -/
def suggestionsEnv : SuggestionsEnv :=
  { GetQuerySuggestions := fun _ => .error "unreachable"
    Sscanf := fun limitStr =>
      if limitStr = "-1" then some (-1)
      else if limitStr = "0" then some 0
      else if limitStr = "3" then some 3
      else if limitStr = "5" then some 5
      else none
    now := 0 }

/-! # Theorems -/

/-! ## Validation -/

/-- C1: `ValidateQuery` returns an error exactly when product_type is empty, or
both price bounds are present with price_min > price_max, or a present
price_min is negative, or a present price_max is negative; hence every intent
it accepts has price_min <= price_max whenever both bounds are present. -/
theorem ValidateQuery_error_iff (pq : ParsedQuery) :
    (isError (ValidateQuery pq) = true ↔
      (pq.ProductType = "" ∨
        (∃ lo hi, pq.PriceMin = some lo ∧ pq.PriceMax = some hi ∧ lo > hi) ∨
        (∃ lo, pq.PriceMin = some lo ∧ lo < 0) ∨
        (∃ hi, pq.PriceMax = some hi ∧ hi < 0))) ∧
    (ValidateQuery pq = .ok () →
      ∀ lo hi, pq.PriceMin = some lo → pq.PriceMax = some hi → lo ≤ hi) := by
  obtain ⟨pt, c, pmin, pmax, b, sz, m, st, o, g, f⟩ := pq
  constructor
  · unfold ValidateQuery
    by_cases hpt : pt = ""
    · simp [hpt, isError]
    · cases pmin <;> cases pmax <;> simp [hpt] <;> (try split_ifs) <;> simp_all [isError]
  · intro hok lo hi hlo hhi
    simp only at hlo hhi
    subst hlo hhi
    by_contra hgt
    push_neg at hgt
    unfold ValidateQuery at hok
    by_cases hpt : pt = ""
    · simp [hpt] at hok
    · simp [hpt, hgt] at hok

/-! ## Filter construction -/

theorem foldl_append_singleton {α β : Type} (f : α → β) (l : List α) (init : List β) :
    l.foldl (fun acc a => acc ++ [f a]) init = init ++ l.map f := by
  induction l generalizing init with
  | nil => simp
  | cons a l ih => simp [ih]

theorem scalar_step (must : List GoMap) (key value : String) :
    (if value ≠ "" then must ++ [matchClause key (.string value)] else must)
      = must ++ scalarClauseSpec key value := by
  unfold scalarClauseSpec matchClause
  by_cases h : value = "" <;> simp [h]

theorem price_step (must : List GoMap) (lo hi : Option Rat) :
    (if (lo.isSome || hi.isSome) = true then must ++ [priceRangeClause lo hi] else must)
      = must ++ priceClauseSpec lo hi := by
  cases lo <;> cases hi <;>
    simp [priceClauseSpec, priceRangeClause, boundSpec, mapSet]

/-- The filter map of `ToQdrantFilter`: a single key `"must"`, and under it the
clauses one by one. -/
theorem ToQdrantFilter_eq (pq : ParsedQuery) :
    pq.ToQdrantFilter
      = [("must", .maps (fieldClausesSpec pq ++ statusClauseSpec :: dynamicClausesSpec pq.Filters))] := by
  unfold ParsedQuery.ToQdrantFilter
  simp only [scalar_step, price_step, List.nil_append]
  rw [foldl_append_singleton (fun kv : String × Value => matchClause kv.1 kv.2)]
  rw [if_pos (by simp)]
  simp [fieldClausesSpec, dynamicClausesSpec, statusClauseSpec, matchClause, scalarClauseSpec,
    mapSet]

theorem mustList_ToQdrantFilter (pq : ParsedQuery) :
    mustList pq.ToQdrantFilter
      = some (fieldClausesSpec pq ++ statusClauseSpec :: dynamicClausesSpec pq.Filters) := by
  rw [ToQdrantFilter_eq]
  simp [mustList, mapGet, List.lookup]

/-- C3: the must list built by `ToQdrantFilter` consists of exactly one
exact-match clause per non-empty field among color, brand, size, material,
style, occasion, gender (none for an empty field), one range clause on price
exactly when a bound is present (with gte exactly when price_min is present and
lte exactly when price_max is present), the clause status = active, and one
exact-match clause per entry of the free-form filter map; an intent whose only
set field is color = "red" yields exactly two clauses. -/
theorem ToQdrantFilter_must_clauses (pq : ParsedQuery) :
    (∃ must, mustList pq.ToQdrantFilter = some must ∧
      must = fieldClausesSpec pq ++ statusClauseSpec :: dynamicClausesSpec pq.Filters ∧
      List.Perm must
        (fieldClausesSpec pq ++ dynamicClausesSpec pq.Filters ++ [statusClauseSpec]) ∧
      must.length = (fieldClausesSpec pq).length + pq.Filters.length + 1) ∧
    mustList (ParsedQuery.ToQdrantFilter { Color := "red" })
      = some [[("key", .string "color"), ("match", .map [("value", .string "red")])],
          [("key", .string "status"), ("match", .map [("value", .string "active")])]] := by
  refine ⟨⟨_, mustList_ToQdrantFilter pq, rfl, ?_, ?_⟩, rfl⟩
  · exact List.perm_middle.trans (List.perm_append_singleton _ _).symm
  · simp [dynamicClausesSpec]
    omega

/-- C4 (as stated, refuted): for the intent whose only content is the free-form
filter season = "summer", the last element of the must list is the clause
season = "summer", not the clause status = active. -/
theorem ToQdrantFilter_status_not_last :
    (mustList (ParsedQuery.ToQdrantFilter { Filters := [("season", .string "summer")] })).bind
        List.getLast?
      = some [("key", .string "season"), ("match", .map [("value", .string "summer")])] ∧
    (mustList (ParsedQuery.ToQdrantFilter { Filters := [("season", .string "summer")] })).bind
        List.getLast? ≠ some statusClauseSpec := by
  constructor
  · rfl
  · simp [mustList_ToQdrantFilter, statusClauseSpec, dynamicClausesSpec]

/-- C4 (amended): for every intent the clause status = active is in the must
list of `ToQdrantFilter`, after the scalar and price clauses and before the
clauses of the free-form filter map; it is the last element when the free-form
filter map is empty, and otherwise the last element is the clause of the last
visited entry of that map. -/
theorem ToQdrantFilter_status_position (pq : ParsedQuery) :
    mustList pq.ToQdrantFilter
      = some (fieldClausesSpec pq ++ statusClauseSpec :: dynamicClausesSpec pq.Filters) ∧
    (pq.Filters = [] →
      (mustList pq.ToQdrantFilter).bind List.getLast? = some statusClauseSpec) ∧
    (∀ rest kv, pq.Filters = rest ++ [kv] →
      (mustList pq.ToQdrantFilter).bind List.getLast?
        = some [("key", .string kv.1), ("match", .map [("value", kv.2)])]) := by
  refine ⟨mustList_ToQdrantFilter pq, ?_, ?_⟩
  · intro h
    simp [mustList_ToQdrantFilter, h, dynamicClausesSpec]
  · intro rest kv h
    simp [mustList_ToQdrantFilter, h, dynamicClausesSpec, List.getLast?_append,
      List.getLast?_cons]

/-- C2 (code defect): for every intent, the request that `SearchProducts`
builds from the filter `ToQdrantFilter(intent)` carries no filter at all: the
composed filter has the single key `"must"`, which the `switch` of
`SearchProducts` does not handle, so the request is the one built for an empty
filter and no condition status = active reaches the vector store. For the
intent color = "red", a store that honours filters and holds one inactive
product returns that product. -/
theorem SearchProducts_drops_composed_filter {V : Type} (collectionName : String)
    (queryVector : V) (pq : ParsedQuery) (limit : Int) :
    (buildQueryRequest collectionName queryVector pq.ToQdrantFilter limit).Filter = none ∧
    buildQueryRequest collectionName queryVector pq.ToQdrantFilter limit
      = buildQueryRequest collectionName queryVector [] limit ∧
    (inactiveStore.SearchProducts [1] (ParsedQuery.ToQdrantFilter { Color := "red" }) 10).toOption.map
        (List.map (fun result => result.Product.map (fun product => product.ID)))
      = some [some "p1"] := by
  rw [ToQdrantFilter_eq]
  refine ⟨?_, ?_, ?_⟩
  · simp [buildQueryRequest, conditionStep]
  · simp [buildQueryRequest, conditionStep]
  · rfl

/-! ## Query enhancement -/

theorem mapGet_of_not_key {β : Type} (m : List (String × β)) (k : String)
    (h : ∀ kv ∈ m, k ≠ kv.1) : mapGet m k = none := by
  induction m with
  | nil => rfl
  | cons kv m ih =>
    obtain ⟨k0, v0⟩ := kv
    have h0 : k ≠ k0 := h (k0, v0) (List.mem_cons_self _ _)
    have hbeq : (k == k0) = false := by simpa using h0
    simp only [mapGet, List.lookup, hbeq]
    exact ih (fun kv hkv => h kv (List.mem_cons_of_mem _ hkv))

theorem EnhanceQuery_ProductType (pq : ParsedQuery) :
    (EnhanceQuery pq).ProductType = (mapGet productTypeMap pq.ProductType).getD pq.ProductType := by
  obtain ⟨pt, c, pmin, pmax, b, sz, m, st, o, g, f⟩ := pq
  cases h1 : mapGet productTypeMap pt <;> cases h2 : mapGet colorMap c <;>
    cases h3 : mapGet sizeMap sz <;> simp [EnhanceQuery, h1, h2, h3]

theorem EnhanceQuery_Color (pq : ParsedQuery) :
    (EnhanceQuery pq).Color = (mapGet colorMap pq.Color).getD pq.Color := by
  obtain ⟨pt, c, pmin, pmax, b, sz, m, st, o, g, f⟩ := pq
  cases h1 : mapGet productTypeMap pt <;> cases h2 : mapGet colorMap c <;>
    cases h3 : mapGet sizeMap sz <;> simp [EnhanceQuery, h1, h2, h3]

theorem EnhanceQuery_Size (pq : ParsedQuery) :
    (EnhanceQuery pq).Size = (mapGet sizeMap pq.Size).getD pq.Size := by
  obtain ⟨pt, c, pmin, pmax, b, sz, m, st, o, g, f⟩ := pq
  cases h1 : mapGet productTypeMap pt <;> cases h2 : mapGet colorMap c <;>
    cases h3 : mapGet sizeMap sz <;> simp [EnhanceQuery, h1, h2, h3]

theorem productTypeMap_keys : ∀ kv ∈ productTypeMap, mapGet productTypeMap kv.1 = some kv.2 := by
  decide

theorem colorMap_keys : ∀ kv ∈ colorMap, mapGet colorMap kv.1 = some kv.2 := by
  decide

theorem sizeMap_keys : ∀ kv ∈ sizeMap, mapGet sizeMap kv.1 = some kv.2 := by
  decide

/-- C5: `EnhanceQuery` replaces product_type, color and size, each on its own,
by the table value when the field is exactly a key of its table (product_type
"牛仔服" becomes "牛仔裤"), and leaves the field unchanged when it is not exactly
a key: a longer string containing a key, another letter case, or added
whitespace do not match. -/
theorem EnhanceQuery_exact_lookup (pq : ParsedQuery) :
    ((∀ k v, (k, v) ∈ productTypeMap → pq.ProductType = k → (EnhanceQuery pq).ProductType = v) ∧
      ((∀ kv ∈ productTypeMap, pq.ProductType ≠ kv.1) →
        (EnhanceQuery pq).ProductType = pq.ProductType)) ∧
    ((∀ k v, (k, v) ∈ colorMap → pq.Color = k → (EnhanceQuery pq).Color = v) ∧
      ((∀ kv ∈ colorMap, pq.Color ≠ kv.1) → (EnhanceQuery pq).Color = pq.Color)) ∧
    ((∀ k v, (k, v) ∈ sizeMap → pq.Size = k → (EnhanceQuery pq).Size = v) ∧
      ((∀ kv ∈ sizeMap, pq.Size ≠ kv.1) → (EnhanceQuery pq).Size = pq.Size)) ∧
    (EnhanceQuery { pq with ProductType := "牛仔服" }).ProductType = "牛仔裤" ∧
    (EnhanceQuery { pq with ProductType := "牛仔服装" }).ProductType = "牛仔服装" ∧
    (EnhanceQuery { pq with ProductType := "t恤衫" }).ProductType = "t恤衫" ∧
    (EnhanceQuery { pq with Color := " 红" }).Color = " 红" ∧
    (EnhanceQuery { pq with Size := "小 " }).Size = "小 " := by
  refine ⟨⟨?_, ?_⟩, ⟨?_, ?_⟩, ⟨?_, ?_⟩, ?_, ?_, ?_, ?_, ?_⟩
  · intro k v hmem hk
    rw [EnhanceQuery_ProductType, hk, productTypeMap_keys (k, v) hmem]
    rfl
  · intro h
    rw [EnhanceQuery_ProductType, mapGet_of_not_key _ _ h]
    rfl
  · intro k v hmem hk
    rw [EnhanceQuery_Color, hk, colorMap_keys (k, v) hmem]
    rfl
  · intro h
    rw [EnhanceQuery_Color, mapGet_of_not_key _ _ h]
    rfl
  · intro k v hmem hk
    rw [EnhanceQuery_Size, hk, sizeMap_keys (k, v) hmem]
    rfl
  · intro h
    rw [EnhanceQuery_Size, mapGet_of_not_key _ _ h]
    rfl
  · rw [EnhanceQuery_ProductType]; dsimp only; decide
  · rw [EnhanceQuery_ProductType]; dsimp only; decide
  · rw [EnhanceQuery_ProductType]; dsimp only; decide
  · rw [EnhanceQuery_Color]; dsimp only; decide
  · rw [EnhanceQuery_Size]; dsimp only; decide

/-- C6 (as stated, refuted): the size "small" is not a key of the size table;
the enhanced intent keeps size "small", which is not "S". -/
theorem EnhanceQuery_small_unchanged :
    (EnhanceQuery { Size := "small" }).Size = "small" ∧
    (EnhanceQuery { Size := "small" }).Size ≠ "S" := by
  decide

/-- C6 (amended): `EnhanceQuery` maps the colloquial size term "小" (small) to
the canonical size "S" for every intent whose size is "小"; the English word
"small" is not a key of the size table and is left unchanged. -/
theorem EnhanceQuery_size_table_small (pq : ParsedQuery) :
    (pq.Size = "小" → (EnhanceQuery pq).Size = "S") ∧
    (pq.Size = "small" → (EnhanceQuery pq).Size = "small") := by
  constructor <;> intro h <;> rw [EnhanceQuery_Size, h] <;> decide

/-- Witness for C6 (amended), at the intent of size "小". -/
theorem EnhanceQuery_size_table_small_witness :
    (EnhanceQuery { Size := "小" }).Size = "S" :=
  (EnhanceQuery_size_table_small { Size := "小" }).1 rfl

/-! ## The search pipeline -/

theorem mapGet_some_mem {β : Type} (m : List (String × β)) (k : String) (v : β)
    (h : mapGet m k = some v) : (k, v) ∈ m := by
  induction m with
  | nil => simp [mapGet, List.lookup] at h
  | cons kv m ih =>
    obtain ⟨k0, v0⟩ := kv
    by_cases hk : k = k0
    · subst hk
      simp [mapGet, List.lookup] at h
      simp [h]
    · have hbeq : (k == k0) = false := by simpa using hk
      simp only [mapGet, List.lookup, hbeq] at h
      exact List.mem_cons_of_mem _ (ih h)

theorem productTypeMap_values : ∀ kv ∈ productTypeMap, kv.2 ≠ "" := by
  decide

theorem EnhanceQuery_ProductType_eq_empty (pq : ParsedQuery) :
    (EnhanceQuery pq).ProductType = "" ↔ pq.ProductType = "" := by
  rw [EnhanceQuery_ProductType]
  cases h : mapGet productTypeMap pq.ProductType with
  | none => simp
  | some v =>
    have hmem := mapGet_some_mem _ _ _ h
    have hv : v ≠ "" := productTypeMap_values _ hmem
    have hk : pq.ProductType ≠ "" := by
      intro h0
      rw [h0] at h
      have hnone : mapGet productTypeMap "" = none := by decide
      rw [hnone] at h
      cases h
    simp [hv, hk]

theorem Search_eq_afterValidation {V : Type} (env : SearchEnv V)
    (embedding : CachedEmbeddingService V) (req : SearchRequest) (hq : req.Query ≠ "") :
    Search env embedding (.ok req)
      = Search.afterValidation env embedding req (Search.limit env.MaxResults req.Limit)
          (Search.parsedQuery (env.ParseQuery req.Query) req.Query) := by
  unfold Search
  simp only [hq, if_false]
  split <;> rfl

theorem afterValidation_embedding_error {V : Type} (env : SearchEnv V)
    (embedding : CachedEmbeddingService V) (req : SearchRequest) (limit : Int)
    (parsedQuery : ParsedQuery) (err : String) (e1 : CachedEmbeddingService V)
    (hE : embedding.GetEmbedding env.api
        (Search.searchText (EnhanceQuery parsedQuery) req.Query) = (.error err, e1)) :
    Search.afterValidation env embedding req limit parsedQuery
      = (InternalErrorResponse env.now "Failed to process search query", e1) := by
  simp only [Search.afterValidation, hE]

theorem afterValidation_success {V : Type} (env : SearchEnv V)
    (embedding : CachedEmbeddingService V) (req : SearchRequest) (limit : Int)
    (parsedQuery : ParsedQuery) (v : V) (e1 : CachedEmbeddingService V)
    (results : List SearchResult)
    (hE : embedding.GetEmbedding env.api
        (Search.searchText (EnhanceQuery parsedQuery) req.Query) = (.ok v, e1))
    (hQ : env.Qdrant.SearchProducts v (EnhanceQuery parsedQuery).ToQdrantFilter limit
        = .ok results) :
    (Search.afterValidation env embedding req limit parsedQuery).1
      = SuccessResponse env.now
          { Query := req.Query
            Total := results.length
            Results := results
            ParsedQuery := some (EnhanceQuery parsedQuery)
            TimeTaken := env.timeTaken } := by
  simp only [Search.afterValidation, hE, hQ]

theorem afterValidation_state {V : Type} (env : SearchEnv V)
    (embedding : CachedEmbeddingService V) (req : SearchRequest) (limit : Int)
    (parsedQuery : ParsedQuery) :
    (Search.afterValidation env embedding req limit parsedQuery).2
      = (embedding.GetEmbedding env.api
          (Search.searchText (EnhanceQuery parsedQuery) req.Query)).2 := by
  simp only [Search.afterValidation]
  rcases embedding.GetEmbedding env.api
      (Search.searchText (EnhanceQuery parsedQuery) req.Query) with ⟨r, e1⟩
  cases r with
  | error err => rfl
  | ok v =>
    simp only
    split <;> rfl


/-- C7: in `Search`, for every non-empty raw query and every outcome of
`ParseQuery`: when parsing fails the intent used has product_type = raw query
as its only set field; `GetSearchQuery` returns the product_type of the intent
(the empty string when it is empty); the embedded text is the product_type of
the enhanced intent when that is non-empty and the raw query otherwise, it is
never empty, and it is the text handed to the embedding service; `Search`
answers with success whenever the embedding and the store query succeed,
whatever the outcome of parsing and validation, and an error answer comes from
a failed embedding or a failed store query only. -/
theorem Search_fallback_embeds_nonempty_text {V : Type} (env : SearchEnv V)
    (embedding : CachedEmbeddingService V) (req : SearchRequest) (hq : req.Query ≠ "") :
    let parsedQuery := Search.parsedQuery (env.ParseQuery req.Query) req.Query
    let enhancedQuery := EnhanceQuery parsedQuery
    let searchText := Search.searchText enhancedQuery req.Query
    let limit := Search.limit env.MaxResults req.Limit
    (∀ err, env.ParseQuery req.Query = .error err → parsedQuery = { ProductType := req.Query }) ∧
    (∀ pq : ParsedQuery, pq.GetSearchQuery = pq.ProductType) ∧
    searchText
      = (if enhancedQuery.ProductType ≠ "" then enhancedQuery.ProductType else req.Query) ∧
    searchText ≠ "" ∧
    (Search env embedding (.ok req)).2 = (embedding.GetEmbedding env.api searchText).2 ∧
    (embedding.cache.Get searchText = none →
      (Search env embedding (.ok req)).2.EmbeddingService.sent
        = embedding.EmbeddingService.sent ++ [[searchText]]) ∧
    (∀ queryVector results,
      (embedding.GetEmbedding env.api searchText).1 = .ok queryVector →
      env.Qdrant.SearchProducts queryVector enhancedQuery.ToQdrantFilter limit = .ok results →
      (Search env embedding (.ok req)).1
        = SuccessResponse env.now
            { Query := req.Query
              Total := results.length
              Results := results
              ParsedQuery := some enhancedQuery
              TimeTaken := env.timeTaken }) ∧
    ((Search env embedding (.ok req)).1.Status ≠ 200 →
      isError (embedding.GetEmbedding env.api searchText).1 = true ∨
      ∃ queryVector, (embedding.GetEmbedding env.api searchText).1 = .ok queryVector ∧
        isError (env.Qdrant.SearchProducts queryVector enhancedQuery.ToQdrantFilter limit)
          = true) := by
  intro parsedQuery enhancedQuery searchText limit
  have hget : ∀ pq : ParsedQuery, pq.GetSearchQuery = pq.ProductType := by
    intro pq
    unfold ParsedQuery.GetSearchQuery
    by_cases h : pq.ProductType = "" <;> simp [h]
  have htext : searchText
      = (if enhancedQuery.ProductType ≠ "" then enhancedQuery.ProductType else req.Query) := by
    show Search.searchText enhancedQuery req.Query = _
    unfold Search.searchText
    rw [hget]
    by_cases h : enhancedQuery.ProductType = "" <;> simp [h]
  have hne : searchText ≠ "" := by
    rw [htext]
    by_cases h : enhancedQuery.ProductType = "" <;> simp [h, hq]
  have hS := Search_eq_afterValidation env embedding req hq
  have hsent : (embedding.GetEmbedding env.api searchText).2.EmbeddingService.sent
      = (if (embedding.cache.Get searchText).isSome then embedding.EmbeddingService.sent
          else embedding.EmbeddingService.sent ++ [[searchText]]) := by
    unfold CachedEmbeddingService.GetEmbedding
    cases hc : embedding.cache.Get searchText with
    | some v => rfl
    | none =>
      unfold EmbeddingService.GetEmbedding EmbeddingService.GetEmbeddings
      simp only [List.length_singleton, one_ne_zero, if_false]
      cases env.api embedding.EmbeddingService.sent.length [searchText] with
      | error err => rfl
      | ok vs => cases vs <;> rfl
  rcases hE : embedding.GetEmbedding env.api searchText with ⟨r, e1⟩
  rw [hE] at hsent
  cases r with
  | error err =>
    have hA := afterValidation_embedding_error env embedding req limit parsedQuery err e1 hE
    refine ⟨?_, hget, htext, hne, ?_, ?_, ?_, ?_⟩
    · intro err herr
      show Search.parsedQuery (env.ParseQuery req.Query) req.Query = _
      rw [herr]
      rfl
    · rw [hS, hA]
    · intro hnone
      rw [hS, hA]
      simpa [hnone] using hsent
    · intro queryVector results hv
      cases hv
    · intro _
      left
      rfl
  | ok v =>
    refine ⟨?_, hget, htext, hne, ?_, ?_, ?_, ?_⟩
    · intro err herr
      show Search.parsedQuery (env.ParseQuery req.Query) req.Query = _
      rw [herr]
      rfl
    · rw [hS, afterValidation_state env embedding req limit parsedQuery, hE]
    · intro hnone
      rw [hS, afterValidation_state env embedding req limit parsedQuery, hE]
      simpa [hnone] using hsent
    · intro queryVector results hv hres
      cases hv
      rw [hS]
      exact afterValidation_success env embedding req limit parsedQuery v e1 results hE hres
    · intro hstatus
      right
      refine ⟨v, rfl, ?_⟩
      cases hQ : env.Qdrant.SearchProducts v enhancedQuery.ToQdrantFilter limit with
      | error err => rfl
      | ok results =>
        rw [hS, afterValidation_success env embedding req limit parsedQuery v e1 results hE hQ]
          at hstatus
        exact absurd rfl hstatus

/-- Witness for C7: the query "blue jeans under 100" with a failing parser is
embedded as the raw text, and the search succeeds. -/
theorem Search_fallback_embeds_nonempty_text_witness :
    "blue jeans under 100" ≠ "" ∧
    Search.searchText
        (EnhanceQuery
          (Search.parsedQuery (sampleEnv.ParseQuery "blue jeans under 100")
            "blue jeans under 100"))
        "blue jeans under 100" ≠ "" ∧
    (Search sampleEnv {} (.ok { Query := "blue jeans under 100" })).1.Status = 200 :=
  ⟨by decide,
    (Search_fallback_embeds_nonempty_text sampleEnv {} { Query := "blue jeans under 100" }
      (by decide)).2.2.2.1,
    by decide⟩

/-! ## The embedding cache -/

theorem mapGet_mapSet_self {β : Type} (m : List (String × β)) (k : String) (v : β) :
    mapGet (mapSet m k v) k = some v := by
  induction m with
  | nil => simp [mapGet, mapSet, List.lookup]
  | cons kv m ih =>
    obtain ⟨k0, v0⟩ := kv
    by_cases hk : k0 = k
    · simp [mapGet, mapSet, List.lookup, hk]
    · have hbeq : (k == k0) = false := by simpa using fun h => hk h.symm
      simp only [mapSet, hk, if_false, mapGet, List.lookup, hbeq]
      exact ih

theorem mapGet_mapSet_ne {β : Type} (m : List (String × β)) (k k1 : String) (v : β)
    (hne : k1 ≠ k) : mapGet (mapSet m k v) k1 = mapGet m k1 := by
  induction m with
  | nil =>
    have hbeq : (k1 == k) = false := by simpa using hne
    simp [mapGet, mapSet, List.lookup, hbeq]
  | cons kv m ih =>
    obtain ⟨k0, v0⟩ := kv
    by_cases hk : k0 = k
    · subst hk
      have hbeq : (k1 == k0) = false := by simpa using hne
      simp [mapGet, mapSet, List.lookup, hbeq]
    · simp only [mapSet, hk, if_false, mapGet, List.lookup]
      cases hb : k1 == k0 with
      | true => rfl
      | false => exact ih

theorem Get_Set_self {V : Type} (c : EmbeddingCache V) (text : String) (v : V) :
    (c.Set text v).Get text = some v :=
  mapGet_mapSet_self _ _ _

theorem Get_Set_ne {V : Type} (c : EmbeddingCache V) (text t : String) (v : V) (hne : t ≠ text) :
    (c.Set text v).Get t = c.Get t :=
  mapGet_mapSet_ne _ _ _ _ hne

theorem foldl_scanStep {V : Type} (c : EmbeddingCache V) (texts : List String) (n : Nat)
    (st : Scan V) :
    (texts.enumFrom n).foldl (scanStep c) st
      = { embeddings := storeCachedFrom c n texts st.embeddings
          uncachedTexts := st.uncachedTexts ++ uncachedSpec c texts
          uncachedIndices := st.uncachedIndices ++ uncachedIndicesFrom c n texts } := by
  induction texts generalizing n st with
  | nil => simp [storeCachedFrom, uncachedSpec, uncachedIndicesFrom]
  | cons t texts ih =>
    rw [List.enumFrom_cons, List.foldl_cons, ih]
    cases hc : c.Get t with
    | some v =>
      simp [scanStep, hc, storeCachedFrom, uncachedSpec, uncachedIndicesFrom,
        EmbeddingCache.misses]
    | none =>
      simp [scanStep, hc, storeCachedFrom, uncachedSpec, uncachedIndicesFrom,
        EmbeddingCache.misses]

theorem scanTexts_eq {V : Type} [Inhabited V] (c : EmbeddingCache V) (texts : List String) :
    scanTexts c texts
      = { embeddings := storeCachedFrom c 0 texts (List.replicate texts.length default)
          uncachedTexts := uncachedSpec c texts
          uncachedIndices := uncachedIndicesFrom c 0 texts } := by
  unfold scanTexts
  rw [List.enum, foldl_scanStep]
  simp

theorem storeCachedFrom_length {V : Type} (c : EmbeddingCache V) (texts : List String) (n : Nat)
    (emb : List V) : (storeCachedFrom c n texts emb).length = emb.length := by
  induction texts generalizing n emb with
  | nil => rfl
  | cons t texts ih =>
    unfold storeCachedFrom
    cases c.Get t with
    | some v => simp [ih]
    | none => simp [ih]

theorem storeCachedFrom_set {V : Type} (c : EmbeddingCache V) (texts : List String) (n m : Nat)
    (emb : List V) (v : V) (hnm : n < m) :
    (storeCachedFrom c m texts emb).set n v = storeCachedFrom c m texts (emb.set n v) := by
  induction texts generalizing m emb with
  | nil => rfl
  | cons t texts ih =>
    unfold storeCachedFrom
    cases c.Get t with
    | some w =>
      simp only
      rw [ih (m + 1) _ (by omega), List.set_comm _ _ _ (by omega)]
    | none =>
      simp only
      exact ih (m + 1) _ (by omega)

theorem stitchSpec_length {V : Type} [Inhabited V] (c : EmbeddingCache V) (texts : List String)
    (fresh : List V) : (stitchSpec c texts fresh).length = texts.length := by
  induction texts generalizing fresh with
  | nil => rfl
  | cons t texts ih =>
    unfold stitchSpec
    cases c.Get t with
    | some v => simp [ih]
    | none => simp [ih]

theorem take_succ_set {α : Type} (emb : List α) (n : Nat) (v : α) (h : n < emb.length) :
    (emb.set n v).take (n + 1) = emb.take n ++ [v] := by
  induction emb generalizing n with
  | nil => simp at h
  | cons a emb ih =>
    cases n with
    | zero => simp
    | succ n =>
      simp only [List.set_cons_succ, List.take_succ_cons, List.cons_append, List.cons.injEq,
        true_and]
      exact ih n (by simpa using h)

theorem fillLoop_stitch {V : Type} [Inhabited V] (c : EmbeddingCache V) (texts : List String) :
    ∀ (n : Nat) (emb vs : List V) (uiPre : List Nat) (utPre : List String)
      (cache : EmbeddingCache V),
      n + texts.length ≤ emb.length → vs.length = (uncachedSpec c texts).length →
      uiPre.length = utPre.length →
      fillLoop (uiPre ++ uncachedIndicesFrom c n texts) (utPre ++ uncachedSpec c texts) vs
          uiPre.length (storeCachedFrom c n texts emb) cache
        = (.ok (emb.take n ++ stitchSpec c texts vs ++ emb.drop (n + texts.length)),
            setAll cache ((uncachedSpec c texts).zip vs)) := by
  induction texts with
  | nil =>
    intro n emb vs uiPre utPre cache _ hvs _
    have hnil : vs = [] := by simpa [uncachedSpec] using hvs
    subst hnil
    simp [fillLoop, storeCachedFrom, stitchSpec, setAll, uncachedSpec]
  | cons t texts ih =>
    intro n emb vs uiPre utPre cache hlen hvs hpre
    have hn : n < emb.length := by simp at hlen; omega
    cases hc : c.Get t with
    | some v =>
      have hU : uncachedSpec c (t :: texts) = uncachedSpec c texts := by
        simp [uncachedSpec, EmbeddingCache.misses, hc]
      have hI : uncachedIndicesFrom c n (t :: texts) = uncachedIndicesFrom c (n + 1) texts := by
        simp [uncachedIndicesFrom, EmbeddingCache.misses, hc]
      have hS : storeCachedFrom c n (t :: texts) emb
          = storeCachedFrom c (n + 1) texts (emb.set n v) := by
        simp [storeCachedFrom, hc]
      rw [hU, hI, hS, ih (n + 1) (emb.set n v) vs uiPre utPre cache
        (by simp at hlen ⊢; omega) (by rw [← hU]; exact hvs) hpre]
      rw [take_succ_set emb n v hn, List.drop_set_of_lt _ _ (by omega)]
      simp [stitchSpec, hc, Nat.add_assoc, Nat.add_comm 1]
    | none =>
      have hU : uncachedSpec c (t :: texts) = t :: uncachedSpec c texts := by
        simp [uncachedSpec, EmbeddingCache.misses, hc]
      have hI : uncachedIndicesFrom c n (t :: texts)
          = n :: uncachedIndicesFrom c (n + 1) texts := by
        simp [uncachedIndicesFrom, EmbeddingCache.misses, hc]
      have hS : storeCachedFrom c n (t :: texts) emb = storeCachedFrom c (n + 1) texts emb := by
        simp [storeCachedFrom, hc]
      rw [hU] at hvs
      cases vs with
      | nil => simp at hvs
      | cons v0 vs =>
        rw [hU, hI, hS]
        have hi : (uiPre ++ n :: uncachedIndicesFrom c (n + 1) texts)[uiPre.length]? = some n := by
          rw [List.getElem?_append_right (Nat.le_refl _)]
          simp
        have ht : (utPre ++ t :: uncachedSpec c texts)[uiPre.length]? = some t := by
          rw [hpre, List.getElem?_append_right (Nat.le_refl _)]
          simp
        have hlt : n < (storeCachedFrom c (n + 1) texts emb).length := by
          rw [storeCachedFrom_length]; exact hn
        rw [fillLoop]
        simp only [hi, ht, hlt, if_true]
        rw [storeCachedFrom_set c texts n (n + 1) emb v0 (by omega)]
        have h1 : uiPre ++ n :: uncachedIndicesFrom c (n + 1) texts
            = (uiPre ++ [n]) ++ uncachedIndicesFrom c (n + 1) texts := by simp
        have h2 : utPre ++ t :: uncachedSpec c texts
            = (utPre ++ [t]) ++ uncachedSpec c texts := by simp
        have h3 : uiPre.length + 1 = (uiPre ++ [n]).length := by simp
        rw [h1, h2, h3, ih (n + 1) (emb.set n v0) vs (uiPre ++ [n]) (utPre ++ [t])
          (cache.Set t v0) (by simp at hlen ⊢; omega) (by simpa using hvs) (by simp [hpre])]
        rw [take_succ_set emb n v0 hn, List.drop_set_of_lt _ _ (by omega)]
        simp [stitchSpec, hc, setAll, Nat.add_assoc, Nat.add_comm 1]

theorem GetEmbeddings_all_cached {V : Type} [Inhabited V] (api : EmbeddingAPI V)
    (s : CachedEmbeddingService V) (texts : List String)
    (hU : uncachedSpec s.cache texts = []) :
    s.GetEmbeddings api texts = (.ok (stitchSpec s.cache texts []), s) := by
  have h := fillLoop_stitch s.cache texts 0 (List.replicate texts.length default) [] [] []
    s.cache (by simp) (by simp [hU]) rfl
  simp only [fillLoop, List.take_zero, List.nil_append, Nat.zero_add, Prod.mk.injEq,
    Outcome.ok.injEq] at h
  unfold CachedEmbeddingService.GetEmbeddings
  simp only [scanTexts_eq, hU, List.length_nil, gt_iff_lt, Nat.lt_irrefl, if_false]
  rw [h.1]
  simp

theorem GetEmbeddings_fresh {V : Type} [Inhabited V] (api : EmbeddingAPI V)
    (s : CachedEmbeddingService V) (texts : List String) (vs : List V)
    (hU : uncachedSpec s.cache texts ≠ [])
    (hapi : api s.EmbeddingService.sent.length (uncachedSpec s.cache texts) = .ok vs)
    (hlen : vs.length = (uncachedSpec s.cache texts).length) :
    s.GetEmbeddings api texts
      = (.ok (stitchSpec s.cache texts vs),
          { EmbeddingService := { sent := s.EmbeddingService.sent ++ [uncachedSpec s.cache texts] }
            cache := setAll s.cache ((uncachedSpec s.cache texts).zip vs) }) := by
  have h := fillLoop_stitch s.cache texts 0 (List.replicate texts.length default) vs [] []
    s.cache (by simp) hlen rfl
  simp only [List.nil_append, List.length_nil] at h
  have hpos : 0 < (uncachedSpec s.cache texts).length := List.length_pos.mpr hU
  have hne : ¬ (uncachedSpec s.cache texts).length = 0 := by omega
  unfold CachedEmbeddingService.GetEmbeddings
  simp only [scanTexts_eq, gt_iff_lt, hpos, if_true, EmbeddingService.GetEmbeddings, hne,
    if_false, hapi, h]
  simp

theorem stitchSpec_cached {V : Type} [Inhabited V] (c : EmbeddingCache V) (texts : List String) :
    ∀ (vs : List V) (i : Nat) (t : String) (v : V), texts[i]? = some t → c.Get t = some v →
      (stitchSpec c texts vs)[i]? = some v := by
  induction texts with
  | nil => intro vs i t v h; simp at h
  | cons t0 texts ih =>
    intro vs i t v hi hv
    cases i with
    | zero =>
      simp only [List.getElem?_cons_zero, Option.some.injEq] at hi
      subst hi
      simp [stitchSpec, hv]
    | succ i =>
      simp only [List.getElem?_cons_succ] at hi
      unfold stitchSpec
      cases c.Get t0 with
      | some w => simpa using ih vs i t v hi hv
      | none => simpa using ih vs.tail i t v hi hv

theorem stitchSpec_fresh {V : Type} [Inhabited V] (c : EmbeddingCache V) (texts : List String) :
    ∀ (vs : List V) (i : Nat) (t : String), texts[i]? = some t → c.Get t = none →
      vs.length = (uncachedSpec c texts).length →
      (uncachedSpec c texts)[(uncachedSpec c (texts.take i)).length]? = some t ∧
      (uncachedSpec c (texts.take i)).length < vs.length ∧
      (stitchSpec c texts vs)[i]? = vs[(uncachedSpec c (texts.take i)).length]? := by
  induction texts with
  | nil => intro vs i t h; simp at h
  | cons t0 texts ih =>
    intro vs i t hi ht hlen
    cases i with
    | zero =>
      simp only [List.getElem?_cons_zero, Option.some.injEq] at hi
      subst hi
      have hU : uncachedSpec c (t0 :: texts) = t0 :: uncachedSpec c texts := by
        simp [uncachedSpec, EmbeddingCache.misses, ht]
      rw [hU] at hlen ⊢
      cases vs with
      | nil => simp at hlen
      | cons v0 vs => simp [stitchSpec, ht, uncachedSpec]
    | succ i =>
      simp only [List.getElem?_cons_succ] at hi
      cases h0 : c.Get t0 with
      | some w =>
        have hU : ∀ l, uncachedSpec c (t0 :: l) = uncachedSpec c l := by
          intro l; simp [uncachedSpec, EmbeddingCache.misses, h0]
        rw [hU] at hlen
        have := ih vs i t hi ht hlen
        simpa [stitchSpec, h0, hU] using this
      | none =>
        have hU : ∀ l, uncachedSpec c (t0 :: l) = t0 :: uncachedSpec c l := by
          intro l; simp [uncachedSpec, EmbeddingCache.misses, h0]
        rw [hU] at hlen
        cases vs with
        | nil => simp at hlen
        | cons v0 vs =>
          have := ih vs i t hi ht (by simpa using hlen)
          simpa [stitchSpec, h0, hU] using this

/-- C8: for every cache state and every list of texts, if the embedding client
answers the request for the uncached texts with exactly one vector per
requested text, `CachedEmbeddingService.GetEmbeddings` returns a list of the
length of the input whose i-th entry is the cached vector of `texts[i]` when it
was cached and otherwise the vector the client returned at the position at
which `texts[i]` stood in the request; the client is invoked once, with exactly
the uncached texts in their original order, and not at all when every text is
cached. -/
theorem GetEmbeddings_partitions_and_stitches {V : Type} [Inhabited V] (api : EmbeddingAPI V)
    (s : CachedEmbeddingService V) (texts : List String) (vs : List V)
    (hclient : uncachedSpec s.cache texts ≠ [] →
      api s.EmbeddingService.sent.length (uncachedSpec s.cache texts) = .ok vs ∧
      vs.length = (uncachedSpec s.cache texts).length) :
    ∃ out, (s.GetEmbeddings api texts).1 = .ok out ∧
      out.length = texts.length ∧
      (∀ i t, texts[i]? = some t →
        (∀ v, s.cache.Get t = some v → out[i]? = some v) ∧
        (s.cache.Get t = none →
          (uncachedSpec s.cache texts)[(uncachedSpec s.cache (texts.take i)).length]? = some t ∧
          (uncachedSpec s.cache (texts.take i)).length < vs.length ∧
          out[i]? = vs[(uncachedSpec s.cache (texts.take i)).length]?)) ∧
      (s.GetEmbeddings api texts).2.EmbeddingService.sent
        = s.EmbeddingService.sent ++
            (if uncachedSpec s.cache texts = [] then [] else [uncachedSpec s.cache texts]) := by
  by_cases hU : uncachedSpec s.cache texts = []
  · refine ⟨stitchSpec s.cache texts [], ?_, stitchSpec_length _ _ _, ?_, ?_⟩
    · rw [GetEmbeddings_all_cached api s texts hU]
    · intro i t hi
      refine ⟨fun v hv => stitchSpec_cached s.cache texts [] i t v hi hv, ?_⟩
      intro hnone
      have hmem : t ∈ uncachedSpec s.cache texts := by
        unfold uncachedSpec
        rw [List.mem_filter]
        exact ⟨List.mem_iff_getElem?.mpr ⟨i, hi⟩, by simp [EmbeddingCache.misses, hnone]⟩
      rw [hU] at hmem
      cases hmem
    · rw [GetEmbeddings_all_cached api s texts hU]
      simp [hU]
  · obtain ⟨hapi, hlen⟩ := hclient hU
    refine ⟨stitchSpec s.cache texts vs, ?_, stitchSpec_length _ _ _, ?_, ?_⟩
    · rw [GetEmbeddings_fresh api s texts vs hU hapi hlen]
    · intro i t hi
      exact ⟨fun v hv => stitchSpec_cached s.cache texts vs i t v hi hv,
        fun hnone => stitchSpec_fresh s.cache texts vs i t hi hnone hlen⟩
    · rw [GetEmbeddings_fresh api s texts vs hU hapi hlen]
      simp [hU]

/-- Witness for C8: with "b" cached, the input "a", "b", "cc", "a" sends the
single request "a", "cc", "a" and stitches its answer around the cached vector. -/
theorem GetEmbeddings_partitions_and_stitches_witness :
    (uncachedSpec sampleService.cache ["a", "b", "cc", "a"] ≠ [] →
      positionAPI sampleService.EmbeddingService.sent.length
          (uncachedSpec sampleService.cache ["a", "b", "cc", "a"]) = .ok [[0], [1], [2]] ∧
      [[0], [1], [2]].length = (uncachedSpec sampleService.cache ["a", "b", "cc", "a"]).length) ∧
    (sampleService.GetEmbeddings positionAPI ["a", "b", "cc", "a"]).1
      = .ok [[0], [7], [1], [2]] ∧
    ∃ out, (sampleService.GetEmbeddings positionAPI ["a", "b", "cc", "a"]).1 = .ok out ∧
      out.length = ["a", "b", "cc", "a"].length :=
  ⟨fun _ => ⟨rfl, rfl⟩, by decide,
    (GetEmbeddings_partitions_and_stitches positionAPI sampleService ["a", "b", "cc", "a"]
      [[0], [1], [2]] (fun _ => ⟨rfl, rfl⟩)).imp (fun _ h => ⟨h.1, h.2.1⟩)⟩

theorem second_call_hits_cache {V : Type} [Inhabited V] (api api2 : EmbeddingAPI V)
    (s s1 : CachedEmbeddingService V) (t : String) (r1 : List V)
    (hfirst : s.GetEmbeddings api [t] = (.ok r1, s1))
    (hclient : s.cache.Get t = none → api s.EmbeddingService.sent.length [t] ≠ .ok []) :
    ∃ v, s1.cache.Get t = some v ∧ r1 = [v] ∧
      s1.GetEmbeddings api2 [t] = (.ok [v], s1) ∧
      (s1.GetEmbeddings api2 [t]).2.EmbeddingService.sent = s1.EmbeddingService.sent := by
  have hhit : ∀ (s0 : CachedEmbeddingService V) (a : EmbeddingAPI V) (v : V),
      s0.cache.Get t = some v → s0.GetEmbeddings a [t] = (.ok [v], s0) := by
    intro s0 a v hv
    rw [GetEmbeddings_all_cached a s0 [t] (by simp [uncachedSpec, EmbeddingCache.misses, hv])]
    simp [stitchSpec, hv]
  cases hc : s.cache.Get t with
  | some v =>
    rw [hhit s api v hc] at hfirst
    simp only [Prod.mk.injEq, Outcome.ok.injEq] at hfirst
    obtain ⟨hr, hs⟩ := hfirst
    subst hr hs
    exact ⟨v, hc, rfl, hhit s api2 v hc, by rw [hhit s api2 v hc]⟩
  | none =>
    have hU : uncachedSpec s.cache [t] = [t] := by
      simp [uncachedSpec, EmbeddingCache.misses, hc]
    cases hapi : api s.EmbeddingService.sent.length [t] with
    | error err =>
      simp [CachedEmbeddingService.GetEmbeddings, scanTexts_eq, hU,
        EmbeddingService.GetEmbeddings, hapi] at hfirst
    | ok vs =>
      match vs, hapi with
      | [], hapi => exact absurd hapi (hclient hc)
      | [v], hapi =>
        rw [GetEmbeddings_fresh api s [t] [v] (by simp [hU]) (by rw [hU]; exact hapi)
          (by simp [hU])] at hfirst
        simp only [hU, stitchSpec, hc, List.headD_cons, List.zip_cons_cons, List.zip_nil_right,
          setAll, List.foldl_cons, List.foldl_nil, Prod.mk.injEq, Outcome.ok.injEq] at hfirst
        obtain ⟨hr, hs⟩ := hfirst
        have hv : s1.cache.Get t = some v := by
          rw [← hs]
          exact Get_Set_self _ _ _
        exact ⟨v, hv, hr.symm, hhit s1 api2 v hv, by rw [hhit s1 api2 v hv]⟩
      | v :: w :: rest, hapi =>
        simp [CachedEmbeddingService.GetEmbeddings, scanTexts_eq, hU,
          EmbeddingService.GetEmbeddings, hapi, uncachedIndicesFrom, EmbeddingCache.misses, hc,
          storeCachedFrom, fillLoop] at hfirst

/-- C9 (code defect): `CachedEmbeddingService.GetEmbeddings` does not compare
the number of vectors in the answer of the client with the number of uncached
texts. Against a client that answers successfully with an empty list of
vectors, the first call `GetEmbeddings(["t"])` on an empty cache returns
without error a list holding the nil vector and caches nothing, and the second
call `GetEmbeddings(["t"])` sends a second request to the client. Whenever the
first call returned a result and the client did not answer it with an empty
list, t is cached with the vector that the call returned, and a second call,
whatever the client would answer, returns that vector as its element 0 and
leaves the service as it was: no request is sent; so it is after a first call
that the client answered with one vector. -/
theorem GetEmbeddings_empty_answer_not_cached {V : Type} [Inhabited V]
    (api api2 : EmbeddingAPI V) (s s1 : CachedEmbeddingService V) (t : String) (r1 : List V) :
    (s.GetEmbeddings api [t] = (.ok r1, s1) ∧
        (s.cache.Get t = none → api s.EmbeddingService.sent.length [t] ≠ .ok []) →
      ∃ v, s1.cache.Get t = some v ∧ r1 = [v] ∧
        s1.GetEmbeddings api2 [t] = (.ok [v], s1) ∧
        (s1.GetEmbeddings api2 [t]).2.EmbeddingService.sent = s1.EmbeddingService.sent) ∧
    ((({} : CachedEmbeddingService (List Nat)).GetEmbeddings emptyAnswerAPI ["t"]).1
        = .ok [[]] ∧
      (({} : CachedEmbeddingService (List Nat)).GetEmbeddings emptyAnswerAPI ["t"]).2.cache.Get "t"
        = none ∧
      (({} : CachedEmbeddingService (List Nat)).GetEmbeddings emptyAnswerAPI
        ["t"]).2.EmbeddingService.sent = [["t"]] ∧
      ((({} : CachedEmbeddingService (List Nat)).GetEmbeddings emptyAnswerAPI
        ["t"]).2.GetEmbeddings emptyAnswerAPI ["t"]).2.EmbeddingService.sent
        = [["t"], ["t"]]) ∧
    ((({} : CachedEmbeddingService (List Nat)).GetEmbeddings positionAPI ["t"]).1 = .ok [[0]] ∧
      ((({} : CachedEmbeddingService (List Nat)).GetEmbeddings positionAPI
        ["t"]).2.GetEmbeddings emptyAnswerAPI ["t"]).1 = .ok [[0]] ∧
      ((({} : CachedEmbeddingService (List Nat)).GetEmbeddings positionAPI
        ["t"]).2.GetEmbeddings emptyAnswerAPI ["t"]).2.EmbeddingService.sent = [["t"]]) := by
  refine ⟨?_, by decide, by decide⟩
  rintro ⟨hfirst, hclient⟩
  exact second_call_hits_cache api api2 s s1 t r1 hfirst hclient

theorem fillLoop_Get_of_not_mem {V : Type} (uncachedIndices : List Nat)
    (uncachedTexts : List String) (t : String) (ht : t ∉ uncachedTexts) :
    ∀ (rest : List V) (i : Nat) (emb : List V) (cache : EmbeddingCache V),
      (fillLoop uncachedIndices uncachedTexts rest i emb cache).2.Get t = cache.Get t := by
  intro rest
  induction rest with
  | nil => intro i emb cache; rfl
  | cons e rest ih =>
    intro i emb cache
    unfold fillLoop
    cases uncachedIndices[i]? with
    | none => rfl
    | some index =>
      cases hT : uncachedTexts[i]? with
      | none => rfl
      | some text =>
        simp only
        split
        · rw [ih]
          apply Get_Set_ne
          intro h
          exact ht (h ▸ List.getElem?_mem hT)
        · rfl

theorem GetEmbeddings_preserves {V : Type} [Inhabited V] (api : EmbeddingAPI V)
    (s : CachedEmbeddingService V) (texts : List String) (t : String) (v : V)
    (hv : s.cache.Get t = some v) : (s.GetEmbeddings api texts).2.cache.Get t = some v := by
  have ht : t ∉ uncachedSpec s.cache texts := by
    unfold uncachedSpec
    rw [List.mem_filter]
    simp [EmbeddingCache.misses, hv]
  unfold CachedEmbeddingService.GetEmbeddings
  simp only [scanTexts_eq]
  split
  · cases s.EmbeddingService.GetEmbeddings api (uncachedSpec s.cache texts) with
    | mk r svc =>
      cases r with
      | error err => exact hv
      | ok newEmbeddings =>
        simp only
        rw [fillLoop_Get_of_not_mem _ _ t ht]
        exact hv
  · exact hv

theorem GetEmbedding_preserves {V : Type} (api : EmbeddingAPI V)
    (s : CachedEmbeddingService V) (text : String) (t : String) (v : V)
    (hv : s.cache.Get t = some v) : (s.GetEmbedding api text).2.cache.Get t = some v := by
  unfold CachedEmbeddingService.GetEmbedding
  cases hc : s.cache.Get text with
  | some e => exact hv
  | none =>
    simp only
    cases s.EmbeddingService.GetEmbedding api text with
    | mk r svc =>
      cases r with
      | error err => exact hv
      | ok e =>
        simp only
        rw [Get_Set_ne _ _ _ _ (by intro h; rw [h, hc] at hv; cases hv)]
        exact hv

theorem runCalls_preserves {V : Type} [Inhabited V] (api : EmbeddingAPI V) (calls : List Call) :
    ∀ (s : CachedEmbeddingService V) (t : String) (v : V), s.cache.Get t = some v →
      (runCalls api s calls).cache.Get t = some v := by
  induction calls with
  | nil => intro s t v hv; exact hv
  | cons call calls ih =>
    intro s t v hv
    unfold runCalls
    rw [List.foldl_cons]
    apply ih
    cases call with
    | getEmbedding text => exact GetEmbedding_preserves api s text t v hv
    | getEmbeddings texts => exact GetEmbeddings_preserves api s texts t v hv

theorem uncachedIndicesFrom_lt {V : Type} (c : EmbeddingCache V) (texts : List String) :
    ∀ (n : Nat), ∀ idx ∈ uncachedIndicesFrom c n texts, idx < n + texts.length := by
  induction texts with
  | nil => intro n idx h; simp [uncachedIndicesFrom] at h
  | cons t texts ih =>
    intro n idx h
    unfold uncachedIndicesFrom at h
    split at h
    · rcases List.mem_cons.mp h with h0 | h1
      · subst h0; simp
      · have := ih (n + 1) idx h1
        simp; omega
    · have := ih (n + 1) idx h
      simp; omega

theorem uncachedIndicesFrom_length {V : Type} (c : EmbeddingCache V) (texts : List String) :
    ∀ (n : Nat), (uncachedIndicesFrom c n texts).length = (uncachedSpec c texts).length := by
  induction texts with
  | nil => intro n; rfl
  | cons t texts ih =>
    intro n
    unfold uncachedIndicesFrom uncachedSpec
    by_cases h : c.misses t = true
    · simp [h]
      simpa [uncachedSpec] using ih (n + 1)
    · simp [h]
      simpa [uncachedSpec] using ih (n + 1)

theorem fillLoop_cache {V : Type} (uncachedIndices : List Nat) (uncachedTexts : List String)
    (hlen : uncachedIndices.length = uncachedTexts.length) :
    ∀ (rest : List V) (i : Nat) (emb : List V) (cache : EmbeddingCache V),
      i + rest.length ≤ uncachedTexts.length → (∀ idx ∈ uncachedIndices, idx < emb.length) →
      (fillLoop uncachedIndices uncachedTexts rest i emb cache).2
        = setAll cache ((uncachedTexts.drop i).zip rest) := by
  intro rest
  induction rest with
  | nil => intro i emb cache _ _; simp [fillLoop, setAll]
  | cons e rest ih =>
    intro i emb cache hi hidx
    have hiT : i < uncachedTexts.length := by simp at hi; omega
    have hiI : i < uncachedIndices.length := by omega
    unfold fillLoop
    rw [List.getElem?_eq_getElem hiI, List.getElem?_eq_getElem hiT]
    simp only
    rw [if_pos (hidx _ (List.getElem_mem _)), ih (i + 1) _ _ (by simp at hi ⊢; omega)
      (by simpa using hidx)]
    rw [List.drop_eq_getElem_cons hiT]
    rfl

theorem setAll_Get {V : Type} (writes : List (String × V)) :
    ∀ (c : EmbeddingCache V) (t : String) (v : V), (setAll c writes).Get t = some v →
      c.Get t = some v ∨ (t, v) ∈ writes := by
  induction writes with
  | nil => intro c t v h; exact Or.inl h
  | cons w writes ih =>
    intro c t v h
    unfold setAll at h
    rw [List.foldl_cons] at h
    rcases ih (c.Set w.1 w.2) t v h with h1 | h2
    · by_cases ht : t = w.1
      · subst ht
        rw [Get_Set_self] at h1
        simp only [Option.some.injEq] at h1
        subst h1
        exact Or.inr (List.mem_cons_self _ _)
      · rw [Get_Set_ne _ _ _ _ ht] at h1
        exact Or.inl h1
    · exact Or.inr (List.mem_cons_of_mem _ h2)

theorem setAll_append {V : Type} (c : EmbeddingCache V) (ws1 ws2 : List (String × V)) :
    setAll c (ws1 ++ ws2) = setAll (setAll c ws1) ws2 := by
  simp [setAll, List.foldl_append]

theorem zip_take_right {α β : Type} (l : List α) :
    ∀ (vs : List β) (k : Nat), l.zip (vs.take k) = (l.zip vs).take k := by
  induction l with
  | nil => intro vs k; simp
  | cons a l ih =>
    intro vs k
    cases vs with
    | nil => simp
    | cons v vs =>
      cases k with
      | zero => simp
      | succ k => simp [ih]

theorem fillLoop_take_cache {V : Type} [Inhabited V] (c : EmbeddingCache V)
    (texts : List String) (vs : List V) (k : Nat)
    (hlen : vs.length = (uncachedSpec c texts).length) :
    (fillLoop (scanTexts c texts).uncachedIndices (scanTexts c texts).uncachedTexts (vs.take k) 0
        (scanTexts c texts).embeddings c).2
      = setAll c (((uncachedSpec c texts).zip vs).take k) := by
  rw [scanTexts_eq]
  simp only
  rw [fillLoop_cache _ _ (uncachedIndicesFrom_length c texts 0) _ _ _ _
    (by simp [List.length_take]; omega)
    (by
      intro idx hidx
      rw [storeCachedFrom_length]
      simpa using uncachedIndicesFrom_lt c texts 0 idx hidx)]
  rw [List.drop_zero, zip_take_right]

theorem fillLoop_cache_zip {V : Type} (uncachedIndices : List Nat) (uncachedTexts : List String)
    (hlen : uncachedIndices.length = uncachedTexts.length) :
    ∀ (rest : List V) (i : Nat) (emb : List V) (cache : EmbeddingCache V),
      (∀ idx ∈ uncachedIndices, idx < emb.length) →
      (fillLoop uncachedIndices uncachedTexts rest i emb cache).2
        = setAll cache ((uncachedTexts.drop i).zip rest) := by
  intro rest
  induction rest with
  | nil => intro i emb cache _; simp [fillLoop, setAll]
  | cons e rest ih =>
    intro i emb cache hidx
    by_cases hiT : i < uncachedTexts.length
    · have hiI : i < uncachedIndices.length := by omega
      unfold fillLoop
      rw [List.getElem?_eq_getElem hiI, List.getElem?_eq_getElem hiT]
      simp only
      rw [if_pos (hidx _ (List.getElem_mem _)), ih (i + 1) _ _ (by simpa using hidx)]
      rw [List.drop_eq_getElem_cons hiT]
      rfl
    · unfold fillLoop
      rw [List.getElem?_eq_none (by omega), List.drop_of_length_le (by omega)]
      simp [setAll]

theorem fillLoop_take_cache_zip {V : Type} [Inhabited V] (c : EmbeddingCache V)
    (texts : List String) (vs : List V) (k : Nat) :
    (fillLoop (scanTexts c texts).uncachedIndices (scanTexts c texts).uncachedTexts (vs.take k) 0
        (scanTexts c texts).embeddings c).2
      = setAll c (((uncachedSpec c texts).zip vs).take k) := by
  rw [scanTexts_eq]
  simp only
  rw [fillLoop_cache_zip _ _ (uncachedIndicesFrom_length c texts 0) _ _ _ _
    (by
      intro idx hidx
      rw [storeCachedFrom_length]
      simpa using uncachedIndicesFrom_lt c texts 0 idx hidx)]
  rw [List.drop_zero, zip_take_right]

theorem GetEmbeddings_cache_after {V : Type} [Inhabited V] (api : EmbeddingAPI V)
    (s : CachedEmbeddingService V) (texts : List String) (vs : List V)
    (hU : uncachedSpec s.cache texts ≠ [])
    (hapi : api s.EmbeddingService.sent.length (uncachedSpec s.cache texts) = .ok vs) :
    (s.GetEmbeddings api texts).2.cache
      = (fillLoop (scanTexts s.cache texts).uncachedIndices
          (scanTexts s.cache texts).uncachedTexts vs 0
          (scanTexts s.cache texts).embeddings s.cache).2 := by
  have hpos : 0 < (uncachedSpec s.cache texts).length := List.length_pos.mpr hU
  have hne : ¬ (uncachedSpec s.cache texts).length = 0 := by omega
  unfold CachedEmbeddingService.GetEmbeddings
  simp only [scanTexts_eq, gt_iff_lt, hpos, if_true, EmbeddingService.GetEmbeddings, hne,
    if_false, hapi]

theorem GetEmbeddings_cache_same {V : Type} [Inhabited V] (api : EmbeddingAPI V)
    (s : CachedEmbeddingService V) (texts : List String)
    (h : uncachedSpec s.cache texts = [] ∨
      isError (api s.EmbeddingService.sent.length (uncachedSpec s.cache texts)) = true) :
    (s.GetEmbeddings api texts).2.cache = s.cache := by
  by_cases hU : uncachedSpec s.cache texts = []
  · rw [GetEmbeddings_all_cached api s texts hU]
  · rcases h with h | h
    · exact absurd h hU
    · have hpos : 0 < (uncachedSpec s.cache texts).length := List.length_pos.mpr hU
      have hne : ¬ (uncachedSpec s.cache texts).length = 0 := by omega
      unfold CachedEmbeddingService.GetEmbeddings
      cases hapi : api s.EmbeddingService.sent.length (uncachedSpec s.cache texts) with
      | error err =>
        simp only [scanTexts_eq, gt_iff_lt, hpos, if_true, EmbeddingService.GetEmbeddings, hne,
          if_false, hapi]
      | ok vs =>
        rw [hapi] at h
        cases h

theorem runCalls_append {V : Type} [Inhabited V] (api : EmbeddingAPI V)
    (s : CachedEmbeddingService V) (calls later : List Call) :
    runCalls api s (calls ++ later) = runCalls api (runCalls api s calls) later := by
  simp [runCalls, List.foldl_append]

/-- C10: provided the embedding client gives equal texts of a request equal
vectors (the same text always yields the same vector), a cached vector is never
overwritten with a different value. Across every sequence of `GetEmbedding`
and `GetEmbeddings` calls, a vector that is cached after some of the calls is
still the cached vector of its text after all later ones. Within one
`GetEmbeddings` call, whatever the number of vectors in the answer and also
when an uncached text occurs more than once in the input, an entry that is in
the cache after k iterations of the loop that stores the fresh vectors is the
same after k + 1 iterations; the cache before the first iteration is the cache
at the start of the call and the cache after the last one is the cache after
the call, which is the cache at the start when no request is sent or the
request fails. -/
theorem cached_vector_never_overwritten {V : Type} [Inhabited V] (api : EmbeddingAPI V)
    (s : CachedEmbeddingService V)
    (hsame : ∀ (n : Nat) (texts : List String) (vs : List V), api n texts = .ok vs →
      ∀ (i j : Nat) (text : String) (v w : V), texts[i]? = some text → texts[j]? = some text →
        vs[i]? = some v → vs[j]? = some w → v = w) :
    (∀ (calls later : List Call) (t : String) (v : V),
      (runCalls api s calls).cache.Get t = some v →
      (runCalls api s (calls ++ later)).cache.Get t = some v) ∧
    (∀ (texts : List String),
      (uncachedSpec s.cache texts = [] ∨
          isError (api s.EmbeddingService.sent.length (uncachedSpec s.cache texts)) = true →
        (s.GetEmbeddings api texts).2.cache = s.cache) ∧
      (∀ vs : List V, uncachedSpec s.cache texts ≠ [] →
        api s.EmbeddingService.sent.length (uncachedSpec s.cache texts) = .ok vs →
        (fillLoop (scanTexts s.cache texts).uncachedIndices
            (scanTexts s.cache texts).uncachedTexts (vs.take 0) 0
            (scanTexts s.cache texts).embeddings s.cache).2 = s.cache ∧
        (s.GetEmbeddings api texts).2.cache
          = (fillLoop (scanTexts s.cache texts).uncachedIndices
              (scanTexts s.cache texts).uncachedTexts (vs.take vs.length) 0
              (scanTexts s.cache texts).embeddings s.cache).2 ∧
        ∀ (k : Nat) (t : String) (v : V),
          (fillLoop (scanTexts s.cache texts).uncachedIndices
              (scanTexts s.cache texts).uncachedTexts (vs.take k) 0
              (scanTexts s.cache texts).embeddings s.cache).2.Get t = some v →
          (fillLoop (scanTexts s.cache texts).uncachedIndices
              (scanTexts s.cache texts).uncachedTexts (vs.take (k + 1)) 0
              (scanTexts s.cache texts).embeddings s.cache).2.Get t = some v)) := by
  refine ⟨?_, ?_⟩
  · intro calls later t v hv
    rw [runCalls_append]
    exact runCalls_preserves api later _ t v hv
  · intro texts
    refine ⟨GetEmbeddings_cache_same api s texts, ?_⟩
    intro vs hU hapi
    refine ⟨rfl, ?_, ?_⟩
    · rw [List.take_length]
      exact GetEmbeddings_cache_after api s texts vs hU hapi
    · intro k t v hk
      rw [fillLoop_take_cache_zip s.cache texts vs k] at hk
      rw [fillLoop_take_cache_zip s.cache texts vs (k + 1), List.take_succ, setAll_append]
      cases hW : ((uncachedSpec s.cache texts).zip vs)[k]? with
      | none => simpa [setAll] using hk
      | some w =>
        obtain ⟨tk, vk⟩ := w
        simp only [Option.toList, setAll, List.foldl_cons, List.foldl_nil]
        have hWk := List.getElem?_zip_eq_some.mp hW
        simp only at hWk
        by_cases ht : t = tk
        · subst ht
          rw [Get_Set_self]
          rcases setAll_Get _ _ _ _ hk with h1 | h2
          · have hmem : t ∈ uncachedSpec s.cache texts := List.getElem?_mem hWk.1
            unfold uncachedSpec at hmem
            rw [List.mem_filter] at hmem
            have hmiss := hmem.2
            simp [EmbeddingCache.misses, h1] at hmiss
          · obtain ⟨i, hi⟩ := List.mem_iff_getElem?.mp (List.mem_of_mem_take h2)
            have hWi := List.getElem?_zip_eq_some.mp hi
            simp only at hWi
            rw [hsame _ _ vs hapi k i t vk v hWk.1 hWi.1 hWk.2 hWi.2]
        · rw [Get_Set_ne _ _ _ _ ht]
          exact hk

/-- Witness for C10: with the client that answers a text with its length and
"b" cached, the batch "a", "b", "a" sends "a" twice; the entry of "a" written
in the first iteration of the loop is the same after the second iteration and
after a later lookup of "c", and the entry of "b" is never touched. -/
theorem cached_vector_never_overwritten_witness :
    (∀ (n : Nat) (texts : List String) (vs : List (List Nat)), lengthAPI n texts = .ok vs →
      ∀ (i j : Nat) (text : String) (v w : List Nat), texts[i]? = some text →
        texts[j]? = some text → vs[i]? = some v → vs[j]? = some w → v = w) ∧
    ((runCalls lengthAPI sampleService [.getEmbeddings ["a", "b", "a"]]).cache.Get "a" = some [1] ∧
      (runCalls lengthAPI sampleService
        ([.getEmbeddings ["a", "b", "a"]] ++ [.getEmbedding "c"])).cache.Get "a" = some [1]) ∧
    ((fillLoop (scanTexts sampleService.cache ["a", "b", "a"]).uncachedIndices
          (scanTexts sampleService.cache ["a", "b", "a"]).uncachedTexts
          (([[1], [1]] : List (List Nat)).take 1) 0
          (scanTexts sampleService.cache ["a", "b", "a"]).embeddings
          sampleService.cache).2.Get "a" = some [1] ∧
      (fillLoop (scanTexts sampleService.cache ["a", "b", "a"]).uncachedIndices
          (scanTexts sampleService.cache ["a", "b", "a"]).uncachedTexts
          (([[1], [1]] : List (List Nat)).take (1 + 1)) 0
          (scanTexts sampleService.cache ["a", "b", "a"]).embeddings
          sampleService.cache).2.Get "a" = some [1]) :=
  have hsame : ∀ (n : Nat) (texts : List String) (vs : List (List Nat)),
      lengthAPI n texts = .ok vs →
      ∀ (i j : Nat) (text : String) (v w : List Nat), texts[i]? = some text →
        texts[j]? = some text → vs[i]? = some v → vs[j]? = some w → v = w := by
    intro n texts vs h i j text v w hi hj hv hw
    simp only [lengthAPI, Except.ok.injEq] at h
    subst h
    simp only [List.getElem?_map, hi, hj, Option.map_some', Option.some.injEq] at hv hw
    rw [← hv, ← hw]
  ⟨hsame,
    ⟨by decide,
      (cached_vector_never_overwritten lengthAPI sampleService hsame).1
        [.getEmbeddings ["a", "b", "a"]] [.getEmbedding "c"] "a" [1] (by decide)⟩,
    ⟨by decide,
      ((cached_vector_never_overwritten lengthAPI sampleService hsame).2 ["a", "b", "a"]).2
        [[1], [1]] (by decide) rfl |>.2.2 1 "a" [1] (by decide)⟩⟩

/-! ## The indexing flow and the cache -/

theorem GetProductVariantEmbeddings_state {V : Type} (api : EmbeddingAPI V) (now : Nat → Time)
    (s : CachedEmbeddingService V) (variants : List String) :
    (s.GetProductVariantEmbeddings api now variants).2
      = { EmbeddingService :=
            { sent := s.EmbeddingService.sent ++ (if variants = [] then [] else [variants]) }
          cache := s.cache } := by
  unfold CachedEmbeddingService.GetProductVariantEmbeddings
    EmbeddingService.GetProductVariantEmbeddings EmbeddingService.GetEmbeddings
  cases variants with
  | nil => simp
  | cons v vs =>
    simp only [List.length_cons, Nat.succ_ne_zero, if_false]
    cases api s.EmbeddingService.sent.length (v :: vs) <;> simp

/-- C11 (code defect): `GetProductVariantEmbeddings` on the cache-wrapped
service is the promoted method of the embedded `EmbeddingService`: for every
list of variant texts it sends the whole list to the embedding client, cached
texts included, and leaves the cache as it was, so no newly embedded text is
cached; `GenerateVariantsWithEmbeddings` therefore never changes the cache.
With "b" cached, the texts "b", "a" are sent as they are and "a" is not cached
afterwards. -/
theorem GetProductVariantEmbeddings_bypasses_cache {V : Type} (env : VariantEnv)
    (api : EmbeddingAPI V) (now : Nat → Time) (s : CachedEmbeddingService V)
    (variants : List String) (product : Product) (variantCount : Int) :
    (s.GetProductVariantEmbeddings api now variants).2.cache = s.cache ∧
    (s.GetProductVariantEmbeddings api now variants).2.EmbeddingService.sent
      = s.EmbeddingService.sent ++ (if variants = [] then [] else [variants]) ∧
    (GenerateVariantsWithEmbeddings env api now product variantCount s).2.cache = s.cache ∧
    (sampleService.GetProductVariantEmbeddings positionAPI (fun _ => {}) ["b", "a"]).2
      = { EmbeddingService := { sent := [["b", "a"]] }, cache := sampleService.cache } ∧
    (sampleService.GetProductVariantEmbeddings positionAPI (fun _ => {})
      ["b", "a"]).2.cache.Get "a" = none := by
  refine ⟨?_, ?_, ?_, ?_, ?_⟩
  · rw [GetProductVariantEmbeddings_state]
  · rw [GetProductVariantEmbeddings_state]
  · unfold GenerateVariantsWithEmbeddings
    cases GenerateVariants env product variantCount with
    | error err => rfl
    | ok variantTexts =>
      simp only
      split_ifs
      · rfl
      · have h := GetProductVariantEmbeddings_state api now s variantTexts
        rcases hr : s.GetProductVariantEmbeddings api now variantTexts with ⟨r, svc⟩
        rw [hr] at h
        simp only at h
        cases r <;> simp [h]
  · rw [GetProductVariantEmbeddings_state]
    rfl
  · rw [GetProductVariantEmbeddings_state]
    rfl


/-! ## Lengths in bytes and in characters -/

theorem utf8Bytes_length (c : Char) : 1 ≤ (utf8Bytes c).length ∧ (utf8Bytes c).length ≤ 4 := by
  unfold utf8Bytes
  simp only
  split_ifs <;> simp

theorem flatMap_utf8Bytes_length (l : List Char) :
    l.length ≤ (l.flatMap utf8Bytes).length ∧ (l.flatMap utf8Bytes).length ≤ 4 * l.length := by
  induction l with
  | nil => simp
  | cons c l ih =>
    have h := utf8Bytes_length c
    simp only [List.flatMap_cons, List.length_append, List.length_cons]
    omega

theorem length_le_len (s : String) : s.length ≤ len s ∧ len s ≤ 4 * s.length :=
  flatMap_utf8Bytes_length s.toList

theorem len_eq_length_of_ascii (s : String) (h : ∀ c ∈ s.toList, c.toNat < 0x80) :
    len s = s.length := by
  unfold len bytes
  show (s.toList.flatMap utf8Bytes).length = s.toList.length
  generalize s.toList = l at h
  induction l with
  | nil => rfl
  | cons c l ih =>
    have hc : c.toNat < 0x80 := h c (List.mem_cons_self _ _)
    simp only [List.flatMap_cons, List.length_append, List.length_cons, utf8Bytes, hc, if_true,
      List.length_nil]
    rw [ih (fun d hd => h d (List.mem_cons_of_mem _ hd))]
    omega

/-! ## `filterVariants` -/

theorem filterStep_validVariants (lower : Char → Char) (product : Product) (st : FilterState)
    (c : String) :
    (filterStep lower product st c).validVariants = st.validVariants ∨
    ((filterStep lower product st c).validVariants = st.validVariants ++ [TrimSpace c] ∧
      5 ≤ len (TrimSpace c) ∧ len (TrimSpace c) ≤ 100 ∧
      (mapGet st.seen (TrimSpace c)).getD false = false ∧
      isValidVariant lower (TrimSpace c) product = true) := by
  unfold filterStep
  simp only
  split_ifs with h1 h2 h3
  · exact Or.inl rfl
  · exact Or.inl rfl
  · refine Or.inr ⟨rfl, by omega, by omega, by simpa using h2, h3⟩
  · exact Or.inl rfl

theorem foldl_filterStep_mem (lower : Char → Char) (product : Product) (variants : List String) :
    ∀ (st : FilterState) (v : String),
      v ∈ (variants.foldl (filterStep lower product) st).validVariants →
      v ∈ st.validVariants ∨
      ∃ c ∈ variants, v = TrimSpace c ∧ 5 ≤ len v ∧ len v ≤ 100 ∧
        isValidVariant lower v product = true := by
  induction variants with
  | nil => intro st v hv; exact Or.inl hv
  | cons c variants ih =>
    intro st v hv
    rw [List.foldl_cons] at hv
    rcases ih _ v hv with h | ⟨c1, hc1, h⟩
    · rcases filterStep_validVariants lower product st c with h0 | ⟨h0, h5, h100, _, hvalid⟩
      · rw [h0] at h
        exact Or.inl h
      · rw [h0] at h
        rcases List.mem_append.mp h with h | h
        · exact Or.inl h
        · simp only [List.mem_singleton] at h
          subst h
          exact Or.inr ⟨c, List.mem_cons_self _ _, rfl, h5, h100, hvalid⟩
    · exact Or.inr ⟨c1, List.mem_cons_of_mem _ hc1, h⟩

theorem filterVariants_mem (lower : Char → Char) (product : Product) (variants : List String)
    (v : String) (hv : v ∈ filterVariants lower variants product) :
    ∃ c ∈ variants, v = TrimSpace c ∧ 5 ≤ len v ∧ len v ≤ 100 ∧
      isValidVariant lower v product = true := by
  rcases foldl_filterStep_mem lower product variants {} v hv with h | h
  · simp at h
  · exact h

theorem Fields_empty : Fields "" = [] := by
  decide

theorem ToLower_empty (lower : Char → Char) : ToLower lower "" = "" := by
  rfl

theorem isValidVariant_iff (lower : Char → Char) (variant : String) (product : Product) :
    isValidVariant lower variant product = true ↔
      ∃ keyword ∈ Fields (ToLower lower product.Name) ++ Fields (ToLower lower product.Category),
        len keyword > 1 ∧ Contains (ToLower lower variant) keyword = true := by
  have hk : ∀ s : String, (if s ≠ "" then Fields s else []) = Fields s := by
    intro s
    by_cases h : s = ""
    · simp [h, Fields_empty]
    · simp [h]
  unfold isValidVariant
  simp only [List.nil_append]
  have h1 : (if ToLower lower product.Name ≠ "" then Fields (ToLower lower product.Name) else [])
      = Fields (ToLower lower product.Name) := hk _
  have h2 : (if ToLower lower product.Category ≠ "" then
        Fields (ToLower lower product.Name) ++ Fields (ToLower lower product.Category)
      else Fields (ToLower lower product.Name))
      = Fields (ToLower lower product.Name) ++ Fields (ToLower lower product.Category) := by
    by_cases h : ToLower lower product.Category = ""
    · simp [h, Fields_empty]
    · simp [h]
  rw [h1, h2, List.any_eq_true]
  simp

/-- The invariant of the loop of `filterVariants` on the set `seen`: a text
marked as seen has an acceptable length, and is among the valid variants when
it is valid. -/
theorem filterStep_seen (lower : Char → Char) (product : Product) (st : FilterState)
    (c : String)
    (hst : ∀ x, (mapGet st.seen x).getD false = true →
      5 ≤ len x ∧ len x ≤ 100 ∧
        (isValidVariant lower x product = true → x ∈ st.validVariants)) :
    (∀ x, (mapGet (filterStep lower product st c).seen x).getD false = true →
      5 ≤ len x ∧ len x ≤ 100 ∧
        (isValidVariant lower x product = true →
          x ∈ (filterStep lower product st c).validVariants)) ∧
    (∀ x ∈ st.validVariants, x ∈ (filterStep lower product st c).validVariants) ∧
    (5 ≤ len (TrimSpace c) → len (TrimSpace c) ≤ 100 →
      isValidVariant lower (TrimSpace c) product = true →
      TrimSpace c ∈ (filterStep lower product st c).validVariants) := by
  unfold filterStep
  simp only
  split_ifs with h1 h2 h3
  · exact ⟨hst, fun x hx => hx, fun h5 h100 _ => by omega⟩
  · exact ⟨hst, fun x hx => hx, fun _ _ hvalid => (hst _ h2).2.2 hvalid⟩
  · refine ⟨?_, fun x hx => List.mem_append_left _ hx, fun _ _ _ => by simp⟩
    intro x hx
    by_cases hxv : x = TrimSpace c
    · subst hxv
      exact ⟨by omega, by omega, fun _ => by simp⟩
    · rw [mapGet_mapSet_ne _ _ _ _ hxv] at hx
      obtain ⟨a, b, hc⟩ := hst x hx
      exact ⟨a, b, fun hvalid => List.mem_append_left _ (hc hvalid)⟩
  · refine ⟨?_, fun x hx => hx, fun _ _ hvalid => absurd hvalid h3⟩
    intro x hx
    by_cases hxv : x = TrimSpace c
    · subst hxv
      exact ⟨by omega, by omega, fun hvalid => absurd hvalid h3⟩
    · rw [mapGet_mapSet_ne _ _ _ _ hxv] at hx
      exact hst x hx

theorem foldl_filterStep_complete (lower : Char → Char) (product : Product)
    (variants : List String) :
    ∀ (st : FilterState),
      (∀ x, (mapGet st.seen x).getD false = true →
        5 ≤ len x ∧ len x ≤ 100 ∧
          (isValidVariant lower x product = true → x ∈ st.validVariants)) →
      (∀ x ∈ st.validVariants,
        x ∈ (variants.foldl (filterStep lower product) st).validVariants) ∧
      ∀ c ∈ variants, 5 ≤ len (TrimSpace c) → len (TrimSpace c) ≤ 100 →
        isValidVariant lower (TrimSpace c) product = true →
        TrimSpace c ∈ (variants.foldl (filterStep lower product) st).validVariants := by
  induction variants with
  | nil =>
    intro st _
    exact ⟨fun x hx => hx, fun c hc => by cases hc⟩
  | cons c0 variants ih =>
    intro st hst
    obtain ⟨hseen, hmono, hadd⟩ := filterStep_seen lower product st c0 hst
    obtain ⟨ih1, ih2⟩ := ih _ hseen
    rw [List.foldl_cons]
    refine ⟨fun x hx => ih1 x (hmono x hx), ?_⟩
    intro c hc h5 h100 hvalid
    rcases List.mem_cons.mp hc with h | h
    · subst h
      exact ih1 _ (hadd h5 h100 hvalid)
    · exact ih2 c h h5 h100 hvalid

/-- C12 (as stated, refuted): for the product named "红裙", the candidate "红裙"
is in the output of `filterVariants` although it has 2 characters (6 bytes),
fewer than 5. (The text is caseless, lowering leaves it as it is.) -/
theorem filterVariants_keeps_two_characters :
    filterVariants Char.toLower ["红裙"] redDress = ["红裙"] ∧
    ("红裙" : String).length = 2 ∧ len "红裙" = 6 := by
  decide

/-- C12 (amended): for every product and every list of candidates, each variant
in the output of `filterVariants` is a trimmed candidate of at least 5 and at
most 100 bytes of UTF-8, hence of at least 2 and at most 100 characters; every
text of fewer than 5 or more than 100 bytes is absent from the output, in
particular every text of more than 100 characters, and every ASCII text of
fewer than 5 characters. -/
theorem filterVariants_byte_length (lower : Char → Char) (variants : List String)
    (product : Product) :
    (∀ v ∈ filterVariants lower variants product,
      (∃ c ∈ variants, v = TrimSpace c) ∧ 5 ≤ len v ∧ len v ≤ 100 ∧
        2 ≤ v.length ∧ v.length ≤ 100) ∧
    (∀ x : String, len x < 5 ∨ len x > 100 → x ∉ filterVariants lower variants product) ∧
    (∀ x : String, x.length > 100 → x ∉ filterVariants lower variants product) ∧
    (∀ x : String, (∀ c ∈ x.toList, c.toNat < 0x80) → x.length < 5 →
      x ∉ filterVariants lower variants product) := by
  have hmem := filterVariants_mem lower product variants
  refine ⟨?_, ?_, ?_, ?_⟩
  · intro v hv
    obtain ⟨c, hc, hvc, h5, h100, _⟩ := hmem v hv
    have hl := length_le_len v
    exact ⟨⟨c, hc, hvc⟩, h5, h100, by omega, by omega⟩
  · intro x hx hmemx
    obtain ⟨c, _, _, h5, h100, _⟩ := hmem x hmemx
    omega
  · intro x hx hmemx
    obtain ⟨c, _, _, h5, h100, _⟩ := hmem x hmemx
    have hl := length_le_len x
    omega
  · intro x hascii hx hmemx
    obtain ⟨c, _, _, h5, h100, _⟩ := hmem x hmemx
    rw [len_eq_length_of_ascii x hascii] at h5
    omega

set_option maxRecDepth 100000 in
/-- C13 (as stated, refuted): a candidate of 40 Chinese characters that
contains the category token "裙子" is not in the output of `filterVariants`,
because it has 120 bytes; and for the product named "T" the candidate
"T T T" of 5 characters, which contains the token, is not in the output,
because the token has a single byte. -/
theorem filterVariants_drops_matching_candidates :
    ((TrimSpace longChineseCandidate).length = 40 ∧
      "裙子" ∈ Fields (ToLower Char.toLower redDress.Category) ∧
      Contains (ToLower Char.toLower (TrimSpace longChineseCandidate)) "裙子" = true ∧
      filterVariants Char.toLower [longChineseCandidate] redDress = []) ∧
    ((TrimSpace "T T T").length = 5 ∧
      "t" ∈ Fields (ToLower Char.toLower teeShirt.Name) ∧
      Contains (ToLower Char.toLower (TrimSpace "T T T")) "t" = true ∧
      filterVariants Char.toLower ["T T T"] teeShirt = []) := by
  decide

/-- C13 (amended): for every product and every list of candidates, a candidate
whose trimmed form has between 5 and 100 bytes of UTF-8 and contains, after
lowercasing, a whitespace-delimited token of more than one byte of the
lowercased product name or category, appears (trimmed) in the output of
`filterVariants`. -/
theorem filterVariants_retains_matching_candidate (lower : Char → Char)
    (variants : List String) (product : Product) (c : String) (hc : c ∈ variants)
    (h5 : 5 ≤ len (TrimSpace c)) (h100 : len (TrimSpace c) ≤ 100) (keyword : String)
    (hkeyword : keyword ∈
      Fields (ToLower lower product.Name) ++ Fields (ToLower lower product.Category))
    (hlen : len keyword > 1)
    (hcontains : Contains (ToLower lower (TrimSpace c)) keyword = true) :
    TrimSpace c ∈ filterVariants lower variants product := by
  have hvalid : isValidVariant lower (TrimSpace c) product = true :=
    (isValidVariant_iff lower _ product).mpr ⟨keyword, hkeyword, hlen, hcontains⟩
  exact (foldl_filterStep_complete lower product variants {} (by simp [mapGet])).2 c hc h5 h100
    hvalid

/-- Witness for C13 (amended): a candidate of 30 characters that contains the
category token of the product is retained. -/
theorem filterVariants_retains_matching_candidate_witness :
    (" Slim cotton PANTS for summer!! " ∈ ["abcd", " Slim cotton PANTS for summer!! "] ∧
      (TrimSpace " Slim cotton PANTS for summer!! ").length = 30 ∧
      5 ≤ len (TrimSpace " Slim cotton PANTS for summer!! ") ∧
      len (TrimSpace " Slim cotton PANTS for summer!! ") ≤ 100 ∧
      "pants" ∈ Fields (ToLower Char.toLower blueJeans.Name)
        ++ Fields (ToLower Char.toLower blueJeans.Category) ∧
      len "pants" > 1 ∧
      Contains (ToLower Char.toLower (TrimSpace " Slim cotton PANTS for summer!! ")) "pants"
        = true) ∧
    TrimSpace " Slim cotton PANTS for summer!! "
      ∈ filterVariants Char.toLower ["abcd", " Slim cotton PANTS for summer!! "] blueJeans :=
  ⟨by decide,
    filterVariants_retains_matching_candidate Char.toLower
      ["abcd", " Slim cotton PANTS for summer!! "] blueJeans " Slim cotton PANTS for summer!! "
      (by decide) (by decide) (by decide) "pants" (by decide) (by decide) (by decide)⟩

/-- C14: for every product and every list of candidates, every variant in the
output of `filterVariants` contains, after lowercasing, at least one
whitespace-delimited token of the lowercased product name or category; the
output is empty when name and category are both empty. -/
theorem filterVariants_contains_keyword (lower : Char → Char) (variants : List String)
    (product : Product) :
    (∀ v ∈ filterVariants lower variants product,
      ∃ keyword ∈
          Fields (ToLower lower product.Name) ++ Fields (ToLower lower product.Category),
        Contains (ToLower lower v) keyword = true) ∧
    (product.Name = "" → product.Category = "" →
      filterVariants lower variants product = []) := by
  have hkey : ∀ v ∈ filterVariants lower variants product,
      ∃ keyword ∈
          Fields (ToLower lower product.Name) ++ Fields (ToLower lower product.Category),
        Contains (ToLower lower v) keyword = true := by
    intro v hv
    obtain ⟨c, _, _, _, _, hvalid⟩ := filterVariants_mem lower product variants v hv
    obtain ⟨keyword, hk, _, hcontains⟩ := (isValidVariant_iff lower v product).mp hvalid
    exact ⟨keyword, hk, hcontains⟩
  refine ⟨hkey, ?_⟩
  intro hname hcat
  apply List.eq_nil_iff_forall_not_mem.mpr
  intro v hv
  obtain ⟨keyword, hk, _⟩ := hkey v hv
  rw [hname, hcat, ToLower_empty, Fields_empty] at hk
  cases hk

/-! ## First occurrences in `filterVariants` -/

theorem filterStep_cases (lower : Char → Char) (product : Product) (st : FilterState)
    (c : String) :
    (filterStep lower product st c = st ∧
      (¬ (5 ≤ len (TrimSpace c) ∧ len (TrimSpace c) ≤ 100) ∨
        (mapGet st.seen (TrimSpace c)).getD false = true)) ∨
    ((5 ≤ len (TrimSpace c) ∧ len (TrimSpace c) ≤ 100) ∧
      (mapGet st.seen (TrimSpace c)).getD false = false ∧
      (filterStep lower product st c).seen = mapSet st.seen (TrimSpace c) true ∧
      ((filterStep lower product st c).validVariants = st.validVariants ∨
        (filterStep lower product st c).validVariants = st.validVariants ++ [TrimSpace c])) := by
  unfold filterStep
  simp only
  split_ifs with h1 h2 h3
  · exact Or.inl ⟨rfl, Or.inl (by omega)⟩
  · exact Or.inl ⟨rfl, Or.inr h2⟩
  · exact Or.inr ⟨by omega, by simpa using h2, rfl, Or.inr rfl⟩
  · exact Or.inr ⟨by omega, by simpa using h2, rfl, Or.inl rfl⟩

/-- The invariant of the loop of `filterVariants` after the candidates
`variants`: the texts marked as seen are the trimmed candidates of acceptable
length, and the valid variants stand at strictly increasing positions of the
trimmed candidates, each at the first occurrence of its text. -/
theorem foldl_filterStep_invariant (lower : Char → Char) (product : Product)
    (variants : List String) :
    (∀ x, (mapGet (variants.foldl (filterStep lower product) {}).seen x).getD false = true ↔
      (x ∈ variants.map TrimSpace ∧ 5 ≤ len x ∧ len x ≤ 100)) ∧
    (∀ x ∈ (variants.foldl (filterStep lower product) {}).validVariants,
      x ∈ variants.map TrimSpace ∧ 5 ≤ len x ∧ len x ≤ 100) ∧
    (variants.foldl (filterStep lower product) {}).validVariants.Nodup ∧
    (variants.foldl (filterStep lower product) {}).validVariants.Sublist
      (variants.map TrimSpace) ∧
    ∃ idxs : List Nat, idxs.Pairwise (· < ·) ∧ (∀ i ∈ idxs, i < variants.length) ∧
      (variants.foldl (filterStep lower product) {}).validVariants
        = idxs.filterMap (fun i => (variants.map TrimSpace)[i]?) ∧
      ∀ i ∈ idxs, ∀ j, j < i → (variants.map TrimSpace)[j]? ≠ (variants.map TrimSpace)[i]? := by
  induction variants using List.reverseRecOn with
  | nil =>
    refine ⟨?_, ?_, ?_, ?_, [], ?_, ?_, ?_, ?_⟩ <;> simp [mapGet]
  | append_singleton vs c ih =>
    obtain ⟨hseen, hvalid, hnodup, hsub, idxs, hsorted, hbound, hout, hfirst⟩ := ih
    rw [List.foldl_append, List.foldl_cons, List.foldl_nil, List.map_append, List.map_cons,
      List.map_nil]
    generalize hst : vs.foldl (filterStep lower product) {} = st at hseen hvalid hnodup hsub hout
    have hget : ∀ i, i < vs.length →
        (vs.map TrimSpace ++ [TrimSpace c])[i]? = (vs.map TrimSpace)[i]? := by
      intro i hi
      exact List.getElem?_append_left (by simpa using hi)
    have hidxs : idxs.filterMap (fun i => (vs.map TrimSpace ++ [TrimSpace c])[i]?)
        = idxs.filterMap (fun i => (vs.map TrimSpace)[i]?) := by
      apply List.filterMap_congr
      intro i hi
      exact hget i (hbound i hi)
    have hfirst1 : ∀ i ∈ idxs, ∀ j, j < i →
        (vs.map TrimSpace ++ [TrimSpace c])[j]? ≠ (vs.map TrimSpace ++ [TrimSpace c])[i]? := by
      intro i hi j hj
      have hi1 := hbound i hi
      rw [hget i hi1, hget j (by omega)]
      exact hfirst i hi j hj
    have hbound1 : ∀ i ∈ idxs, i < (vs ++ [c]).length := by
      intro i hi
      have := hbound i hi
      simp
      omega
    rcases filterStep_cases lower product st c with ⟨hsame, hwhy⟩ | ⟨hlen, hnew, hseen1, hv⟩
    · rw [hsame]
      refine ⟨?_, ?_, hnodup, hsub.trans (List.sublist_append_left _ _), idxs, hsorted, hbound1,
        by rw [hidxs]; exact hout, hfirst1⟩
      · intro x
        rw [hseen x]
        constructor
        · rintro ⟨hx, h⟩
          exact ⟨List.mem_append_left _ hx, h⟩
        · rintro ⟨hx, h⟩
          rcases List.mem_append.mp hx with hx | hx
          · exact ⟨hx, h⟩
          · simp only [List.mem_singleton] at hx
            subst hx
            rcases hwhy with hbad | hs
            · exact absurd h hbad
            · exact (hseen _).mp hs
      · intro x hx
        obtain ⟨h1, h2⟩ := hvalid x hx
        exact ⟨List.mem_append_left _ h1, h2⟩
    · have hnotin : TrimSpace c ∉ vs.map TrimSpace := by
        intro hin
        have := (hseen (TrimSpace c)).mpr ⟨hin, hlen⟩
        rw [hnew] at this
        cases this
      have hseen2 : ∀ x, (mapGet (filterStep lower product st c).seen x).getD false = true ↔
          (x ∈ vs.map TrimSpace ++ [TrimSpace c] ∧ 5 ≤ len x ∧ len x ≤ 100) := by
        intro x
        rw [hseen1]
        by_cases hx : x = TrimSpace c
        · subst hx
          rw [mapGet_mapSet_self]
          simp [hlen]
        · rw [mapGet_mapSet_ne _ _ _ _ hx, hseen x]
          simp [hx]
      rcases hv with hv | hv
      · rw [hv]
        refine ⟨hseen2, ?_, hnodup, hsub.trans (List.sublist_append_left _ _), idxs, hsorted,
          hbound1, by rw [hidxs]; exact hout, hfirst1⟩
        intro x hx
        obtain ⟨h1, h2⟩ := hvalid x hx
        exact ⟨List.mem_append_left _ h1, h2⟩
      · rw [hv]
        refine ⟨hseen2, ?_, ?_, hsub.append (List.Sublist.refl _), idxs ++ [vs.length], ?_, ?_,
          ?_, ?_⟩
        · intro x hx
          rcases List.mem_append.mp hx with hx | hx
          · obtain ⟨h1, h2⟩ := hvalid x hx
            exact ⟨List.mem_append_left _ h1, h2⟩
          · simp only [List.mem_singleton] at hx
            subst hx
            exact ⟨by simp, hlen⟩
        · rw [List.nodup_append]
          refine ⟨hnodup, List.nodup_singleton _, ?_⟩
          intro x hx hx1
          simp only [List.mem_singleton] at hx1
          subst hx1
          exact hnotin (hvalid _ hx).1
        · rw [List.pairwise_append]
          refine ⟨hsorted, List.pairwise_singleton _ _, ?_⟩
          intro i hi j hj
          simp only [List.mem_singleton] at hj
          subst hj
          exact hbound i hi
        · intro i hi
          rcases List.mem_append.mp hi with hi | hi
          · exact hbound1 i hi
          · simp only [List.mem_singleton] at hi
            subst hi
            simp
        · rw [List.filterMap_append, hidxs, hout]
          congr 1
          have : (vs.map TrimSpace ++ [TrimSpace c])[vs.length]? = some (TrimSpace c) := by
            rw [List.getElem?_append_right (by simp)]
            simp
          simp [this]
        · intro i hi j hj
          rcases List.mem_append.mp hi with hi | hi
          · exact hfirst1 i hi j hj
          · simp only [List.mem_singleton] at hi
            subst hi
            have hlast : (vs.map TrimSpace ++ [TrimSpace c])[vs.length]?
                = some (TrimSpace c) := by
              rw [List.getElem?_append_right (by simp)]
              simp
            rw [hlast, hget j hj]
            intro hj1
            exact hnotin (List.getElem?_mem hj1)

/-- C15: for every product and every list of candidates, the output of
`filterVariants` contains no two equal variants and is a subsequence of the
list of trimmed candidates: its elements are the trimmed candidates at strictly
increasing positions, and each of these positions is the first occurrence of
its text among the trimmed candidates. -/
theorem filterVariants_first_occurrences (lower : Char → Char) (variants : List String)
    (product : Product) :
    (filterVariants lower variants product).Nodup ∧
    (filterVariants lower variants product).Sublist (variants.map TrimSpace) ∧
    ∃ idxs : List Nat, idxs.Pairwise (· < ·) ∧ (∀ i ∈ idxs, i < variants.length) ∧
      filterVariants lower variants product
        = idxs.filterMap (fun i => (variants.map TrimSpace)[i]?) ∧
      ∀ i ∈ idxs, ∀ j, j < i → (variants.map TrimSpace)[j]? ≠ (variants.map TrimSpace)[i]? := by
  obtain ⟨_, _, hnodup, hsub, hidx⟩ := foldl_filterStep_invariant lower product variants
  exact ⟨hnodup, hsub, hidx⟩

/-! ## The variant count -/

theorem buildPrompt_chat (env : VariantEnv)
    (chat : OpenAIRequest → Except String OpenAIResponse) (product : Product) (n : Int) :
    buildPrompt { env with sendChatRequest := chat } product n = buildPrompt env product n := rfl

theorem GenerateVariants_echo (env : VariantEnv) (product : Product) (variantCount : Int) :
    GenerateVariants { env with sendChatRequest := echoChat } product variantCount
      = .error ("failed to generate variants: "
          ++ buildPrompt env product (GenerateVariants.variantCount variantCount)) := by
  unfold GenerateVariants
  simp [echoChat, buildPrompt_chat, String.join]

theorem GenerateVariants_request (env : VariantEnv) (product : Product) (variantCount : Int)
    (chat : OpenAIRequest → Except String OpenAIResponse)
    (h : chat { Model := env.model
                Messages := [{ Role := "user"
                               Content := buildPrompt env product
                                 (GenerateVariants.variantCount variantCount) }]
                MaxTokens := 1500
                Temperature := 4 / 5 }
        = env.sendChatRequest
            { Model := env.model
              Messages := [{ Role := "user"
                             Content := buildPrompt env product
                               (GenerateVariants.variantCount variantCount) }]
              MaxTokens := 1500
              Temperature := 4 / 5 }) :
    GenerateVariants { env with sendChatRequest := chat } product variantCount
      = GenerateVariants env product variantCount := by
  unfold GenerateVariants
  simp only [buildPrompt_chat]
  rw [h]

/-- C16: for every requested count, the variant count that `GenerateVariants`
substitutes into the prompt lies in [1, 20]: it is 5 when the requested count
is zero or negative, 20 when it exceeds 20, and the requested count itself
otherwise. The prompt that `GenerateVariants` sends to the chat endpoint is the
prompt built with this count, which stands under the placeholder for the
variant count: a chat endpoint that fails with the prompt it was sent makes
`GenerateVariants` fail with that prompt, and the result of `GenerateVariants`
depends on the chat endpoint only through its answer to the request with that
prompt. With the template "Generate {variant_count} variants" the prompts for
the requested counts 0, -3, 25 and 7 name 5, 5, 20 and 7 variants. -/
theorem GenerateVariants_variantCount_clamped (variantCount : Int) :
    1 ≤ GenerateVariants.variantCount variantCount ∧
    GenerateVariants.variantCount variantCount ≤ 20 ∧
    (variantCount ≤ 0 → GenerateVariants.variantCount variantCount = 5) ∧
    (variantCount > 20 → GenerateVariants.variantCount variantCount = 20) ∧
    (0 < variantCount ∧ variantCount ≤ 20 →
      GenerateVariants.variantCount variantCount = variantCount) ∧
    (∀ (env : VariantEnv) (product : Product),
      GenerateVariants env product variantCount
        = GenerateVariants env product (GenerateVariants.variantCount variantCount) ∧
      mapGet (replacements env.formatPrice product (GenerateVariants.variantCount variantCount))
          "\x7bvariant_count\x7d"
        = some (toString (GenerateVariants.variantCount variantCount))) ∧
    (∀ (env : VariantEnv) (product : Product),
      GenerateVariants { env with sendChatRequest := echoChat } product variantCount
        = .error ("failed to generate variants: "
            ++ buildPrompt env product (GenerateVariants.variantCount variantCount))) ∧
    (∀ (env : VariantEnv) (product : Product)
      (chat : OpenAIRequest → Except String OpenAIResponse),
      chat { Model := env.model
             Messages := [{ Role := "user"
                            Content := buildPrompt env product
                              (GenerateVariants.variantCount variantCount) }]
             MaxTokens := 1500
             Temperature := 4 / 5 }
        = env.sendChatRequest
            { Model := env.model
              Messages := [{ Role := "user"
                             Content := buildPrompt env product
                               (GenerateVariants.variantCount variantCount) }]
              MaxTokens := 1500
              Temperature := 4 / 5 } →
      GenerateVariants { env with sendChatRequest := chat } product variantCount
        = GenerateVariants env product variantCount) ∧
    (GenerateVariants countEnv redDress 0
        = .error "failed to generate variants: Generate 5 variants" ∧
      GenerateVariants countEnv redDress (-3)
        = .error "failed to generate variants: Generate 5 variants" ∧
      GenerateVariants countEnv redDress 25
        = .error "failed to generate variants: Generate 20 variants" ∧
      GenerateVariants countEnv redDress 7
        = .error "failed to generate variants: Generate 7 variants") := by
  have hidem : GenerateVariants.variantCount (GenerateVariants.variantCount variantCount)
      = GenerateVariants.variantCount variantCount := by
    unfold GenerateVariants.variantCount
    simp only
    split_ifs <;> omega
  refine ⟨?_, ?_, ?_, ?_, ?_, ?_, fun env product => GenerateVariants_echo env product variantCount,
    fun env product chat h => GenerateVariants_request env product variantCount chat h,
    rfl, rfl, rfl, rfl⟩
  · unfold GenerateVariants.variantCount
    simp only
    split_ifs <;> omega
  · unfold GenerateVariants.variantCount
    simp only
    split_ifs <;> omega
  · intro h
    unfold GenerateVariants.variantCount
    simp only
    split_ifs <;> omega
  · intro h
    unfold GenerateVariants.variantCount
    simp only
    split_ifs <;> omega
  · intro h
    unfold GenerateVariants.variantCount
    simp only
    split_ifs <;> omega
  · intro env product
    constructor
    · unfold GenerateVariants
      rw [hidem]
    · simp [replacements, mapGet, List.lookup]

/-! ## `buildPrompt` -/

theorem replaceScan_skip (old new : List Char) (xs rest : List Char) :
    replaceScan old new xs.length (xs ++ rest) = replaceScan old new 0 rest := by
  induction xs with
  | nil => cases rest <;> rfl
  | cons x xs ih => simpa [replaceScan] using ih

theorem isPrefixOf_cons_ne (old : List Char) (c : Char) (cs : List Char)
    (hold : old.head? = some openBrace) (hc : c ≠ openBrace) :
    old.isPrefixOf (c :: cs) = false := by
  cases old with
  | nil => simp at hold
  | cons o old =>
    simp only [List.head?_cons, Option.some.injEq] at hold
    subst hold
    simp [List.isPrefixOf, Ne.symm hc]

theorem replaceScan_text (old new : List Char) (hold : old.head? = some openBrace)
    (t rest : List Char) (ht : openBrace ∉ t) :
    replaceScan old new 0 (t ++ rest) = t ++ replaceScan old new 0 rest := by
  induction t with
  | nil => rfl
  | cons c t ih =>
    have hc : c ≠ openBrace := fun h => ht (h ▸ List.mem_cons_self _ _)
    have ht1 : openBrace ∉ t := fun h => ht (List.mem_cons_of_mem _ h)
    simp only [List.cons_append, replaceScan, isPrefixOf_cons_ne old c _ hold hc]
    simp [ih ht1]

theorem replaceScan_match (old new : List Char) (hold : old ≠ []) (rest : List Char) :
    replaceScan old new 0 (old ++ rest) = new ++ replaceScan old new 0 rest := by
  cases old with
  | nil => exact absurd rfl hold
  | cons o old =>
    have hp : (o :: old).isPrefixOf (o :: (old ++ rest)) = true := by
      rw [List.isPrefixOf_iff_prefix]
      exact List.prefix_append (o :: old) rest
    rw [List.cons_append, replaceScan, if_pos hp]
    simp only [List.length_cons, Nat.add_sub_cancel]
    rw [replaceScan_skip]

theorem replaceScan_other (old new : List Char) (hold : old.head? = some openBrace)
    (q rest : List Char) (hq : q.head? = some openBrace) (hqt : openBrace ∉ q.tail)
    (hno : old.isPrefixOf (q ++ rest) = false) :
    replaceScan old new 0 (q ++ rest) = q ++ replaceScan old new 0 rest := by
  cases q with
  | nil => simp at hq
  | cons c q =>
    simp only [List.cons_append] at hno
    simp only [List.tail_cons] at hqt
    rw [List.cons_append, replaceScan, if_neg (by rw [hno]; simp),
      replaceScan_text old new hold q rest hqt]
    rfl

theorem placeholders_shape :
    ∀ a ∈ placeholders, a.toList.head? = some openBrace ∧ openBrace ∉ a.toList.tail := by
  decide

theorem placeholders_prefix_free :
    ∀ a ∈ placeholders, ∀ b ∈ placeholders, a.toList.isPrefixOf b.toList = true → a = b := by
  decide

theorem placeholder_not_initial (a b : String) (ha : a ∈ placeholders) (hb : b ∈ placeholders)
    (hab : b ≠ a) (rest : List Char) : a.toList.isPrefixOf (b.toList ++ rest) = false := by
  by_contra h
  simp only [Bool.not_eq_false] at h
  rw [List.isPrefixOf_iff_prefix] at h
  rcases List.prefix_or_prefix_of_prefix h (List.prefix_append b.toList rest) with h1 | h1
  · exact hab (placeholders_prefix_free a ha b hb (List.isPrefixOf_iff_prefix.mpr h1)).symm
  · exact hab (placeholders_prefix_free b hb a ha (List.isPrefixOf_iff_prefix.mpr h1))

theorem replaceScan_pieces (key value : String) (hkey : key ∈ placeholders)
    (pieces : List Piece)
    (hwf : ∀ p ∈ pieces, p.WellFormed = true) :
    replaceScan key.toList value.toList 0 (pieces.flatMap (fun piece => piece.render.toList))
      = (pieces.map (Piece.replace key value)).flatMap (fun piece => piece.render.toList) := by
  have hold := (placeholders_shape key hkey).1
  have hne : key.toList ≠ [] := by
    intro h
    rw [h] at hold
    simp at hold
  induction pieces with
  | nil => rfl
  | cons p pieces ih =>
    have ih1 := ih (fun q hq => hwf q (List.mem_cons_of_mem _ hq))
    have hp := hwf p (List.mem_cons_self _ _)
    simp only [List.flatMap_cons, List.map_cons]
    cases p with
    | text s =>
      have hs : openBrace ∉ s.toList := by simpa [Piece.WellFormed] using hp
      show replaceScan key.toList value.toList 0 (s.toList ++ _) = s.toList ++ _
      rw [replaceScan_text _ _ hold _ _ hs, ih1]
    | hole k =>
      have hp : k ∈ placeholders := by simpa [Piece.WellFormed] using hp
      by_cases hk : k = key
      · subst hk
        have hr : Piece.replace k value (Piece.hole k) = Piece.text value := by
          simp [Piece.replace]
        rw [hr]
        show replaceScan k.toList value.toList 0 (k.toList ++ _) = value.toList ++ _
        rw [replaceScan_match _ _ hne, ih1]
      · have hr : Piece.replace key value (Piece.hole k) = Piece.hole k := by
          simp [Piece.replace, hk]
        rw [hr]
        show replaceScan key.toList value.toList 0 (k.toList ++ _) = k.toList ++ _
        rw [replaceScan_other _ _ hold _ _ (placeholders_shape k hp).1 (placeholders_shape k hp).2
          (placeholder_not_initial key k hkey hp hk _), ih1]

theorem ReplaceAll_pieces (key value : String) (hkey : key ∈ placeholders)
    (pieces : List Piece)
    (hwf : ∀ p ∈ pieces, p.WellFormed = true) :
    ReplaceAll (renderPieces pieces) key value
      = renderPieces (pieces.map (Piece.replace key value)) := by
  have hne : key ≠ "" := by
    intro h
    subst h
    revert hkey
    decide
  unfold ReplaceAll renderPieces
  rw [if_neg hne]
  exact congrArg String.mk (replaceScan_pieces key value hkey pieces hwf)

theorem replace_wellFormed (key value : String) (hvalue : openBrace ∉ value.toList)
    (pieces : List Piece) (hwf : ∀ p ∈ pieces, p.WellFormed = true) :
    ∀ p ∈ pieces.map (Piece.replace key value), p.WellFormed = true := by
  intro p hp
  obtain ⟨q, hq, rfl⟩ := List.mem_map.mp hp
  have := hwf q hq
  cases q with
  | text s => exact this
  | hole k =>
    by_cases hk : k = key
    · have hr : Piece.replace key value (Piece.hole k) = Piece.text value := by
        simp [Piece.replace, hk]
      rw [hr]
      simpa [Piece.WellFormed] using hvalue
    · have hr : Piece.replace key value (Piece.hole k) = Piece.hole k := by
        simp [Piece.replace, hk]
      rw [hr]
      exact this

theorem fill_cons_replace (kv : String × String) (values : List (String × String)) (p : Piece) :
    Piece.fill values (Piece.replace kv.1 (substitutedValue kv.2) p)
      = Piece.fill (kv :: values) p := by
  cases p with
  | text s => rfl
  | hole k =>
    by_cases hk : k = kv.1
    · subst hk
      simp [Piece.replace, Piece.fill, mapGet, List.lookup]
    · have hbeq : (k == kv.1) = false := by simpa using hk
      simp [Piece.replace, Piece.fill, mapGet, List.lookup, hk, hbeq]

theorem foldl_replaceStep_pieces (visit : List (String × String)) :
    ∀ (pieces : List Piece), (∀ p ∈ pieces, p.WellFormed = true) →
      (∀ kv ∈ visit, kv.1 ∈ placeholders ∧ openBrace ∉ (substitutedValue kv.2).toList) →
      visit.foldl replaceStep (renderPieces pieces) = renderPieces (pieces.map (Piece.fill visit)) := by
  induction visit with
  | nil =>
    intro pieces _ _
    have : pieces.map (Piece.fill []) = pieces := by
      rw [List.map_congr_left (g := id)]
      · simp
      · intro p _
        cases p <;> rfl
    rw [this]
    rfl
  | cons kv visit ih =>
    intro pieces hwf hvisit
    obtain ⟨hk, hv⟩ := hvisit kv (List.mem_cons_self _ _)
    rw [List.foldl_cons]
    have hstep : replaceStep (renderPieces pieces) kv
        = renderPieces (pieces.map (Piece.replace kv.1 (substitutedValue kv.2))) :=
      ReplaceAll_pieces kv.1 (substitutedValue kv.2) hk pieces hwf
    rw [hstep, ih _ (replace_wellFormed _ _ hv pieces hwf)
      (fun e he => hvisit e (List.mem_cons_of_mem _ he))]
    rw [List.map_map]
    congr 1
    apply List.map_congr_left
    intro p _
    exact fill_cons_replace kv visit p

theorem mapGet_of_mem_nodup {β : Type} (m : List (String × β)) (k : String) (v : β)
    (hnd : (m.map Prod.fst).Nodup) (hmem : (k, v) ∈ m) : mapGet m k = some v := by
  induction m with
  | nil => cases hmem
  | cons kv m ih =>
    obtain ⟨k0, v0⟩ := kv
    simp only [List.map_cons, List.nodup_cons] at hnd
    rcases List.mem_cons.mp hmem with h | h
    · simp only [Prod.mk.injEq] at h
      obtain ⟨rfl, rfl⟩ := h
      simp [mapGet, List.lookup]
    · have hk : k ≠ k0 := by
        intro hk
        subst hk
        exact hnd.1 (List.mem_map.mpr ⟨(k, v), h, rfl⟩)
      have hbeq : (k == k0) = false := by simpa using hk
      simp only [mapGet, List.lookup, hbeq]
      exact ih hnd.2 h

theorem mapGet_perm {β : Type} (m1 m2 : List (String × β)) (hperm : m1.Perm m2)
    (hnd : (m2.map Prod.fst).Nodup) (k : String) : mapGet m1 k = mapGet m2 k := by
  have hnd1 : (m1.map Prod.fst).Nodup := (hperm.map Prod.fst).nodup_iff.mpr hnd
  apply Option.ext
  intro v
  constructor
  · intro h
    exact mapGet_of_mem_nodup m2 k v hnd (hperm.mem_iff.mp (mapGet_some_mem m1 k v h))
  · intro h
    exact mapGet_of_mem_nodup m1 k v hnd1 (hperm.mem_iff.mpr (mapGet_some_mem m2 k v h))

theorem replacements_keys (formatPrice : Rat → String) (product : Product) (variantCount : Int) :
    (replacements formatPrice product variantCount).map Prod.fst = placeholders := by
  rfl

theorem placeholders_nodup : placeholders.Nodup := by
  decide

theorem substitutedValue_ne_empty (value : String) : substitutedValue value ≠ "" := by
  unfold substitutedValue
  split_ifs with h
  · decide
  · exact h

theorem substitutedValue_no_brace (value : String) (h : openBrace ∉ value.toList) :
    openBrace ∉ (substitutedValue value).toList := by
  unfold substitutedValue
  split_ifs
  · decide
  · exact h

theorem buildPrompt_eq_fillSpec (env : VariantEnv) (product : Product) (variantCount : Int)
    (pieces : List Piece) (htemplate : env.VariantPromptTemplate = renderPieces pieces)
    (hwf : ∀ p ∈ pieces, p.WellFormed = true)
    (hvalues : ∀ kv ∈ replacements env.formatPrice product variantCount,
      openBrace ∉ kv.2.toList)
    (hrange : ∀ m, (env.rangeOrder m).Perm m) :
    buildPrompt env product variantCount
      = fillSpec (replacements env.formatPrice product variantCount) pieces := by
  have hperm := hrange (replacements env.formatPrice product variantCount)
  have hnd : ((replacements env.formatPrice product variantCount).map Prod.fst).Nodup := by
    rw [replacements_keys]
    exact placeholders_nodup
  unfold buildPrompt fillSpec
  simp only [htemplate]
  rw [foldl_replaceStep_pieces _ pieces hwf]
  · congr 1
    apply List.map_congr_left
    intro p _
    cases p with
    | text s => rfl
    | hole k =>
      simp only [Piece.fill]
      rw [mapGet_perm _ _ hperm hnd k]
  · intro kv hkv
    have hmem := hperm.mem_iff.mp hkv
    refine ⟨?_, substitutedValue_no_brace _ (hvalues kv hmem)⟩
    rw [← replacements_keys env.formatPrice product variantCount]
    exact List.mem_map.mpr ⟨kv, hmem, rfl⟩

theorem fill_replacements_text (formatPrice : Rat → String) (product : Product)
    (variantCount : Int) (p : Piece) (hwf : p.WellFormed = true) :
    ∃ s, Piece.fill (replacements formatPrice product variantCount) p = .text s := by
  cases p with
  | text s => exact ⟨s, rfl⟩
  | hole k =>
    have hk : k ∈ placeholders := by simpa [Piece.WellFormed] using hwf
    rw [← replacements_keys formatPrice product variantCount] at hk
    obtain ⟨kv, hkv, rfl⟩ := List.mem_map.mp hk
    have hnd : ((replacements formatPrice product variantCount).map Prod.fst).Nodup := by
      rw [replacements_keys]
      exact placeholders_nodup
    have := mapGet_of_mem_nodup _ kv.1 kv.2 hnd hkv
    exact ⟨substitutedValue kv.2, by simp [Piece.fill, this]⟩

/-- C17 (as stated, refuted): with the template made of the placeholder of the
product name alone and a product whose name is the text of the color
placeholder, `buildPrompt` returns "red" when the product name is visited
before the color and the text of the color placeholder when it is visited
after it: the result depends on the order in which the placeholders are
processed, and it is not in both cases the template with each placeholder
replaced by its field. -/
theorem buildPrompt_depends_on_order :
    buildPrompt sampleVariantEnv bracedProduct 5 = "red" ∧
    buildPrompt { sampleVariantEnv with rangeOrder := List.reverse } bracedProduct 5
      = "\x7bcolor\x7d" ∧
    (∀ m : List (String × String), (sampleVariantEnv.rangeOrder m).Perm m) ∧
    (∀ m : List (String × String), (List.reverse m).Perm m) := by
  refine ⟨by decide, by decide, fun m => List.Perm.refl m, fun m => List.reverse_perm m⟩

/-- C17 (amended): for every product, every order in which the nine
placeholders are visited, and every template that is made of text without an
opening brace and of named placeholders, if no substituted value contains an
opening brace then `buildPrompt` returns the template with every placeholder
replaced by the corresponding value, or by the unspecified marker "未指定" when
that value is empty; no placeholder is replaced by the empty string, no
placeholder remains, and the result is the same for every visiting order. -/
theorem buildPrompt_fills_placeholders (env : VariantEnv) (product : Product)
    (variantCount : Int) (pieces : List Piece)
    (htemplate : env.VariantPromptTemplate = renderPieces pieces)
    (hwf : ∀ p ∈ pieces, p.WellFormed = true)
    (hvalues : ∀ kv ∈ replacements env.formatPrice product variantCount,
      openBrace ∉ kv.2.toList)
    (hrange : ∀ m, (env.rangeOrder m).Perm m) :
    buildPrompt env product variantCount
      = fillSpec (replacements env.formatPrice product variantCount) pieces ∧
    (∀ value : String, substitutedValue value ≠ "") ∧
    (∀ p ∈ pieces.map (Piece.fill (replacements env.formatPrice product variantCount)),
      ∃ s, p = .text s) ∧
    (∀ rangeOrder2 : List (String × String) → List (String × String),
      (∀ m, (rangeOrder2 m).Perm m) →
      buildPrompt { env with rangeOrder := rangeOrder2 } product variantCount
        = buildPrompt env product variantCount) := by
  have h1 := buildPrompt_eq_fillSpec env product variantCount pieces htemplate hwf hvalues hrange
  refine ⟨h1, substitutedValue_ne_empty, ?_, ?_⟩
  · intro p hp
    obtain ⟨q, hq, rfl⟩ := List.mem_map.mp hp
    exact fill_replacements_text _ _ _ q (hwf q hq)
  · intro rangeOrder2 hrange2
    rw [h1]
    exact buildPrompt_eq_fillSpec { env with rangeOrder := rangeOrder2 } product variantCount
      pieces htemplate hwf hvalues hrange2

/-- Witness for C17 (amended): a template with three placeholders, visited in
reverse order, for a product without material. -/
theorem buildPrompt_fills_placeholders_witness :
    (piecesVariantEnv.VariantPromptTemplate = renderPieces samplePieces ∧
      (∀ p ∈ samplePieces, p.WellFormed = true) ∧
      (∀ kv ∈ replacements piecesVariantEnv.formatPrice blueJeans 5, openBrace ∉ kv.2.toList) ∧
      (∀ m, (piecesVariantEnv.rangeOrder m).Perm m)) ∧
    buildPrompt piecesVariantEnv blueJeans 5 = "Write 5 texts for Blue Jeans (未指定)." :=
  ⟨⟨rfl, by decide, by decide, fun m => List.reverse_perm m⟩,
    (buildPrompt_fills_placeholders piecesVariantEnv blueJeans 5 samplePieces rfl (by decide)
      (by decide) (fun m => List.reverse_perm m)).1.trans (by decide)⟩

/-! ## `parseVariantsFallback` -/

theorem dropWhile_reverse_of_last {α : Type} (p : α → Bool) (l : List α) (a : α)
    (ha : p a = false) : ((l ++ [a]).reverse.dropWhile p).reverse = l ++ [a] := by
  simp [List.dropWhile, ha]

theorem trimBoth_eq_self (p : Char → Bool) (c : Char) (l : List Char) (a : Char)
    (hc : p c = false) (ha : p a = false) : trimBoth p (c :: (l ++ [a])) = c :: (l ++ [a]) := by
  unfold trimBoth
  rw [List.dropWhile_cons_of_neg (by simp [hc])]
  exact dropWhile_reverse_of_last p (c :: l) a ha

/-- The characters that can stand for a one-digit ordinal. -/
theorem digit_facts :
    ∀ d ∈ ['0', '1', '2', '3', '4', '5', '6', '7', '8', '9'],
      IsSpace d = false ∧ d.toNat < 0x80 ∧
      ("```".toList.head? ≠ some d ∧ "#".toList.head? ≠ some d ∧
        "//".toList.head? ≠ some d ∧ "-".toList.head? ≠ some d ∧
        "*".toList.head? ≠ some d ∧ "•".toList.head? ≠ some d) := by
  decide

theorem isPrefixOf_cons_of_head (pre : List Char) (d : Char) (rest : List Char)
    (h : pre.head? ≠ some d) (hne : pre ≠ []) : pre.isPrefixOf (d :: rest) = false := by
  cases pre with
  | nil => exact absurd rfl hne
  | cons a pre =>
    have had : a ≠ d := by
      intro had
      apply h
      simp [had]
    simp [List.isPrefixOf, had]

theorem fallbackLine_one_digit (d : Char)
    (hd : d ∈ ['0', '1', '2', '3', '4', '5', '6', '7', '8', '9'])
    (first last : Char) (middle : List Char)
    (hfirst : IsSpace first = false ∧ " \t\"',".toList.contains first = false)
    (hlast : IsSpace last = false ∧ " \t\"',".toList.contains last = false)
    (hlen : len (String.mk (first :: (middle ++ [last]))) > 5 ∧
      len (String.mk (first :: (middle ++ [last]))) < 100) :
    fallbackLine (String.mk (d :: '.' :: ' ' :: first :: (middle ++ [last])))
      = some (String.mk (first :: (middle ++ [last]))) := by
  obtain ⟨hsp, hascii, h1, h2, h3, h4, h5, h6⟩ := digit_facts d hd
  have htrim : TrimSpace (String.mk (d :: '.' :: ' ' :: first :: (middle ++ [last])))
      = String.mk (d :: '.' :: ' ' :: first :: (middle ++ [last])) := by
    unfold TrimSpace
    have := trimBoth_eq_self IsSpace d ('.' :: ' ' :: first :: middle) last hsp hlast.1
    simp only [List.cons_append] at this
    exact congrArg String.mk this
  have hpre : ∀ pre : String, pre.toList.head? ≠ some d → pre.toList ≠ [] →
      HasPrefix (String.mk (d :: '.' :: ' ' :: first :: (middle ++ [last]))) pre = false := by
    intro pre hp hne
    exact isPrefixOf_cons_of_head _ d _ hp hne
  have hdrop : dropOrdinal (String.mk (d :: '.' :: ' ' :: first :: (middle ++ [last])))
      = String.mk (' ' :: first :: (middle ++ [last])) := by
    unfold dropOrdinal
    have hb : bytes (String.mk (d :: '.' :: ' ' :: first :: (middle ++ [last])))
        = d.toNat :: 46 :: 32 :: bytes (String.mk (first :: (middle ++ [last]))) := by
      simp [bytes, utf8Bytes, hascii]
    rw [if_pos]
    · rfl
    · rw [len, hb]
      simp
  have hcut : Trim (String.mk (' ' :: first :: (middle ++ [last]))) " \t\"',"
      = String.mk (first :: (middle ++ [last])) := by
    unfold Trim trimBoth
    show String.mk ((List.dropWhile (fun c => " \t\"',".toList.contains c)
      (List.dropWhile (fun c => " \t\"',".toList.contains c)
        (' ' :: first :: (middle ++ [last]))).reverse).reverse) = _
    rw [List.dropWhile_cons_of_pos
        (show (fun c => " \t\"',".toList.contains c) ' ' = true from by decide),
      List.dropWhile_cons_of_neg
        (show ¬ (fun c => " \t\"',".toList.contains c) first = true from
          fun h => absurd (h.symm.trans hfirst.2) (by decide))]
    exact congrArg String.mk
      (dropWhile_reverse_of_last (fun c => " \t\"',".toList.contains c)
        (first :: middle) last hlast.2)
  unfold fallbackLine
  simp only [htrim]
  rw [if_neg]
  · simp only [TrimPrefix, hpre "-" h4 (by decide), hpre "*" h5 (by decide),
      hpre "•" h6 (by decide), Bool.false_eq_true, if_false, hdrop, hcut]
    rw [if_pos hlen]
  · rw [hpre "```" h1 (by decide), hpre "#" h2 (by decide), hpre "//" h3 (by decide)]
    simp
    intro h
    have := congrArg String.toList h
    simp at this

/-- C18 (code defect): `parseVariantsFallback` removes a leading ordinal only
when its full stop is the second byte of the line: for every line made of one
digit, a full stop, a space and a text of acceptable length without
surrounding whitespace or punctuation it extracts exactly the text, but a line
with a two-digit ordinal such as "10. red summer dress" is kept whole, ordinal
included. -/
theorem parseVariantsFallback_ordinal_removal :
    parseVariantsFallback "3. blue denim jeans\n10. red summer dress"
      = ["blue denim jeans", "10. red summer dress"] ∧
    fallbackLine "10. red summer dress" = some "10. red summer dress" ∧
    fallbackLine "3. red summer dress" = some "red summer dress" ∧
    (∀ d ∈ ['0', '1', '2', '3', '4', '5', '6', '7', '8', '9'],
      ∀ (first last : Char) (middle : List Char),
        IsSpace first = false ∧ " \t\"',".toList.contains first = false →
        IsSpace last = false ∧ " \t\"',".toList.contains last = false →
        len (String.mk (first :: (middle ++ [last]))) > 5 ∧
          len (String.mk (first :: (middle ++ [last]))) < 100 →
        fallbackLine (String.mk (d :: '.' :: ' ' :: first :: (middle ++ [last])))
          = some (String.mk (first :: (middle ++ [last])))) := by
  refine ⟨by decide, by decide, by decide, ?_⟩
  intro d hd first last middle hfirst hlast hlen
  exact fallbackLine_one_digit d hd first last middle hfirst hlast hlen

/-! ## The match reason -/

theorem filterReasons_labels (filter : GoMap) (init : List String)
    (hinit : ∀ r ∈ init, r ∈ filterLabels) :
    ∀ r ∈ filter.foldl (fun (filterReasons : List String) (kv : String × Value) =>
        if kv.1 = "brand" then filterReasons ++ ["品牌匹配"]
        else if kv.1 = "color" then filterReasons ++ ["颜色匹配"]
        else if kv.1 = "price_min" ∨ kv.1 = "price_max" then filterReasons ++ ["价格范围匹配"]
        else if kv.1 = "size" then filterReasons ++ ["尺寸匹配"]
        else filterReasons) init, r ∈ filterLabels := by
  induction filter generalizing init with
  | nil => simpa using hinit
  | cons kv filter ih =>
    rw [List.foldl_cons]
    apply ih
    intro r hr
    split_ifs at hr <;> first
      | exact hinit r hr
      | (rcases List.mem_append.mp hr with h | h
         · exact hinit r h
         · simp only [List.mem_singleton] at h
           subst h
           decide)

/-- C19: for every score, the match reason of `generateMatchReason` begins
with exactly one tier label, chosen by strict thresholds: the high label when
score > 0.9, the good label when 0.7 < score <= 0.9, the basic label when
score <= 0.7; what follows the label is empty or the separator and the joined
labels of filter dimensions. -/
theorem generateMatchReason_tier_label (score : Rat) (filter : GoMap) :
    (∃ rest : String,
      generateMatchReason score filter = tierLabelSpec score ++ rest ∧
      (rest = "" ∨
        ∃ filterReasons : List String, filterReasons ≠ [] ∧
          (∀ r ∈ filterReasons, r ∈ filterLabels) ∧
          rest = " + " ++ String.intercalate "、" filterReasons)) ∧
    (score > 9 / 10 → tierLabelSpec score = "高度语义匹配") ∧
    (7 / 10 < score ∧ score ≤ 9 / 10 → tierLabelSpec score = "良好语义匹配") ∧
    (score ≤ 7 / 10 → tierLabelSpec score = "基础语义匹配") := by
  refine ⟨?_, ?_, ?_, ?_⟩
  · have hreasons : (if score > 9 / 10 then ([] : List String) ++ ["高度语义匹配"]
        else if score > 7 / 10 then [] ++ ["良好语义匹配"]
        else [] ++ ["基础语义匹配"]) = [tierLabelSpec score] := by
      unfold tierLabelSpec
      split_ifs <;> rfl
    unfold generateMatchReason
    simp only [hreasons]
    by_cases hlen : filter.length > 0
    · simp only [hlen, if_true]
      split_ifs with hfr
      · refine ⟨_, ?_, Or.inr ⟨_, ?_, filterReasons_labels filter [] (by simp), rfl⟩⟩
        · simp [String.intercalate, String.intercalate.go, String.append_assoc]
        · intro h
          rw [h] at hfr
          simp at hfr
      · exact ⟨"", by simp [String.intercalate, String.intercalate.go], Or.inl rfl⟩
    · simp only [hlen, if_false]
      exact ⟨"", by simp [String.intercalate, String.intercalate.go], Or.inl rfl⟩
  · intro h
    simp [tierLabelSpec, h]
  · intro h
    have h1 : ¬ score > 9 / 10 := not_lt.mpr h.2
    simp [tierLabelSpec, h1, h.1]
  · intro h
    have h1 : ¬ score > 7 / 10 := not_lt.mpr h
    have h2 : ¬ score > 9 / 10 := by
      intro h3
      apply h1
      exact lt_trans (by norm_num) h3
    simp [tierLabelSpec, h1, h2]

theorem generateMatchReason_ToQdrantFilter (pq : ParsedQuery) (score : Rat) :
    generateMatchReason score pq.ToQdrantFilter = tierLabelSpec score := by
  rw [ToQdrantFilter_eq]
  unfold generateMatchReason tierLabelSpec
  split_ifs <;> simp [String.intercalate, String.intercalate.go]

/-- C20 (code defect): for every intent and score, the match reason that
`SearchProducts` attaches to a hit found with the filter
`ToQdrantFilter(intent)` is the tier label alone: the composed filter has the
single key `"must"`, which the `switch` of `generateMatchReason` does not
handle, so no label of a filter dimension is listed, whatever brand, color,
size or price bound the intent has. -/
theorem SearchProducts_match_reason_lists_no_dimension (pq : ParsedQuery) (score : Rat)
    (payload : Payload) :
    generateMatchReason score pq.ToQdrantFilter = tierLabelSpec score ∧
    (toSearchResult pq.ToQdrantFilter { Score := score, Payload := some payload }).MatchReason
      = tierLabelSpec score ∧
    (∀ label ∈ filterLabels, Contains (tierLabelSpec score) label = false) ∧
    (toSearchResult
        (ParsedQuery.ToQdrantFilter
          { Brand := "Nike", Color := "red", Size := "M", PriceMax := some 100 })
        { Score := 1, Payload := some [] }).MatchReason = "高度语义匹配" := by
  have h1 := generateMatchReason_ToQdrantFilter pq score
  refine ⟨h1, ?_, ?_, ?_⟩
  · simp only [toSearchResult]
    exact h1
  · intro label hlabel
    unfold tierLabelSpec
    split_ifs <;> revert label <;> decide
  · rw [show (toSearchResult
        (ParsedQuery.ToQdrantFilter
          { Brand := "Nike", Color := "red", Size := "M", PriceMax := some 100 })
        { Score := 1, Payload := some [] }).MatchReason
          = generateMatchReason 1 (ParsedQuery.ToQdrantFilter
          { Brand := "Nike", Color := "red", Size := "M", PriceMax := some 100 }) from rfl]
    rw [generateMatchReason_ToQdrantFilter]
    simp [tierLabelSpec]
    norm_num

/-! ## `BatchImport` -/

theorem variantLoop_ok {V : Type} (now : Nat → Time) (embeddings : List V) :
    ∀ l : List (Nat × String), (∀ it ∈ l, it.1 < embeddings.length) →
      ∃ productVariants, variantLoop now embeddings l = .ok productVariants := by
  intro l
  induction l with
  | nil => intro _; exact ⟨[], rfl⟩
  | cons it rest ih =>
    intro h
    obtain ⟨i, variant⟩ := it
    have hi : i < embeddings.length := h (i, variant) (List.mem_cons_self _ _)
    obtain ⟨pvs, hpvs⟩ := ih (fun it hit => h it (List.mem_cons_of_mem _ hit))
    unfold variantLoop
    rw [List.getElem?_eq_getElem hi]
    simp only [hpvs]
    exact ⟨_, rfl⟩

theorem GenerateVariantsWithEmbeddings_returns {V : Type} (env : VariantEnv)
    (api : EmbeddingAPI V)
    (hclient : ∀ n texts vectors, api n texts = .ok vectors → texts.length ≤ vectors.length)
    (now : Nat → Time) (product : Product) (variantCount : Int)
    (embeddingService : CachedEmbeddingService V) (msg : String) :
    (GenerateVariantsWithEmbeddings env api now product variantCount embeddingService).1
      ≠ .panic msg := by
  unfold GenerateVariantsWithEmbeddings
  cases GenerateVariants env product variantCount with
  | error err => simp
  | ok variantTexts =>
    simp only
    split_ifs with hlen
    · simp
    · have hstep : ∀ m, (embeddingService.GetProductVariantEmbeddings api now variantTexts).1
          ≠ .panic m := by
        intro m
        unfold CachedEmbeddingService.GetProductVariantEmbeddings
          EmbeddingService.GetProductVariantEmbeddings EmbeddingService.GetEmbeddings
        simp only [hlen, if_false]
        cases hapi : api embeddingService.EmbeddingService.sent.length variantTexts with
        | error err => simp
        | ok embeddings =>
          have hle := hclient _ _ _ hapi
          obtain ⟨pvs, hpvs⟩ := variantLoop_ok now embeddings variantTexts.enum (by
            intro it hit
            have := List.fst_lt_of_mem_enum hit
            omega)
          simp [hpvs]
      rcases hr : embeddingService.GetProductVariantEmbeddings api now variantTexts with ⟨r, svc⟩
      have hstep2 := hstep
      rw [hr] at hstep2
      cases r with
      | ok pvs => simp
      | error err => simp
      | panic m => exact absurd rfl (hstep2 m)

theorem item_spec {V : Type} (env : ImportEnv V) (st : ImportState V)
    (it : Nat × ProductCreateRequest)
    (hreturns : ∀ msg, (GenerateVariantsWithEmbeddings env.variants env.api
      (fun k => env.clock it.1 (k + 1)) (BatchImport.product env it) 3 st.Embedding).1
        ≠ .panic msg) :
    ∃ st1, BatchImport.item env st it = .ok st1 ∧
      st1.response.Total = st.response.Total ∧
      st1.response.ProcessID = st.response.ProcessID ∧
      ((BatchImport.itemFails env st it = true ∧
          st1.response.Failed = st.response.Failed + 1 ∧
          st1.response.Success = st.response.Success ∧
          ∃ msg, st1.response.Errors
            = st.response.Errors ++ [{ Index := it.1, Product := it.2.Name, Error := msg }]) ∨
        (BatchImport.itemFails env st it = false ∧
          st1.response.Failed = st.response.Failed ∧
          st1.response.Success = st.response.Success + 1 ∧
          st1.response.Errors = st.response.Errors)) := by
  rcases hg : GenerateVariantsWithEmbeddings env.variants env.api
    (fun k => env.clock it.1 (k + 1)) (BatchImport.product env it) 3 st.Embedding with ⟨r, emb⟩
  rw [hg] at hreturns
  cases r with
  | panic msg => exact absurd rfl (hreturns msg)
  | error err =>
    have hitem : BatchImport.item env st it = .ok
        { st with
          Embedding := emb
          response := { st.response with
            Failed := st.response.Failed + 1
            Errors := st.response.Errors ++
              [{ Index := it.1, Product := it.2.Name
                 Error := "Failed to generate variants: " ++ err }] } } := by
      simp only [BatchImport.item, hg]
      rfl
    have hf : BatchImport.itemFails env st it = true := by
      simp only [BatchImport.itemFails, hg]
    exact ⟨_, hitem, rfl, rfl, Or.inl ⟨hf, rfl, rfl, _, rfl⟩⟩
  | ok variants =>
    rcases hi : st.Qdrant.InsertProduct (BatchImport.product env it) variants with ⟨r2, q⟩
    cases r2 with
    | error err =>
      have hitem : BatchImport.item env st it = .ok
          { Embedding := emb
            Qdrant := q
            response := { st.response with
              Failed := st.response.Failed + 1
              Errors := st.response.Errors ++
                [{ Index := it.1, Product := it.2.Name
                   Error := "Failed to save product: " ++ err }] } } := by
        simp only [BatchImport.item, hg, hi]
        rfl
      have hf : BatchImport.itemFails env st it = true := by
        simp only [BatchImport.itemFails, hg, hi]
        rfl
      exact ⟨_, hitem, rfl, rfl, Or.inl ⟨hf, rfl, rfl, _, rfl⟩⟩
    | ok u =>
      have hitem : BatchImport.item env st it = .ok
          { Embedding := emb
            Qdrant := q
            response := { st.response with Success := st.response.Success + 1 } } := by
        simp only [BatchImport.item, hg, hi]
      have hf : BatchImport.itemFails env st it = false := by
        simp only [BatchImport.itemFails, hg, hi]
        rfl
      exact ⟨_, hitem, rfl, rfl, Or.inr ⟨hf, rfl, rfl, rfl⟩⟩

theorem failingItems_sublist {V : Type} (env : ImportEnv V) :
    ∀ (items : List (Nat × ProductCreateRequest)) (st : ImportState V),
      (BatchImport.failingItems env items st).Sublist (items.map Prod.fst) := by
  intro items
  induction items with
  | nil => intro st; exact List.Sublist.refl _
  | cons it rest ih =>
    intro st
    unfold BatchImport.failingItems
    cases BatchImport.item env st it with
    | ok st1 =>
      simp only [List.map_cons]
      split_ifs
      · exact (ih st1).cons₂ _
      · exact (ih st1).cons _
    | error err => exact List.nil_sublist _
    | panic msg => exact List.nil_sublist _

theorem loop_spec {V : Type} (env : ImportEnv V)
    (hreturns : ∀ (st : ImportState V) (it : Nat × ProductCreateRequest) (msg : String),
      (GenerateVariantsWithEmbeddings env.variants env.api
        (fun k => env.clock it.1 (k + 1)) (BatchImport.product env it) 3 st.Embedding).1
        ≠ .panic msg) :
    ∀ (items : List (Nat × ProductCreateRequest)) (st : ImportState V),
      ∃ st1, BatchImport.loop env items st = .ok st1 ∧
        st1.response.Total = st.response.Total ∧
        st1.response.ProcessID = st.response.ProcessID ∧
        st1.response.Failed = st.response.Failed + (BatchImport.failingItems env items st).length ∧
        st1.response.Success + st1.response.Failed
          = st.response.Success + st.response.Failed + items.length ∧
        st1.response.Errors.map (fun e => e.Index)
          = st.response.Errors.map (fun e => e.Index) ++ BatchImport.failingItems env items st ∧
        ∀ e ∈ st1.response.Errors, e ∈ st.response.Errors ∨
          ∃ it ∈ items, e.Index = it.1 ∧ e.Product = it.2.Name := by
  intro items
  induction items with
  | nil =>
    intro st
    exact ⟨st, rfl, rfl, rfl, by simp [BatchImport.failingItems],
      by simp, by simp [BatchImport.failingItems], fun e he => Or.inl he⟩
  | cons it rest ih =>
    intro st
    obtain ⟨st1, h1, htotal, hpid, hcase⟩ := item_spec env st it (hreturns st it)
    obtain ⟨st2, h2, htotal2, hpid2, hfailed2, hsum2, herrors2, hentries2⟩ := ih st1
    refine ⟨st2, ?_, by rw [htotal2, htotal], by rw [hpid2, hpid], ?_, ?_, ?_, ?_⟩
    · simp only [BatchImport.loop, h1, h2]
    · simp only [BatchImport.failingItems, h1]
      rcases hcase with ⟨hf, hfailed, hsuccess, msg, herrors⟩ | ⟨hf, hfailed, hsuccess, herrors⟩
      · simp only [hf, if_true, List.length_append, List.length_singleton]
        omega
      · simp only [hf, Bool.false_eq_true, if_false, List.nil_append]
        omega
    · simp only [List.length_cons]
      rcases hcase with ⟨hf, hfailed, hsuccess, msg, herrors⟩ | ⟨hf, hfailed, hsuccess, herrors⟩ <;>
        omega
    · simp only [BatchImport.failingItems, h1]
      rcases hcase with ⟨hf, hfailed, hsuccess, msg, herrors⟩ | ⟨hf, hfailed, hsuccess, herrors⟩
      · simp only [hf, if_true]
        rw [herrors2, herrors]
        simp
      · simp only [hf, Bool.false_eq_true, if_false, List.nil_append]
        rw [herrors2, herrors]
    · intro e he
      rcases hentries2 e he with h | ⟨it2, hit2, hidx, hname⟩
      · rcases hcase with ⟨hf, hfailed, hsuccess, msg, herrors⟩ | ⟨hf, hfailed, hsuccess, herrors⟩
        · rw [herrors] at h
          rcases List.mem_append.mp h with h3 | h3
          · exact Or.inl h3
          · simp only [List.mem_singleton] at h3
            exact Or.inr ⟨it, List.mem_cons_self _ _, by rw [h3], by rw [h3]⟩
        · rw [herrors] at h
          exact Or.inl h
      · exact Or.inr ⟨it2, List.mem_cons_of_mem _ hit2, hidx, hname⟩

/-- C21 (code defect): `BatchImport` isolates the items that fail with an
error, but not an item whose variant generation panics. When the embedding
endpoint answers a request with fewer vectors than texts,
`GetProductVariantEmbeddings` indexes past the end of the answer: with the
endpoint that answers with no vector the handler panics at the first of three
products and reports nothing. For an endpoint that never answers with fewer
vectors than texts the handler returns the report for every batch and every
pattern of failures: total = n, success + failed = n, failed is the number of
failing items, and the error entries are those of the failing items, with
their indices in increasing order and their product names. With three
products of which the second fails the report is total 3, success 2, failed 1
and one error entry at index 1. -/
theorem BatchImport_aborts_on_panic {V : Type} (env : ImportEnv V)
    (Embedding : CachedEmbeddingService V) (Qdrant : QdrantStore V) (req : BatchImportRequest) :
    ((∀ n texts vectors, env.api n texts = .ok vectors → texts.length ≤ vectors.length) →
      ∃ response Embedding1 Qdrant1,
        BatchImport env Embedding Qdrant (.ok req)
          = .ok (SuccessResponseOf env.now response, Embedding1, Qdrant1) ∧
        response.Total = req.Products.length ∧
        response.Success + response.Failed = req.Products.length ∧
        response.Failed
          = (BatchImport.failingItems env req.Products.enum
              { response := { Total := req.Products.length, Success := 0, Failed := 0
                              Errors := [], ProcessID := env.uuid 0 }
                Embedding := Embedding, Qdrant := Qdrant }).length ∧
        response.Errors.map (fun e => e.Index)
          = BatchImport.failingItems env req.Products.enum
              { response := { Total := req.Products.length, Success := 0, Failed := 0
                              Errors := [], ProcessID := env.uuid 0 }
                Embedding := Embedding, Qdrant := Qdrant } ∧
        (response.Errors.map (fun e => e.Index)).Pairwise (fun i j => i < j) ∧
        (∀ e ∈ response.Errors, e.Index < req.Products.length ∧
          (req.Products[e.Index]?).map (fun productReq => productReq.Name) = some e.Product)) ∧
    ((BatchImport importEnv {} {} (.ok sampleBatch)).map (fun r => r.1)
      = .ok (SuccessResponseOf 0
          { Total := 3, Success := 2, Failed := 1
            Errors := [{ Index := 1, Product := "broken lamp"
                         Error := "Failed to generate variants: failed to generate variant texts: "
                           ++ "failed to generate variants: timeout" }]
            ProcessID := "id0" })) ∧
    ((BatchImport { importEnv with api := emptyAnswerAPI } {} {} (.ok sampleBatch)).map
      (fun r => r.1) = .panic "index out of range") := by
  refine ⟨?_, by decide, by decide⟩
  intro hclient
  have hreturns : ∀ (st : ImportState V) (it : Nat × ProductCreateRequest) (msg : String),
      (GenerateVariantsWithEmbeddings env.variants env.api
        (fun k => env.clock it.1 (k + 1)) (BatchImport.product env it) 3 st.Embedding).1
        ≠ .panic msg :=
    fun st it msg => GenerateVariantsWithEmbeddings_returns env.variants env.api hclient _ _ _ _ msg
  obtain ⟨st1, hloop, htotal, hpid, hfailed, hsum, herrors, hentries⟩ :=
    loop_spec env hreturns req.Products.enum
      { response := { Total := req.Products.length, Success := 0, Failed := 0
                      Errors := [], ProcessID := env.uuid 0 }
        Embedding := Embedding, Qdrant := Qdrant }
  have hsub := failingItems_sublist env req.Products.enum
      { response := { Total := req.Products.length, Success := 0, Failed := 0
                      Errors := [], ProcessID := env.uuid 0 }
        Embedding := Embedding, Qdrant := Qdrant }
  rw [List.enum_map_fst] at hsub
  simp only [List.map_nil, List.nil_append, Nat.zero_add, List.enum_length] at hfailed hsum herrors
  refine ⟨st1.response, st1.Embedding, st1.Qdrant, ?_, htotal, hsum, hfailed, herrors, ?_, ?_⟩
  · simp only [BatchImport, hloop]
  · rw [herrors]
    exact List.Pairwise.sublist hsub (List.pairwise_lt_range _)
  · intro e he
    rcases hentries e he with h | ⟨it, hit, hidx, hname⟩
    · cases h
    · obtain ⟨i, productReq⟩ := it
      have hget := List.mk_mem_enum_iff_getElem?.mp hit
      simp only at hidx hname
      rw [hidx, hname, hget]
      refine ⟨?_, rfl⟩
      have := List.fst_lt_of_mem_enum hit
      simpa using this

/-! ## `InsertProduct` and the point ids -/

theorem upsertPoint_ids {V : Type} (pts : List (PointStruct V)) (p : PointStruct V) :
    (upsertPoint pts p).map (fun q => q.Id)
      = if p.Id ∈ pts.map (fun q => q.Id) then pts.map (fun q => q.Id)
        else pts.map (fun q => q.Id) ++ [p.Id] := by
  induction pts with
  | nil => simp [upsertPoint]
  | cons q rest ih =>
    unfold upsertPoint
    by_cases h : q.Id = p.Id
    · simp [h]
    · have h2 : ¬ p.Id = q.Id := fun e => h e.symm
      simp only [h, if_false, List.map_cons, ih, List.mem_cons, h2, false_or]
      split_ifs <;> simp

theorem upsertPoint_mem {V : Type} (pts : List (PointStruct V)) (p : PointStruct V) :
    p ∈ upsertPoint pts p := by
  induction pts with
  | nil => simp [upsertPoint]
  | cons q rest ih =>
    unfold upsertPoint
    split_ifs <;> simp [ih]

theorem upsertPoint_mem_of_ne {V : Type} (pts : List (PointStruct V)) (p q : PointStruct V)
    (hq : q ∈ pts) (hne : q.Id ≠ p.Id) : q ∈ upsertPoint pts p := by
  induction pts with
  | nil => cases hq
  | cons r rest ih =>
    unfold upsertPoint
    rcases List.mem_cons.mp hq with h | h
    · subst h
      simp [hne]
    · split_ifs
      · exact List.mem_cons_of_mem _ h
      · exact List.mem_cons_of_mem _ (ih h)

theorem foldl_upsertPoint_mem {V : Type} (pts : List (PointStruct V)) :
    ∀ (store : List (PointStruct V)),
      (pts.map (fun q => q.Id)).Nodup →
      (∀ p ∈ pts, p ∈ pts.foldl upsertPoint store) ∧
      (∀ q ∈ store, (∀ p ∈ pts, q.Id ≠ p.Id) → q ∈ pts.foldl upsertPoint store) := by
  induction pts with
  | nil => intro store _; simp
  | cons p rest ih =>
    intro store hnd
    simp only [List.map_cons, List.nodup_cons, List.mem_map, not_exists, not_and] at hnd
    obtain ⟨h1, h2⟩ := ih (upsertPoint store p) hnd.2
    rw [List.foldl_cons]
    constructor
    · intro q hq
      rcases List.mem_cons.mp hq with h | h
      · subst h
        exact h2 q (upsertPoint_mem store q) (fun r hr e => hnd.1 r hr e.symm)
      · exact h1 q h
    · intro q hq hne
      exact h2 q (upsertPoint_mem_of_ne store p q hq (hne p (List.mem_cons_self _ _)))
        (fun r hr => hne r (List.mem_cons_of_mem _ hr))

theorem foldl_upsertPoint_ids {V : Type} (pts : List (PointStruct V)) :
    ∀ (store : List (PointStruct V)) (m a : Nat),
      store.map (fun q => q.Id) = List.range' 1 m →
      pts.map (fun q => q.Id) = List.range' a pts.length → 1 ≤ a → a ≤ m + 1 →
      (pts.foldl upsertPoint store).map (fun q => q.Id)
        = List.range' 1 (max m (a - 1 + pts.length)) := by
  induction pts with
  | nil =>
    intro store m a hs _ h1 h2
    have hmax : max m (a - 1 + ([] : List (PointStruct V)).length) = m := by
      simp only [List.length_nil]
      omega
    rw [hmax]
    exact hs
  | cons p rest ih =>
    intro store m a hs hp h1 h2
    simp only [List.map_cons, List.length_cons, List.range'_succ, List.cons.injEq] at hp
    rw [List.foldl_cons]
    have hids := upsertPoint_ids store p
    rw [hs, hp.1] at hids
    by_cases ha : a ≤ m
    · have hmem : a ∈ List.range' 1 m := by
        simp only [List.mem_range'_1]
        omega
      rw [if_pos hmem] at hids
      rw [ih (upsertPoint store p) m (a + 1) hids hp.2 (by omega) (by omega)]
      congr 1
      simp only [List.length_cons]
      omega
    · have hmem : a ∉ List.range' 1 m := by
        simp only [List.mem_range'_1]
        omega
      rw [if_neg hmem] at hids
      have ham : a = m + 1 := by omega
      have hids2 : (upsertPoint store p).map (fun q => q.Id) = List.range' 1 (m + 1) := by
        rw [hids, ham, List.range'_1_concat, Nat.add_comm 1 m]
      rw [ih (upsertPoint store p) (m + 1) (a + 1) hids2 hp.2 (by omega) (by omega)]
      congr 1
      simp only [List.length_cons]
      omega

theorem points_ids {V : Type} (Sprint : Value → String) (product : Product)
    (variants : List (ProductVariant V)) :
    (InsertProduct.points Sprint product variants).map (fun q => q.Id)
      = List.range' 1 variants.length := by
  unfold InsertProduct.points
  rw [List.map_map]
  have : ((fun (q : PointStruct V) => q.Id) ∘ fun (it : Nat × ProductVariant V) =>
      ({ Id := it.1 + 1, Vectors := it.2.Vector
         Payload := InsertProduct.payload Sprint product it.2 } : PointStruct V))
      = (fun n => n + 1) ∘ Prod.fst := rfl
  rw [this, ← List.map_map, List.enum_map_fst, List.range'_eq_map_range]
  congr 1
  funext n
  omega

theorem points_length {V : Type} (Sprint : Value → String) (product : Product)
    (variants : List (ProductVariant V)) :
    (InsertProduct.points Sprint product variants).length = variants.length := by
  simp [InsertProduct.points]

/-- C22 (code defect): `InsertProduct` numbers the points of every product
1, 2, ... by the index of the variant, so over a store with upsert semantics
keyed by point id the points of a second product replace those of the first:
after product A with m variants and product B with n variants were inserted
into an empty collection it holds max(m, n) points, not m + n; every point with
an id up to n is a point of B, and every point of B is in the collection. With
two variants of A and one of B the collection holds two points, the point 1 of
B and the point 2 of A. -/
theorem InsertProduct_overwrites_other_product {V : Type} (s : QdrantStore V) (A B : Product)
    (variantsA variantsB : List (ProductVariant V)) :
    (s.ensureInitialized = .ok () ∧ s.points = [] ∧ s.fault s.calls = none ∧
        s.fault (s.calls + 1) = none →
      (s.InsertProduct A variantsA).1 = .ok () ∧
      ((s.InsertProduct A variantsA).2.InsertProduct B variantsB).1 = .ok () ∧
      ((s.InsertProduct A variantsA).2.InsertProduct B variantsB).2.points.length
        = max variantsA.length variantsB.length ∧
      (∀ p ∈ ((s.InsertProduct A variantsA).2.InsertProduct B variantsB).2.points,
        p.Id ≤ variantsB.length → p ∈ InsertProduct.points s.Sprint B variantsB) ∧
      (∀ p ∈ InsertProduct.points s.Sprint B variantsB,
        p ∈ ((s.InsertProduct A variantsA).2.InsertProduct B variantsB).2.points)) ∧
    ((({} : QdrantStore (List Nat)).InsertProduct lampA
        [sampleVariant "green desk lamp", sampleVariant "green floor lamp"]).2.points.map
        PointStruct.summary
      = [(1, "A", "green desk lamp"), (2, "A", "green floor lamp")]) ∧
    (((({} : QdrantStore (List Nat)).InsertProduct lampA
        [sampleVariant "green desk lamp", sampleVariant "green floor lamp"]).2.InsertProduct
        tableB [sampleVariant "white oak table"]).2.points.map PointStruct.summary
      = [(1, "B", "white oak table"), (2, "A", "green floor lamp")]) := by
  refine ⟨?_, by decide, by decide⟩
  rintro ⟨hinit, hpoints, hf0, hf1⟩
  have e1 : s.InsertProduct A variantsA
      = (.ok (), { s with calls := s.calls + 1
                          points := (InsertProduct.points s.Sprint A variantsA).foldl
                            upsertPoint s.points }) := by
    simp [QdrantStore.InsertProduct, hinit, hf0]
  have e2 : (s.InsertProduct A variantsA).2.InsertProduct B variantsB
      = (.ok (), { s with calls := s.calls + 1 + 1
                          points := (InsertProduct.points s.Sprint B variantsB).foldl
                            upsertPoint ((InsertProduct.points s.Sprint A variantsA).foldl
                              upsertPoint s.points) }) := by
    rw [e1]
    simp [QdrantStore.InsertProduct, hinit, hf1]
  rw [e2, e1]
  simp only [hpoints]
  have hidsA := foldl_upsertPoint_ids (InsertProduct.points s.Sprint A variantsA) [] 0 1 rfl
    (by rw [points_ids, points_length]) (by omega) (by omega)
  simp only [points_length, Nat.sub_self, Nat.zero_add, Nat.zero_max] at hidsA
  have hidsB := foldl_upsertPoint_ids (InsertProduct.points s.Sprint B variantsB) _
    variantsA.length 1 hidsA (by rw [points_ids, points_length]) (by omega) (by omega)
  simp only [points_length, Nat.sub_self, Nat.zero_add] at hidsB
  have hndB : ((InsertProduct.points s.Sprint B variantsB).map (fun q => q.Id)).Nodup := by
    rw [points_ids]
    exact List.nodup_range' 1 _
  have hmemB := (foldl_upsertPoint_mem (InsertProduct.points s.Sprint B variantsB)
    ((InsertProduct.points s.Sprint A variantsA).foldl upsertPoint []) hndB).1
  refine ⟨trivial, trivial, ?_, ?_, hmemB⟩
  · have := congrArg List.length hidsB
    simpa using this
  · intro p hp hle
    have hpid : p.Id ∈ (InsertProduct.points s.Sprint B variantsB).map (fun q => q.Id) := by
      rw [points_ids, List.mem_range'_1]
      have : p.Id ∈ List.range' 1 (max variantsA.length variantsB.length) := by
        rw [← hidsB]
        exact List.mem_map_of_mem _ hp
      rw [List.mem_range'_1] at this
      omega
    obtain ⟨q, hq, hqid⟩ := List.mem_map.mp hpid
    have hq2 := hmemB q hq
    have hnd : ((List.foldl upsertPoint ((InsertProduct.points s.Sprint A variantsA).foldl
        upsertPoint []) (InsertProduct.points s.Sprint B variantsB)).map (fun q => q.Id)).Nodup := by
      rw [hidsB]
      exact List.nodup_range' 1 _
    have : q = p := List.inj_on_of_nodup_map hnd hq2 hp hqid
    rw [← this]
    exact hq

/-! ## `RegenerateVariants` -/

theorem GetProduct_state {V : Type} (s : QdrantStore V) (productID : String) :
    (s.GetProduct productID).2.points = s.points ∧
    (s.GetProduct productID).2.calls ≤ s.calls + 1 := by
  unfold QdrantStore.GetProduct
  cases s.ensureInitialized with
  | error err => simp
  | ok u =>
    cases s.fault s.calls with
    | some err => simp
    | none =>
      cases h : (s.points.filter (matchesProduct productID)).take 1 with
      | nil => simp [h]
      | cons point rest => simp [h]

theorem DeleteProduct_state {V : Type} (s : QdrantStore V) (productID : String) :
    (s.DeleteProduct productID).2.calls ≤ s.calls + 1 ∧
    ((s.DeleteProduct productID).1 = .ok () →
      (s.DeleteProduct productID).2.points
        = s.points.filter (fun p => !matchesProduct productID p)) ∧
    ((s.DeleteProduct productID).1 ≠ .ok () → (s.DeleteProduct productID).2.points = s.points) := by
  unfold QdrantStore.DeleteProduct
  cases s.ensureInitialized with
  | error err => simp
  | ok u =>
    cases s.fault s.calls with
    | some err => simp
    | none => simp

theorem InsertProduct_state {V : Type} (s : QdrantStore V) (product : Product)
    (variants : List (ProductVariant V)) :
    (s.InsertProduct product variants).2.calls ≤ s.calls + 1 ∧
    ((s.InsertProduct product variants).1 ≠ .ok () →
      (s.InsertProduct product variants).2.points = s.points) := by
  unfold QdrantStore.InsertProduct
  cases s.ensureInitialized with
  | error err => simp
  | ok u =>
    cases s.fault s.calls with
    | some err => simp
    | none => simp

theorem GenerateVariantsWithEmbeddings_sent {V : Type} (env : VariantEnv) (api : EmbeddingAPI V)
    (now : Nat → Time) (product : Product) (variantCount : Int)
    (embeddingService : CachedEmbeddingService V) :
    (GenerateVariantsWithEmbeddings env api now product variantCount
      embeddingService).2.EmbeddingService.sent.length
      ≤ embeddingService.EmbeddingService.sent.length + 1 := by
  unfold GenerateVariantsWithEmbeddings
  cases GenerateVariants env product variantCount with
  | error err => simp
  | ok variantTexts =>
    simp only
    split_ifs
    · simp
    · have h := GetProductVariantEmbeddings_state api now embeddingService variantTexts
      rcases hr : embeddingService.GetProductVariantEmbeddings api now variantTexts with ⟨r, svc⟩
      rw [hr] at h
      simp only at h
      cases r <;> simp only [h, List.length_append] <;> split_ifs <;> simp

/-- C23: `RegenerateVariants` is not atomic. If the fetch of the product fails
it returns that error and no point is deleted. If the fetch and the deletion
succeeded, then a failure of the variant generation or of the embedding (an
error of `GenerateVariantsWithEmbeddings`) and a failure of the re-insertion
are returned as errors, and whenever the call does not succeed the collection
is the old one without the points of the product, so it holds no point of the
product: nothing is restored. Nothing is retried: the call makes at most three
requests to the vector store and at most one to the embedding endpoint. In the
sample collection the product "A" has two points; when the chat endpoint is
unreachable the call fails and leaves the point of product "B" only. -/
theorem RegenerateVariants_not_atomic {V : Type} (env : VariantEnv) (api : EmbeddingAPI V)
    (now : Nat → Time) (productID : String) (variantCount : Int)
    (qdrantService : QdrantStore V) (embeddingService : CachedEmbeddingService V) :
    (∀ err, (qdrantService.GetProduct productID).1 = .error err →
      (RegenerateVariants env api now productID variantCount qdrantService embeddingService).1
        = .error ("failed to get product: " ++ err) ∧
      (RegenerateVariants env api now productID variantCount qdrantService
        embeddingService).2.1.points = qdrantService.points) ∧
    (∀ product, (qdrantService.GetProduct productID).1 = .ok product →
      ((qdrantService.GetProduct productID).2.DeleteProduct productID).1 = .ok () →
      (∀ err,
        (GenerateVariantsWithEmbeddings env api now product variantCount embeddingService).1
          = .error err →
        (RegenerateVariants env api now productID variantCount qdrantService embeddingService).1
          = .error ("failed to generate new variants: " ++ err)) ∧
      (∀ variants err,
        (GenerateVariantsWithEmbeddings env api now product variantCount embeddingService).1
          = .ok variants →
        (((qdrantService.GetProduct productID).2.DeleteProduct productID).2.InsertProduct product
          variants).1 = .error err →
        (RegenerateVariants env api now productID variantCount qdrantService embeddingService).1
          = .error ("failed to insert new variants: " ++ err)) ∧
      ((RegenerateVariants env api now productID variantCount qdrantService embeddingService).1
          ≠ .ok () →
        (RegenerateVariants env api now productID variantCount qdrantService
          embeddingService).2.1.points
          = qdrantService.points.filter (fun p => !matchesProduct productID p) ∧
        ∀ p ∈ (RegenerateVariants env api now productID variantCount qdrantService
          embeddingService).2.1.points, matchesProduct productID p = false)) ∧
    ((RegenerateVariants env api now productID variantCount qdrantService
        embeddingService).2.1.calls ≤ qdrantService.calls + 3 ∧
      (RegenerateVariants env api now productID variantCount qdrantService
        embeddingService).2.2.EmbeddingService.sent.length
        ≤ embeddingService.EmbeddingService.sent.length + 1) ∧
    (sampleStore.points.map PointStruct.summary
        = [(1, "A", "green desk lamp"), (2, "A", "green floor lamp"), (3, "B", "white oak table")] ∧
      (RegenerateVariants sampleVariantEnv positionAPI (fun _ => {}) "A" 5 sampleStore
        sampleService).1
        = .error ("failed to generate new variants: failed to generate variant texts: "
            ++ "failed to generate variants: unreachable") ∧
      (RegenerateVariants sampleVariantEnv positionAPI (fun _ => {}) "A" 5 sampleStore
        sampleService).2.1.points.map PointStruct.summary = [(3, "B", "white oak table")]) := by
  have hget := GetProduct_state qdrantService productID
  have hdel := DeleteProduct_state (qdrantService.GetProduct productID).2 productID
  have hgen : ∀ product, _ := fun product =>
    GenerateVariantsWithEmbeddings_sent env api now product variantCount embeddingService
  rcases h1 : qdrantService.GetProduct productID with ⟨r1, q1⟩
  rw [h1] at hget hdel
  simp only at hget hdel
  refine ⟨?_, ?_, ?_, by decide⟩
  · intro err herr
    simp only at herr
    subst herr
    simp [RegenerateVariants, h1, hget.1]
  · intro product hproduct hdelok
    simp only at hproduct hdelok
    subst hproduct
    rcases h2 : q1.DeleteProduct productID with ⟨r2, q2⟩
    rw [h2] at hdel hdelok
    simp only at hdel hdelok
    subst hdelok
    have hq2 : q2.points = qdrantService.points.filter (fun p => !matchesProduct productID p) := by
      rw [hdel.2.1 rfl, hget.1]
    rcases h3 : GenerateVariantsWithEmbeddings env api now product variantCount embeddingService
      with ⟨r3, e1⟩
    have hfilter : ∀ p ∈ qdrantService.points.filter (fun p => !matchesProduct productID p),
        matchesProduct productID p = false := by
      intro p hp
      simpa using (List.mem_filter.mp hp).2
    cases r3 with
    | error err =>
      refine ⟨?_, ?_, ?_⟩
      · intro err2 h
        simp only [Outcome.error.injEq] at h
        subst h
        simp [RegenerateVariants, h1, h2, h3]
      · intro variants err2 h
        cases h
      · intro _
        simp only [RegenerateVariants, h1, h2, h3]
        exact ⟨hq2, fun p hp => hfilter p (hq2 ▸ hp)⟩
    | panic msg =>
      refine ⟨?_, ?_, ?_⟩
      · intro err2 h
        cases h
      · intro variants err2 h
        cases h
      · intro _
        simp only [RegenerateVariants, h1, h2, h3]
        exact ⟨hq2, fun p hp => hfilter p (hq2 ▸ hp)⟩
    | ok variants =>
      have hins := InsertProduct_state q2 product variants
      rcases h4 : q2.InsertProduct product variants with ⟨r4, q3⟩
      rw [h4] at hins
      simp only at hins
      refine ⟨?_, ?_, ?_⟩
      · intro err2 h
        cases h
      · intro variants2 err2 h herr
        simp only [Outcome.ok.injEq] at h
        subst h
        rw [h4] at herr
        simp only at herr
        subst herr
        simp [RegenerateVariants, h1, h2, h3, h4]
      · cases r4 with
        | error err =>
          intro _
          have hq3 : q3.points = q2.points := hins.2 (by simp)
          simp only [RegenerateVariants, h1, h2, h3, h4]
          rw [hq3]
          exact ⟨hq2, fun p hp => hfilter p (hq2 ▸ hp)⟩
        | ok u =>
          intro h
          simp [RegenerateVariants, h1, h2, h3, h4] at h
  · cases r1 with
    | error err =>
      simp only [RegenerateVariants, h1]
      exact ⟨by omega, by omega⟩
    | ok product =>
      rcases h2 : q1.DeleteProduct productID with ⟨r2, q2⟩
      rw [h2] at hdel
      simp only at hdel
      cases r2 with
      | error err =>
        simp only [RegenerateVariants, h1, h2]
        exact ⟨by omega, by omega⟩
      | ok u =>
        have hg := hgen product
        rcases h3 : GenerateVariantsWithEmbeddings env api now product variantCount
          embeddingService with ⟨r3, e1⟩
        rw [h3] at hg
        simp only at hg
        cases r3 with
        | error err =>
          simp only [RegenerateVariants, h1, h2, h3]
          exact ⟨by omega, hg⟩
        | panic msg =>
          simp only [RegenerateVariants, h1, h2, h3]
          exact ⟨by omega, hg⟩
        | ok variants =>
          have hins := InsertProduct_state q2 product variants
          rcases h4 : q2.InsertProduct product variants with ⟨r4, q3⟩
          rw [h4] at hins
          simp only at hins
          cases r4 with
          | error err =>
            simp only [RegenerateVariants, h1, h2, h3, h4]
            exact ⟨by omega, hg⟩
          | ok u =>
            simp only [RegenerateVariants, h1, h2, h3, h4]
            exact ⟨by omega, hg⟩

/-! ## `BatchEmbedding` -/

theorem batch_eq (texts : List String) (i b : Nat) :
    (texts.take (if i + b > texts.length then texts.length else i + b)).drop i
      = (texts.drop i).take b := by
  split_ifs with h
  · rw [List.take_length, List.take_of_length_le]
    rw [List.length_drop]
    omega
  · rw [List.drop_take]
    congr 1
    omega

theorem GetEmbeddings_nonempty {V : Type} (api : EmbeddingAPI V) (s : EmbeddingService)
    (batch : List String) (h : batch ≠ []) :
    s.GetEmbeddings api batch = (api s.sent.length batch, { sent := s.sent ++ [batch] }) := by
  unfold EmbeddingService.GetEmbeddings
  have : batch.length ≠ 0 := fun e => h (List.length_eq_zero.mp e)
  rw [if_neg this]

theorem take_ne_nil (texts : List String) (i b : Nat) (hi : i < texts.length) (hb : 1 ≤ b) :
    (texts.drop i).take b ≠ [] := by
  intro h
  have := congrArg List.length h
  simp only [List.length_take, List.length_drop, List.length_nil] at this
  omega

theorem loop_ok {V : Type} (api : EmbeddingAPI V) (embed : String → V) (texts : List String)
    (b : Nat) (hb : 1 ≤ b)
    (hclient : ∀ n batch, batch ≠ [] → api n batch = .ok (batch.map embed)) :
    ∀ (fuel i : Nat) (allEmbeddings : List V) (s : EmbeddingService),
      texts.length ≤ i + fuel →
      ∃ batches : List (List String),
        BatchEmbedding.loop api texts b fuel i allEmbeddings s
          = some (.ok (allEmbeddings ++ (texts.drop i).map embed), { sent := s.sent ++ batches }) ∧
        batches.flatten = texts.drop i ∧
        ∀ batch ∈ batches, batch ≠ [] ∧ batch.length ≤ b := by
  intro fuel
  induction fuel with
  | zero =>
    intro i acc s h
    have hi : ¬ i < texts.length := by omega
    refine ⟨[], ?_, ?_, by simp⟩
    · unfold BatchEmbedding.loop
      rw [if_neg hi, List.drop_of_length_le (by omega)]
      simp
    · rw [List.drop_of_length_le (by omega)]
      rfl
  | succ fuel ih =>
    intro i acc s h
    by_cases hi : i < texts.length
    · have hne := take_ne_nil texts i b hi hb
      obtain ⟨batches, h1, h2, h3⟩ := ih (i + b) (acc ++ ((texts.drop i).take b).map embed)
        { sent := s.sent ++ [(texts.drop i).take b] } (by omega)
      refine ⟨(texts.drop i).take b :: batches, ?_, ?_, ?_⟩
      · unfold BatchEmbedding.loop
        rw [if_pos hi]
        simp only [batch_eq, GetEmbeddings_nonempty api s _ hne, hclient _ _ hne]
        rw [h1]
        congr 2
        · rw [List.append_assoc, ← List.map_append]
          congr 2
          rw [← List.drop_drop, List.take_append_drop]
        · simp
      · rw [List.flatten_cons, h2, ← List.drop_drop, List.take_append_drop]
      · intro batch hbatch
        rcases List.mem_cons.mp hbatch with h4 | h4
        · rw [h4]
          exact ⟨hne, by rw [List.length_take]; omega⟩
        · exact h3 batch h4
    · refine ⟨[], ?_, ?_, by simp⟩
      · unfold BatchEmbedding.loop
        rw [if_neg hi, List.drop_of_length_le (by omega)]
        simp
      · rw [List.drop_of_length_le (by omega)]
        rfl

theorem loop_fails {V : Type} (api : EmbeddingAPI V) (texts : List String) (b : Nat)
    (hb : 1 ≤ b) :
    ∀ (fuel i : Nat) (allEmbeddings : List V) (s : EmbeddingService),
      texts.length ≤ i + fuel →
      ∃ (r : Except String (List V)) (batches : List (List String)),
        BatchEmbedding.loop api texts b fuel i allEmbeddings s
          = some (r, { sent := s.sent ++ batches }) ∧
        (isError r = false → ∀ k batch, batches[k]? = some batch →
          isError (api (s.sent.length + k) batch) = false) := by
  intro fuel
  induction fuel with
  | zero =>
    intro i acc s h
    have hi : ¬ i < texts.length := by omega
    refine ⟨.ok acc, [], ?_, ?_⟩
    · unfold BatchEmbedding.loop
      rw [if_neg hi]
      simp
    · intro _ k batch hk
      simp at hk
  | succ fuel ih =>
    intro i acc s h
    by_cases hi : i < texts.length
    · have hne := take_ne_nil texts i b hi hb
      cases hapi : api s.sent.length ((texts.drop i).take b) with
      | error err =>
        refine ⟨.error ("failed to process batch " ++ toString i ++ "-"
          ++ toString (if i + b > texts.length then texts.length else i + b) ++ ": " ++ err),
          [(texts.drop i).take b], ?_, ?_⟩
        · unfold BatchEmbedding.loop
          rw [if_pos hi]
          simp only [batch_eq, GetEmbeddings_nonempty api s _ hne, hapi]
        · intro hr
          cases hr
      | ok embeddings =>
        obtain ⟨r, batches, h1, h2⟩ := ih (i + b) (acc ++ embeddings)
          { sent := s.sent ++ [(texts.drop i).take b] } (by omega)
        refine ⟨r, (texts.drop i).take b :: batches, ?_, ?_⟩
        · unfold BatchEmbedding.loop
          rw [if_pos hi]
          simp only [batch_eq, GetEmbeddings_nonempty api s _ hne, hapi]
          rw [h1]
          simp
        · intro hr k batch hk
          cases k with
          | zero =>
            simp only [List.getElem?_cons_zero, Option.some.injEq] at hk
            rw [← hk, Nat.add_zero, hapi]
            rfl
          | succ k =>
            simp only [List.getElem?_cons_succ] at hk
            have := h2 hr k batch hk
            simp only [List.length_append, List.length_singleton] at this
            rw [show s.sent.length + (k + 1) = s.sent.length + 1 + k by omega]
            exact this
    · refine ⟨.ok acc, [], ?_, ?_⟩
      · unfold BatchEmbedding.loop
        rw [if_neg hi]
        simp
      · intro _ k batch hk
        simp at hk

/-- C24: for every non-empty list of texts and every batch size b (100 when
b <= 0), if the embedding client returns one vector per text in order,
`BatchEmbedding` returns, and it calls the client on consecutive non-empty
chunks of at most b texts whose concatenation is the input; its result is the
list of the vectors of the texts in order, which has the length of the input
and is the result of a single `GetEmbeddings` call on the whole list. For any
client the call returns, and when a chunk fails the result is an error, which
carries no vector: a successful result means that no chunk failed. -/
theorem BatchEmbedding_chunks {V : Type} (api : EmbeddingAPI V) (embed : String → V)
    (s : EmbeddingService) (texts : List String) (batchSize : Int) (htexts : texts ≠ [])
    (hclient : ∀ n batch, batch ≠ [] → api n batch = .ok (batch.map embed)) :
    (∃ batches : List (List String),
      s.BatchEmbedding api texts batchSize
        = some (.ok (texts.map embed), { sent := s.sent ++ batches }) ∧
      batches.flatten = texts ∧
      (∀ batch ∈ batches, batch ≠ [] ∧
        (batch.length : Int) ≤ (if batchSize ≤ 0 then 100 else batchSize))) ∧
    (texts.map embed).length = texts.length ∧
    (s.GetEmbeddings api texts).1 = .ok (texts.map embed) ∧
    (∀ api2 : EmbeddingAPI V,
      ∃ (r : Except String (List V)) (batches : List (List String)),
        s.BatchEmbedding api2 texts batchSize = some (r, { sent := s.sent ++ batches }) ∧
        ((∃ k batch, batches[k]? = some batch ∧
            isError (api2 (s.sent.length + k) batch) = true) → isError r = true)) := by
  have hb : 1 ≤ (if batchSize ≤ 0 then 100 else batchSize.toNat) := by
    split_ifs with h
    · omega
    · omega
  refine ⟨?_, by simp, ?_, ?_⟩
  · obtain ⟨batches, h1, h2, h3⟩ := loop_ok api embed texts _ hb hclient texts.length 0 [] s
      (by omega)
    refine ⟨batches, ?_, by simpa using h2, ?_⟩
    · unfold EmbeddingService.BatchEmbedding
      simpa using h1
    · intro batch hbatch
      refine ⟨(h3 batch hbatch).1, ?_⟩
      have := (h3 batch hbatch).2
      split_ifs with h
      · rw [if_pos h] at this
        omega
      · rw [if_neg h] at this
        omega
  · rw [GetEmbeddings_nonempty api s texts htexts, hclient _ _ htexts]
  · intro api2
    obtain ⟨r, batches, h1, h2⟩ := loop_fails api2 texts _ hb texts.length 0 [] s (by omega)
    refine ⟨r, batches, h1, ?_⟩
    rintro ⟨k, batch, hk, herr⟩
    by_contra hr
    have hr2 : isError r = false := by simpa using hr
    rw [h2 hr2 k batch hk] at herr
    cases herr

/-- Witness for C24: three texts in batches of two, with the client that
answers a text with its length. -/
theorem BatchEmbedding_chunks_witness :
    (["a", "bb", "ccc"] ≠ ([] : List String) ∧
      ∀ (n : Nat) (batch : List String), batch ≠ [] →
        (fun _ texts => Except.ok (texts.map String.length) : EmbeddingAPI Nat) n batch
          = .ok (batch.map String.length)) ∧
    (({} : EmbeddingService).BatchEmbedding
        (fun _ texts => Except.ok (texts.map String.length) : EmbeddingAPI Nat)
        ["a", "bb", "ccc"] 2
      = some (.ok [1, 2, 3], { sent := [["a", "bb"], ["ccc"]] })) ∧
    (({} : EmbeddingService).GetEmbeddings
        (fun _ texts => Except.ok (texts.map String.length) : EmbeddingAPI Nat)
        ["a", "bb", "ccc"]).1 = .ok (["a", "bb", "ccc"].map String.length) :=
  ⟨⟨by decide, fun _ _ _ => rfl⟩, rfl,
    (BatchEmbedding_chunks (fun _ texts => Except.ok (texts.map String.length)) String.length {}
      ["a", "bb", "ccc"] 2 (by decide) (fun _ _ _ => rfl)).2.2.1⟩

/-! ## The frame of `EnhanceQuery` -/

/-- C25: for every intent, the intent that `EnhanceQuery` returns equals its
argument in every field other than product_type, color and size: brand,
material, style, occasion, gender, price_min, price_max and the free-form
filter map. The method writes to the fields of its local copy only, so the
argument, which the embedding passes by value, is left as it was. -/
theorem EnhanceQuery_preserves_other_fields (parsedQuery : ParsedQuery) :
    (EnhanceQuery parsedQuery).Brand = parsedQuery.Brand ∧
    (EnhanceQuery parsedQuery).Material = parsedQuery.Material ∧
    (EnhanceQuery parsedQuery).Style = parsedQuery.Style ∧
    (EnhanceQuery parsedQuery).Occasion = parsedQuery.Occasion ∧
    (EnhanceQuery parsedQuery).Gender = parsedQuery.Gender ∧
    (EnhanceQuery parsedQuery).PriceMin = parsedQuery.PriceMin ∧
    (EnhanceQuery parsedQuery).PriceMax = parsedQuery.PriceMax ∧
    (EnhanceQuery parsedQuery).Filters = parsedQuery.Filters := by
  obtain ⟨pt, c, pmin, pmax, b, sz, m, st, o, g, f⟩ := parsedQuery
  cases h1 : mapGet productTypeMap pt <;> cases h2 : mapGet colorMap c <;>
    cases h3 : mapGet sizeMap sz <;> simp [EnhanceQuery, h1, h2, h3]

/-! ## The match reason and the order of the filter keys -/

theorem foldl_labels (filter : GoMap) :
    ∀ init : List String,
      filter.foldl (fun (filterReasons : List String) (kv : String × Value) =>
        if kv.1 = "brand" then filterReasons ++ ["品牌匹配"]
        else if kv.1 = "color" then filterReasons ++ ["颜色匹配"]
        else if kv.1 = "price_min" ∨ kv.1 = "price_max" then filterReasons ++ ["价格范围匹配"]
        else if kv.1 = "size" then filterReasons ++ ["尺寸匹配"]
        else filterReasons) init = init ++ labelsOf filter := by
  induction filter with
  | nil => intro init; simp [labelsOf]
  | cons kv rest ih =>
    intro init
    rw [List.foldl_cons, ih]
    unfold labelsOf labelOf
    rw [List.filterMap_cons]
    split_ifs <;> simp

theorem generateMatchReason_eq_reasonSpec (score : Rat) (filter : GoMap) :
    generateMatchReason score filter = reasonSpec score (labelsOf filter) := by
  have hreasons : (if score > 9 / 10 then ([] : List String) ++ ["高度语义匹配"]
      else if score > 7 / 10 then [] ++ ["良好语义匹配"]
      else [] ++ ["基础语义匹配"]) = [tierLabelSpec score] := by
    unfold tierLabelSpec
    split_ifs <;> rfl
  unfold generateMatchReason reasonSpec
  simp only [hreasons]
  simp only [foldl_labels, List.nil_append]
  by_cases hlen : filter.length > 0
  · simp only [hlen, if_true]
    by_cases hl : labelsOf filter = []
    · simp [hl, String.intercalate, String.intercalate.go]
    · have hpos : (labelsOf filter).length > 0 := List.length_pos.mpr hl
      simp [hl, hpos, String.intercalate, String.intercalate.go, String.append_assoc]
  · have hnil : filter = [] := List.length_eq_zero.mp (by omega)
    subst hnil
    simp [labelsOf, String.intercalate, String.intercalate.go]

/-- C26 (as stated, refuted): for the filter with the keys brand and color the
match reason lists the brand label first when brand is visited first and the
color label first when color is visited first: the two strings differ, so the
result depends on the order in which the keys of the filter map are visited. -/
theorem generateMatchReason_depends_on_order :
    generateMatchReason 1 [("brand", .string "Nike"), ("color", .string "red")]
      = "高度语义匹配 + 品牌匹配、颜色匹配" ∧
    generateMatchReason 1 [("color", .string "red"), ("brand", .string "Nike")]
      = "高度语义匹配 + 颜色匹配、品牌匹配" ∧
    List.Perm [("color", Value.string "red"), ("brand", Value.string "Nike")]
      [("brand", Value.string "Nike"), ("color", Value.string "red")] ∧
    generateMatchReason 1 [("brand", .string "Nike"), ("color", .string "red")]
      ≠ generateMatchReason 1 [("color", .string "red"), ("brand", .string "Nike")] := by
  have htier : tierLabelSpec 1 = "高度语义匹配" := by
    unfold tierLabelSpec
    norm_num
  have h1 : generateMatchReason 1 [("brand", .string "Nike"), ("color", .string "red")]
      = "高度语义匹配 + 品牌匹配、颜色匹配" := by
    rw [generateMatchReason_eq_reasonSpec]
    unfold reasonSpec
    rw [htier]
    decide
  have h2 : generateMatchReason 1 [("color", .string "red"), ("brand", .string "Nike")]
      = "高度语义匹配 + 颜色匹配、品牌匹配" := by
    rw [generateMatchReason_eq_reasonSpec]
    unfold reasonSpec
    rw [htier]
    decide
  refine ⟨h1, h2, List.Perm.swap _ _ _, ?_⟩
  rw [h1, h2]
  decide

/-- C26 (amended): for every score and every two orders in which the keys of
a filter map are visited, the match reason is the tier label, which depends on
the score only, followed when a key among brand, color, size, price_min and
price_max is present by the separator and the labels of those keys, joined in
the order in which the keys are visited; the labels are the same up to their
order for both orders, and when at most one of those keys is present the match
reason is the same string for both orders. -/
theorem generateMatchReason_up_to_label_order (score : Rat) (filter visited : GoMap)
    (hvisited : visited.Perm filter) :
    generateMatchReason score visited = reasonSpec score (labelsOf visited) ∧
    generateMatchReason score filter = reasonSpec score (labelsOf filter) ∧
    (labelsOf visited).Perm (labelsOf filter) ∧
    ((labelsOf filter).length ≤ 1 →
      generateMatchReason score visited = generateMatchReason score filter) := by
  have hperm : (labelsOf visited).Perm (labelsOf filter) := hvisited.filterMap _
  refine ⟨generateMatchReason_eq_reasonSpec score visited,
    generateMatchReason_eq_reasonSpec score filter, hperm, ?_⟩
  intro hlen
  rw [generateMatchReason_eq_reasonSpec, generateMatchReason_eq_reasonSpec]
  have heq : labelsOf visited = labelsOf filter := by
    cases hl : labelsOf filter with
    | nil =>
      rw [hl] at hperm
      exact List.Perm.eq_nil hperm
    | cons a rest =>
      rw [hl] at hlen hperm
      have hrest : rest = [] := List.length_eq_zero.mp (by simpa using hlen)
      subst hrest
      exact List.perm_singleton.mp hperm
  rw [heq]

/-- Witness for C26 (amended): a filter with the keys brand and material, of
which only brand has a label, visited in both orders. -/
theorem generateMatchReason_up_to_label_order_witness :
    List.Perm [("material", Value.string "cotton"), ("brand", Value.string "Nike")]
      [("brand", Value.string "Nike"), ("material", Value.string "cotton")] ∧
    (labelsOf [("brand", Value.string "Nike"), ("material", Value.string "cotton")]).length ≤ 1 ∧
    generateMatchReason (1 / 2) [("material", .string "cotton"), ("brand", .string "Nike")]
      = generateMatchReason (1 / 2) [("brand", .string "Nike"), ("material", .string "cotton")] :=
  ⟨List.Perm.swap _ _ _, by decide,
    (generateMatchReason_up_to_label_order (1 / 2)
      [("brand", .string "Nike"), ("material", .string "cotton")]
      [("material", .string "cotton"), ("brand", .string "Nike")] (List.Perm.swap _ _ _)).2.2.2
      (by decide)⟩

/-! ## The payload of a point and `parseProductFromPayload` -/

theorem mapSet_keys {β : Type} (m : List (String × β)) (k : String) (v : β) :
    (mapSet m k v).map Prod.fst
      = if k ∈ m.map Prod.fst then m.map Prod.fst else m.map Prod.fst ++ [k] := by
  induction m with
  | nil => simp [mapSet]
  | cons kv rest ih =>
    obtain ⟨k0, v0⟩ := kv
    unfold mapSet
    by_cases h : k0 = k
    · simp [h]
    · have h2 : ¬ k = k0 := fun e => h e.symm
      simp only [h, if_false, List.map_cons, ih, List.mem_cons, h2, false_or]
      split_ifs <;> simp

theorem mapSet_keys_nodup {β : Type} (m : List (String × β)) (k : String) (v : β)
    (hnd : (m.map Prod.fst).Nodup) : ((mapSet m k v).map Prod.fst).Nodup := by
  rw [mapSet_keys]
  split_ifs with h
  · exact hnd
  · exact List.Nodup.append hnd (List.nodup_singleton k) (by simpa using h)

theorem mem_mapSet_keys {β : Type} (m : List (String × β)) (k k1 : String) (v : β) :
    k1 ∈ (mapSet m k v).map Prod.fst ↔ k1 = k ∨ k1 ∈ m.map Prod.fst := by
  rw [mapSet_keys]
  split_ifs with h
  · constructor
    · exact fun h1 => Or.inr h1
    · rintro (h1 | h1)
      · rw [h1]; exact h
      · exact h1
  · simp only [List.mem_append, List.mem_singleton]
    tauto

theorem attr_toList (a : String) : ("attr_" ++ a).toList = "attr_".toList ++ a.toList := by
  simp

theorem HasPrefix_attr (a : String) : HasPrefix ("attr_" ++ a) "attr_" = true := by
  unfold HasPrefix
  rw [attr_toList, List.isPrefixOf_iff_prefix]
  exact List.prefix_append _ _

theorem TrimPrefix_attr (a : String) : TrimPrefix ("attr_" ++ a) "attr_" = a := by
  unfold TrimPrefix
  rw [if_pos (HasPrefix_attr a), attr_toList, List.drop_left]
  rfl

theorem foldl_attr_get (Sprint : Value → String) (attrs : GoMap) :
    ∀ (payload : Payload) (k : String), HasPrefix k "attr_" = false →
      mapGet (attrs.foldl (fun (payload : Payload) (kv : String × Value) =>
        mapSet payload ("attr_" ++ kv.1) (some (.string (Sprint kv.2)))) payload) k
        = mapGet payload k := by
  induction attrs with
  | nil => intro payload k _; rfl
  | cons kv rest ih =>
    intro payload k hk
    rw [List.foldl_cons, ih _ k hk, mapGet_mapSet_ne]
    intro h
    rw [h, HasPrefix_attr] at hk
    cases hk

theorem foldl_attr_keys (Sprint : Value → String) (attrs : GoMap) :
    ∀ (payload : Payload) (k : String),
      k ∈ (attrs.foldl (fun (payload : Payload) (kv : String × Value) =>
        mapSet payload ("attr_" ++ kv.1) (some (.string (Sprint kv.2)))) payload).map Prod.fst
      ↔ k ∈ payload.map Prod.fst ∨ ∃ a ∈ attrs.map Prod.fst, k = "attr_" ++ a := by
  induction attrs with
  | nil => intro payload k; simp
  | cons kv rest ih =>
    intro payload k
    rw [List.foldl_cons, ih, mem_mapSet_keys]
    simp only [List.map_cons, List.mem_cons, exists_eq_or_imp]
    tauto

theorem foldl_attr_nodup (Sprint : Value → String) (attrs : GoMap) :
    ∀ (payload : Payload), (payload.map Prod.fst).Nodup →
      ((attrs.foldl (fun (payload : Payload) (kv : String × Value) =>
        mapSet payload ("attr_" ++ kv.1) (some (.string (Sprint kv.2)))) payload).map
          Prod.fst).Nodup := by
  induction attrs with
  | nil => intro payload h; exact h
  | cons kv rest ih =>
    intro payload h
    rw [List.foldl_cons]
    exact ih _ (mapSet_keys_nodup _ _ _ h)

theorem extractArrayFromValue_stringsValue (xs : List String) :
    extractArrayFromValue (stringsValue xs) = xs := by
  have h : ∀ (init : List String),
      (xs.map (fun x => some (QValue.string x))).foldl (fun (result : List String) item =>
        match item with
        | some v => result ++ [extractStringFromValue (some v)]
        | none => result) init = init ++ xs := by
    induction xs with
    | nil => intro init; simp
    | cons x rest ih =>
      intro init
      rw [List.map_cons, List.foldl_cons, ih]
      simp [extractStringFromValue]
  simpa [extractArrayFromValue, stringsValue] using h []

theorem parseAttributes_frame (payload : Payload) :
    ∀ (product : Product),
      parseAttributes payload product
        = { product with Attributes := (parseAttributes payload product).Attributes } := by
  unfold parseAttributes
  induction payload with
  | nil => intro product; rfl
  | cons kv rest ih =>
    intro product
    rw [List.foldl_cons, ih]
    split_ifs <;> rfl

theorem parseAttributes_keys (payload : Payload) :
    ∀ (product : Product) (a : String),
      a ∈ (parseAttributes payload product).Attributes.map Prod.fst
      ↔ a ∈ product.Attributes.map Prod.fst
        ∨ ∃ k ∈ payload.map Prod.fst, HasPrefix k "attr_" = true ∧ TrimPrefix k "attr_" = a := by
  unfold parseAttributes
  induction payload with
  | nil => intro product a; simp
  | cons kv rest ih =>
    intro product a
    rw [List.foldl_cons, ih]
    by_cases h : HasPrefix kv.1 "attr_" = true
    · simp only [h, if_true, mem_mapSet_keys, List.map_cons, List.mem_cons, exists_eq_or_imp,
        true_and]
      constructor
      · rintro ((h1 | h1) | h1)
        · exact Or.inr (Or.inl h1.symm)
        · exact Or.inl h1
        · exact Or.inr (Or.inr h1)
      · rintro (h1 | h1 | h1)
        · exact Or.inl (Or.inr h1)
        · exact Or.inl (Or.inl h1.symm)
        · exact Or.inr h1
    · simp only [h, if_false, List.map_cons, List.mem_cons, exists_eq_or_imp, false_and,
        false_or, Bool.false_eq_true]

theorem literal_keys {V : Type} (product : Product) (variant : ProductVariant V) :
    (InsertProduct.literal product variant).map Prod.fst
      = ["product_id", "variant_id", "variant_text", "product_name", "category", "description",
         "price", "currency", "brand", "color", "size", "material", "style", "gender",
         "occasion", "created_at", "updated_at"] := rfl

theorem literal_keys_facts :
    (["product_id", "variant_id", "variant_text", "product_name", "category", "description",
      "price", "currency", "brand", "color", "size", "material", "style", "gender",
      "occasion", "created_at", "updated_at"] : List String).Nodup ∧
    ∀ k ∈ (["product_id", "variant_id", "variant_text", "product_name", "category",
      "description", "price", "currency", "brand", "color", "size", "material", "style",
      "gender", "occasion", "created_at", "updated_at"] : List String),
      HasPrefix k "attr_" = false ∧ k ≠ "tags" ∧ k ≠ "image_urls" := by
  decide

theorem ite_mapSet_facts {β : Type} (c : Prop) [Decidable c] (m : List (String × β))
    (k : String) (v : β) :
    (((m.map Prod.fst).Nodup → ((if c then mapSet m k v else m).map Prod.fst).Nodup) ∧
      (∀ k1 ∈ (if c then mapSet m k v else m).map Prod.fst, k1 = k ∨ k1 ∈ m.map Prod.fst)) ∧
    (∀ k1, k1 ≠ k → mapGet (if c then mapSet m k v else m) k1 = mapGet m k1) ∧
    (mapGet m k = none →
      mapGet (if c then mapSet m k v else m) k = if c then some v else none) := by
  by_cases hc : c
  · rw [if_pos hc, if_pos hc]
    refine ⟨⟨mapSet_keys_nodup m k v, fun k1 h1 => (mem_mapSet_keys m k k1 v).mp h1⟩,
      fun k1 h1 => mapGet_mapSet_ne m k k1 v h1, fun _ => mapGet_mapSet_self m k v⟩
  · rw [if_neg hc, if_neg hc]
    exact ⟨⟨fun h => h, fun k1 h1 => Or.inr h1⟩, fun _ _ => rfl, fun h => h⟩

theorem payload_eq_foldl {V : Type} (Sprint : Value → String) (product : Product)
    (variant : ProductVariant V) :
    ∃ fields : Payload,
      InsertProduct.payload Sprint product variant
        = product.Attributes.foldl (fun (payload : Payload) (kv : String × Value) =>
            mapSet payload ("attr_" ++ kv.1) (some (.string (Sprint kv.2)))) fields ∧
      (fields.map Prod.fst).Nodup ∧
      (∀ k ∈ fields.map Prod.fst, HasPrefix k "attr_" = false) ∧
      (∀ k, k ≠ "tags" → k ≠ "image_urls" →
        mapGet fields k = mapGet (InsertProduct.literal product variant) k) ∧
      mapGet fields "tags"
        = (if product.Tags.length > 0 then some (stringsValue product.Tags) else none) ∧
      mapGet fields "image_urls"
        = (if product.ImageURLs.length > 0 then some (stringsValue product.ImageURLs)
           else none) := by
  have hattrs : ∀ fields : Payload,
      (if product.Attributes.length > 0 then
        product.Attributes.foldl (fun (payload : Payload) (kv : String × Value) =>
          mapSet payload ("attr_" ++ kv.1) (some (.string (Sprint kv.2)))) fields
       else fields)
      = product.Attributes.foldl (fun (payload : Payload) (kv : String × Value) =>
          mapSet payload ("attr_" ++ kv.1) (some (.string (Sprint kv.2)))) fields := by
    intro fields
    split_ifs with h
    · rfl
    · have : product.Attributes = [] := List.length_eq_zero.mp (by omega)
      rw [this]
      rfl
  have hnone1 : mapGet (InsertProduct.literal product variant) "tags" = none := rfl
  have hnone2 : mapGet (InsertProduct.literal product variant) "image_urls" = none := rfl
  obtain ⟨⟨a1, a2⟩, a3, a4⟩ := ite_mapSet_facts (product.Tags.length > 0)
    (InsertProduct.literal product variant) "tags" (stringsValue product.Tags)
  obtain ⟨⟨b1, b2⟩, b3, b4⟩ := ite_mapSet_facts (product.ImageURLs.length > 0)
    (if product.Tags.length > 0 then
      mapSet (InsertProduct.literal product variant) "tags" (stringsValue product.Tags)
     else InsertProduct.literal product variant) "image_urls" (stringsValue product.ImageURLs)
  have hlit : (InsertProduct.literal product variant).map Prod.fst = _ := literal_keys product variant
  refine ⟨_, hattrs _, ?_, ?_, ?_, ?_, ?_⟩
  · apply b1
    apply a1
    rw [hlit]
    exact literal_keys_facts.1
  · intro k hk
    rcases b2 k hk with h | h
    · rw [h]
      decide
    · rcases a2 k h with h1 | h1
      · rw [h1]
        decide
      · rw [hlit] at h1
        exact (literal_keys_facts.2 k h1).1
  · intro k hk1 hk2
    rw [b3 k hk2, a3 k hk1]
  · rw [b3 "tags" (by decide), a4 hnone1]
  · rw [b4 (by rw [a3 "image_urls" (by decide)]; exact hnone2)]

theorem stored_list (xs : List String) :
    ∃ stored : Option (Option QValue),
      (if xs.length > 0 then some (stringsValue xs) else none) = stored ∧
      (match stored with
        | some val => extractArrayFromValue val
        | none => []) = xs := by
  by_cases h : xs.length > 0
  · exact ⟨_, if_pos h, extractArrayFromValue_stringsValue xs⟩
  · refine ⟨_, if_neg h, ?_⟩
    have : xs = [] := List.length_eq_zero.mp (by omega)
    rw [this]

theorem parse_inserted_payload {V : Type} (Sprint : Value → String) (p : Product)
    (variant : ProductVariant V) (payload : Payload)
    (hperm : payload.Perm (InsertProduct.payload Sprint p variant)) :
    parseProductFromPayload payload
      = { p with
          Attributes := (parseProductFromPayload payload).Attributes
          Status := ""
          CreatedAt := { Unix := p.CreatedAt.Unix, Nanosecond := 0 }
          UpdatedAt := { Unix := p.UpdatedAt.Unix, Nanosecond := 0 } } ∧
    ∀ a, a ∈ (parseProductFromPayload payload).Attributes.map Prod.fst
      ↔ a ∈ p.Attributes.map Prod.fst := by
  obtain ⟨fields, heq, hnd, hpre, hget, htags, hurls⟩ := payload_eq_foldl Sprint p variant
  have hnd2 := foldl_attr_nodup Sprint p.Attributes fields hnd
  rw [← heq] at hnd2
  have hg : ∀ k, HasPrefix k "attr_" = false → mapGet payload k = mapGet fields k := by
    intro k hk
    rw [mapGet_perm payload _ hperm hnd2 k, heq, foldl_attr_get Sprint _ _ k hk]
  have h1 : mapGet payload "product_id" = some (some (.string p.ID)) := by
    rw [hg _ (by decide), hget _ (by decide) (by decide)]; rfl
  have h2 : mapGet payload "product_name" = some (some (.string p.Name)) := by
    rw [hg _ (by decide), hget _ (by decide) (by decide)]; rfl
  have h3 : mapGet payload "category" = some (some (.string p.Category)) := by
    rw [hg _ (by decide), hget _ (by decide) (by decide)]; rfl
  have h4 : mapGet payload "description" = some (some (.string p.Description)) := by
    rw [hg _ (by decide), hget _ (by decide) (by decide)]; rfl
  have h5 : mapGet payload "price" = some (some (.double p.Price)) := by
    rw [hg _ (by decide), hget _ (by decide) (by decide)]; rfl
  have h6 : mapGet payload "currency" = some (some (.string p.Currency)) := by
    rw [hg _ (by decide), hget _ (by decide) (by decide)]; rfl
  have h7 : mapGet payload "brand" = some (some (.string p.Brand)) := by
    rw [hg _ (by decide), hget _ (by decide) (by decide)]; rfl
  have h8 : mapGet payload "color" = some (some (.string p.Color)) := by
    rw [hg _ (by decide), hget _ (by decide) (by decide)]; rfl
  have h9 : mapGet payload "size" = some (some (.string p.Size)) := by
    rw [hg _ (by decide), hget _ (by decide) (by decide)]; rfl
  have h10 : mapGet payload "material" = some (some (.string p.Material)) := by
    rw [hg _ (by decide), hget _ (by decide) (by decide)]; rfl
  have h11 : mapGet payload "style" = some (some (.string p.Style)) := by
    rw [hg _ (by decide), hget _ (by decide) (by decide)]; rfl
  have h12 : mapGet payload "gender" = some (some (.string p.Gender)) := by
    rw [hg _ (by decide), hget _ (by decide) (by decide)]; rfl
  have h13 : mapGet payload "occasion" = some (some (.string p.Occasion)) := by
    rw [hg _ (by decide), hget _ (by decide) (by decide)]; rfl
  have h14 : mapGet payload "created_at" = some (some (.integer p.CreatedAt.Unix)) := by
    rw [hg _ (by decide), hget _ (by decide) (by decide)]; rfl
  have h15 : mapGet payload "updated_at" = some (some (.integer p.UpdatedAt.Unix)) := by
    rw [hg _ (by decide), hget _ (by decide) (by decide)]; rfl
  obtain ⟨tagsV, ht1, ht2⟩ := stored_list p.Tags
  obtain ⟨urlsV, hu1, hu2⟩ := stored_list p.ImageURLs
  have h16 : mapGet payload "tags" = tagsV := by
    rw [hg _ (by decide), htags, ht1]
  have h17 : mapGet payload "image_urls" = urlsV := by
    rw [hg _ (by decide), hurls, hu1]
  constructor
  · obtain ⟨ID, Name, Category, Description, Price, Currency, Brand, Color, Size, Material, Style,
      Gender, Occasion, ImageURLs, Tags, Attributes, Status, CreatedAt, UpdatedAt⟩ := p
    simp only at h1 h2 h3 h4 h5 h6 h7 h8 h9 h10 h11 h12 h13 h14 h15 ht2 hu2 ⊢
    unfold parseProductFromPayload
    simp only [h1, h2, h3, h4, h5, h6, h7, h8, h9, h10, h11, h12, h13, h14, h15, h16, h17]
    rw [parseAttributes_frame]
    cases tagsV <;> cases urlsV <;>
      simp only [extractStringFromValue, extractFloatFromValue, extractIntFromValue] at ht2 hu2 ⊢ <;>
      simp only [← ht2, ← hu2]
  · intro a
    have hkeys : ∀ k, k ∈ payload.map Prod.fst
        ↔ k ∈ fields.map Prod.fst ∨ ∃ a ∈ p.Attributes.map Prod.fst, k = "attr_" ++ a := by
      intro k
      rw [(hperm.map Prod.fst).mem_iff, heq, foldl_attr_keys]
    unfold parseProductFromPayload
    simp only []
    rw [parseAttributes_keys]
    constructor
    · rintro (h | ⟨k, hk, hk1, hk2⟩)
      · cases tagsV <;> cases urlsV <;>
          simp [h1, h2, h3, h4, h5, h6, h7, h8, h9, h10, h11, h12, h13, h14, h15, h16, h17] at h
      · rcases (hkeys k).mp hk with h | ⟨b, hb, hkb⟩
        · rw [hpre k h] at hk1
          cases hk1
        · rw [hkb, TrimPrefix_attr] at hk2
          rw [← hk2]
          exact hb
    · intro ha
      exact Or.inr ⟨"attr_" ++ a, (hkeys _).mpr (Or.inr ⟨a, ha, rfl⟩), HasPrefix_attr a,
        TrimPrefix_attr a⟩

/-- C27 (code defect): `InsertProduct` writes no status into the payload and
`parseProductFromPayload` reads none, so the product read back from the payload
of a stored point has the empty status, whatever the status of the stored
product was: for the product `lampA` with status "active" the result has
status "". For every product, variant and order in which the payload is
visited, the result equals the stored product in identity, name, category,
description, price, currency, brand, color, size, material, style, gender,
occasion, tags, image URLs and in the keys of the attribute map; the
timestamps come back to the second. -/
theorem parseProductFromPayload_loses_status {V : Type} (Sprint : Value → String) (p : Product)
    (variant : ProductVariant V) :
    (∀ payload : Payload, payload.Perm (InsertProduct.payload Sprint p variant) →
      ((parseProductFromPayload payload).ID = p.ID ∧
        (parseProductFromPayload payload).Name = p.Name ∧
        (parseProductFromPayload payload).Category = p.Category ∧
        (parseProductFromPayload payload).Description = p.Description ∧
        (parseProductFromPayload payload).Price = p.Price ∧
        (parseProductFromPayload payload).Currency = p.Currency ∧
        (parseProductFromPayload payload).Brand = p.Brand ∧
        (parseProductFromPayload payload).Color = p.Color ∧
        (parseProductFromPayload payload).Size = p.Size ∧
        (parseProductFromPayload payload).Material = p.Material ∧
        (parseProductFromPayload payload).Style = p.Style ∧
        (parseProductFromPayload payload).Gender = p.Gender ∧
        (parseProductFromPayload payload).Occasion = p.Occasion ∧
        (parseProductFromPayload payload).Tags = p.Tags ∧
        (parseProductFromPayload payload).ImageURLs = p.ImageURLs) ∧
      (∀ a, a ∈ (parseProductFromPayload payload).Attributes.map Prod.fst
        ↔ a ∈ p.Attributes.map Prod.fst) ∧
      (parseProductFromPayload payload).CreatedAt = { Unix := p.CreatedAt.Unix, Nanosecond := 0 } ∧
      (parseProductFromPayload payload).UpdatedAt = { Unix := p.UpdatedAt.Unix, Nanosecond := 0 } ∧
      mapGet payload "status" = none ∧
      (parseProductFromPayload payload).Status = "") ∧
    lampA.Status = "active" ∧
    (parseProductFromPayload
      (InsertProduct.payload (fun _ => "") lampA (sampleVariant "green desk lamp"))).Status
      = "" := by
  have hgeneral : ∀ (q : Product) {W : Type} (w : ProductVariant W) (payload : Payload),
      payload.Perm (InsertProduct.payload Sprint q w) →
      mapGet payload "status" = none := by
    intro q W w payload hperm
    obtain ⟨fields, heq, hnd, hpre, hget, htags, hurls⟩ := payload_eq_foldl Sprint q w
    have hnd2 := foldl_attr_nodup Sprint q.Attributes fields hnd
    rw [← heq] at hnd2
    rw [mapGet_perm payload _ hperm hnd2, heq, foldl_attr_get Sprint _ _ _ (by decide),
      hget _ (by decide) (by decide)]
    rfl
  refine ⟨?_, rfl, ?_⟩
  · intro payload hperm
    obtain ⟨h1, h2⟩ := parse_inserted_payload Sprint p variant payload hperm
    refine ⟨?_, h2, ?_, ?_, hgeneral p variant payload hperm, ?_⟩
    · refine ⟨?_, ?_, ?_, ?_, ?_, ?_, ?_, ?_, ?_, ?_, ?_, ?_, ?_, ?_, ?_⟩ <;> rw [h1]
    all_goals rw [h1]
  · exact ((parse_inserted_payload (fun _ => "") lampA (sampleVariant "green desk lamp") _
      (List.Perm.refl _)).1 ▸ rfl)

/-! ## Idempotence of `EnhanceQuery` -/

theorem productTypeMap_canonical : ∀ kv ∈ productTypeMap, mapGet productTypeMap kv.2 = none := by
  decide

theorem colorMap_canonical : ∀ kv ∈ colorMap, mapGet colorMap kv.2 = none := by
  decide

theorem sizeMap_canonical : ∀ kv ∈ sizeMap, mapGet sizeMap kv.2 = none := by
  decide

theorem lookup_twice (table : List (String × String))
    (hcanonical : ∀ kv ∈ table, mapGet table kv.2 = none) (x : String) :
    mapGet table ((mapGet table x).getD x) = none ∨
      (mapGet table x = none ∧ (mapGet table x).getD x = x) := by
  cases h : mapGet table x with
  | none => exact Or.inr ⟨rfl, rfl⟩
  | some v => exact Or.inl (hcanonical (x, v) (mapGet_some_mem table x v h))

theorem EnhanceQuery_eq (pq : ParsedQuery) :
    EnhanceQuery pq
      = { pq with
          ProductType := (mapGet productTypeMap pq.ProductType).getD pq.ProductType
          Color := (mapGet colorMap pq.Color).getD pq.Color
          Size := (mapGet sizeMap pq.Size).getD pq.Size } := by
  obtain ⟨pt, c, pmin, pmax, b, sz, m, st, o, g, f⟩ := pq
  cases h1 : mapGet productTypeMap pt <;> cases h2 : mapGet colorMap c <;>
    cases h3 : mapGet sizeMap sz <;> simp [EnhanceQuery, h1, h2, h3]

theorem getD_twice (table : List (String × String))
    (hcanonical : ∀ kv ∈ table, mapGet table kv.2 = none) (x : String) :
    (mapGet table ((mapGet table x).getD x)).getD ((mapGet table x).getD x)
      = (mapGet table x).getD x := by
  rcases lookup_twice table hcanonical x with h | ⟨h1, h2⟩
  · rw [h]
    rfl
  · rw [h2, h1]
    rfl

/-- C28: `EnhanceQuery` is idempotent: for every intent q,
EnhanceQuery(EnhanceQuery(q)) equals EnhanceQuery(q), because no canonical
value of the product-type, color or size table is a key of that table; and
`ValidateQuery` gives the same verdict on EnhanceQuery(q) as on q, so an
accepted intent is mapped to an accepted intent. -/
theorem EnhanceQuery_idempotent (q : ParsedQuery) :
    EnhanceQuery (EnhanceQuery q) = EnhanceQuery q ∧
    (∀ kv ∈ productTypeMap, mapGet productTypeMap kv.2 = none) ∧
    (∀ kv ∈ colorMap, mapGet colorMap kv.2 = none) ∧
    (∀ kv ∈ sizeMap, mapGet sizeMap kv.2 = none) ∧
    ValidateQuery (EnhanceQuery q) = ValidateQuery q ∧
    (ValidateQuery q = .ok () → ValidateQuery (EnhanceQuery q) = .ok ()) := by
  have hvalid : ValidateQuery (EnhanceQuery q) = ValidateQuery q := by
    have hempty := EnhanceQuery_ProductType_eq_empty q
    have hframe : (EnhanceQuery q).PriceMin = q.PriceMin ∧ (EnhanceQuery q).PriceMax = q.PriceMax := by
      rw [EnhanceQuery_eq]
      exact ⟨rfl, rfl⟩
    unfold ValidateQuery
    rw [hframe.1, hframe.2]
    by_cases h : q.ProductType = ""
    · rw [if_pos h, if_pos (hempty.mpr h)]
    · rw [if_neg h, if_neg (fun e => h (hempty.mp e))]
  refine ⟨?_, productTypeMap_canonical, colorMap_canonical, sizeMap_canonical, hvalid, ?_⟩
  · rw [EnhanceQuery_eq (EnhanceQuery q), EnhanceQuery_eq q]
    simp only [getD_twice productTypeMap productTypeMap_canonical,
      getD_twice colorMap colorMap_canonical, getD_twice sizeMap sizeMap_canonical]
  · intro h
    rw [hvalid, h]

/-! ## The length of the answer of the embedding client -/

theorem fillLoop_long {V : Type} (uncachedIndices : List Nat) (uncachedTexts : List String) :
    ∀ (vs : List V) (i : Nat) (embeddings : List V) (cache : EmbeddingCache V),
      i ≤ uncachedIndices.length → i + vs.length > uncachedIndices.length →
      ∃ msg, (fillLoop uncachedIndices uncachedTexts vs i embeddings cache).1 = .panic msg := by
  intro vs
  induction vs with
  | nil =>
    intro i embeddings cache h1 h2
    simp at h2
    omega
  | cons v rest ih =>
    intro i embeddings cache h1 h2
    unfold fillLoop
    cases hi : uncachedIndices[i]? with
    | none => exact ⟨_, rfl⟩
    | some index =>
      have hlt : i < uncachedIndices.length := by
        by_contra hge
        rw [List.getElem?_eq_none (by omega)] at hi
        cases hi
      cases ht : uncachedTexts[i]? with
      | none => exact ⟨_, rfl⟩
      | some text =>
        simp only
        split_ifs
        · exact ih (i + 1) _ _ (by omega) (by simp only [List.length_cons] at h2; omega)
        · exact ⟨_, rfl⟩

theorem fillLoop_short {V : Type} (uncachedIndices : List Nat) (uncachedTexts : List String)
    (hlen : uncachedIndices.length = uncachedTexts.length) :
    ∀ (vs : List V) (i : Nat) (embeddings : List V) (cache : EmbeddingCache V),
      i + vs.length ≤ uncachedIndices.length →
      (∀ index ∈ uncachedIndices, index < embeddings.length) →
      ∃ result, (fillLoop uncachedIndices uncachedTexts vs i embeddings cache).1 = .ok result ∧
        result.length = embeddings.length ∧
        ∀ j, j ∉ (uncachedIndices.drop i).take vs.length → result[j]? = embeddings[j]? := by
  intro vs
  induction vs with
  | nil =>
    intro i embeddings cache _ _
    exact ⟨embeddings, rfl, rfl, fun _ _ => rfl⟩
  | cons v rest ih =>
    intro i embeddings cache h1 h2
    simp only [List.length_cons] at h1
    have hi : i < uncachedIndices.length := by omega
    have ht : i < uncachedTexts.length := by omega
    have hindex : uncachedIndices[i] < embeddings.length := h2 _ (List.getElem_mem _)
    obtain ⟨result, hr1, hr2, hr3⟩ := ih (i + 1) (embeddings.set uncachedIndices[i] v)
      (cache.Set uncachedTexts[i] v) (by omega) (by
        intro index hmem
        rw [List.length_set]
        exact h2 index hmem)
    refine ⟨result, ?_, by rw [hr2, List.length_set], ?_⟩
    · unfold fillLoop
      rw [List.getElem?_eq_getElem hi, List.getElem?_eq_getElem ht]
      simp only [hindex, if_true]
      exact hr1
    · intro j hj
      have hdrop : uncachedIndices.drop i = uncachedIndices[i] :: uncachedIndices.drop (i + 1) :=
        List.drop_eq_getElem_cons hi
      rw [hdrop, List.length_cons, List.take_succ_cons] at hj
      simp only [List.mem_cons, not_or] at hj
      rw [hr3 j hj.2, List.getElem?_set_ne (fun e => hj.1 e.symm)]

theorem uncachedIndicesFrom_ge {V : Type} (c : EmbeddingCache V) (texts : List String) :
    ∀ (n : Nat), ∀ idx ∈ uncachedIndicesFrom c n texts, n ≤ idx := by
  induction texts with
  | nil => intro n idx h; simp [uncachedIndicesFrom] at h
  | cons t texts ih =>
    intro n idx h
    unfold uncachedIndicesFrom at h
    split at h
    · rcases List.mem_cons.mp h with h0 | h1
      · omega
      · have := ih (n + 1) idx h1
        omega
    · have := ih (n + 1) idx h
      omega

theorem uncachedIndicesFrom_nodup {V : Type} (c : EmbeddingCache V) (texts : List String) :
    ∀ (n : Nat), (uncachedIndicesFrom c n texts).Nodup := by
  induction texts with
  | nil => intro n; simp [uncachedIndicesFrom]
  | cons t texts ih =>
    intro n
    unfold uncachedIndicesFrom
    split
    · rw [List.nodup_cons]
      refine ⟨fun h => ?_, ih (n + 1)⟩
      have := uncachedIndicesFrom_ge c texts (n + 1) n h
      omega
    · exact ih (n + 1)

theorem storeCachedFrom_below {V : Type} (c : EmbeddingCache V) (texts : List String) :
    ∀ (m : Nat) (emb : List V) (j : Nat), j < m →
      (storeCachedFrom c m texts emb)[j]? = emb[j]? := by
  induction texts with
  | nil => intro m emb j _; rfl
  | cons t texts ih =>
    intro m emb j hj
    unfold storeCachedFrom
    cases c.Get t with
    | some w =>
      simp only
      rw [ih (m + 1) _ j (by omega), List.getElem?_set_ne (by omega)]
    | none =>
      simp only
      exact ih (m + 1) _ j (by omega)

theorem storeCachedFrom_uncached {V : Type} (c : EmbeddingCache V) (texts : List String) :
    ∀ (n : Nat) (emb : List V) (j : Nat), j ∈ uncachedIndicesFrom c n texts →
      (storeCachedFrom c n texts emb)[j]? = emb[j]? := by
  induction texts with
  | nil => intro n emb j h; simp [uncachedIndicesFrom] at h
  | cons t texts ih =>
    intro n emb j h
    unfold uncachedIndicesFrom at h
    unfold storeCachedFrom
    cases hc : c.Get t with
    | some w =>
      have hm : c.misses t = false := by simp [EmbeddingCache.misses, hc]
      simp only [hm, Bool.false_eq_true, if_false] at h
      have hge := uncachedIndicesFrom_ge c texts (n + 1) j h
      simp only
      rw [ih (n + 1) _ j h, List.getElem?_set_ne (by omega)]
    | none =>
      have hm : c.misses t = true := by simp [EmbeddingCache.misses, hc]
      simp only [hm, if_true] at h
      simp only
      rcases List.mem_cons.mp h with h0 | h1
      · rw [h0]
        exact storeCachedFrom_below c texts (n + 1) emb n (by omega)
      · exact ih (n + 1) emb j h1

/-- C29 (code defect): `CachedEmbeddingService.GetEmbeddings` does not compare
the number of vectors that a successful client call returns with the number of
uncached texts. When the client returns more vectors, the loop over them
indexes `uncachedIndices` past its end and the call panics; when it returns
fewer, the call returns without error a result in which an uncached text has
no vector (the nil vector). With the text "a" uncached and an answer of two
vectors the call panics; with "a" uncached, "b" cached and an answer of no
vector the result is the nil vector for "a" and the cached vector for "b". -/
theorem GetEmbeddings_unchecked_answer_length {V : Type} [Inhabited V] (api : EmbeddingAPI V)
    (s : CachedEmbeddingService V) (texts : List String) (vs : List V) :
    (uncachedSpec s.cache texts ≠ [] ∧
        api s.EmbeddingService.sent.length (uncachedSpec s.cache texts) = .ok vs →
      (vs.length > (uncachedSpec s.cache texts).length →
        ∃ msg, (s.GetEmbeddings api texts).1 = .panic msg) ∧
      (vs.length < (uncachedSpec s.cache texts).length →
        ∃ result i, (s.GetEmbeddings api texts).1 = .ok result ∧
          result.length = texts.length ∧ i < texts.length ∧ result[i]? = some default)) ∧
    (sampleService.GetEmbeddings extraAnswerAPI ["a"]).1 = .panic "index out of range" ∧
    (sampleService.GetEmbeddings emptyAnswerAPI ["a", "b"]).1 = .ok [[], [7]] := by
  refine ⟨?_, by decide, by decide⟩
  rintro ⟨hU, hapi⟩
  have hpos : 0 < (uncachedSpec s.cache texts).length := List.length_pos.mpr hU
  have hne : ¬ (uncachedSpec s.cache texts).length = 0 := by omega
  have hilen := uncachedIndicesFrom_length s.cache texts 0
  have hcall : (s.GetEmbeddings api texts).1
      = (fillLoop (uncachedIndicesFrom s.cache 0 texts) (uncachedSpec s.cache texts) vs 0
          (storeCachedFrom s.cache 0 texts (List.replicate texts.length default)) s.cache).1 := by
    unfold CachedEmbeddingService.GetEmbeddings
    simp only [scanTexts_eq, gt_iff_lt, hpos, if_true, EmbeddingService.GetEmbeddings, hne,
      if_false, hapi]
  rw [hcall]
  constructor
  · intro hlong
    exact fillLoop_long _ _ vs 0 _ _ (by omega) (by omega)
  · intro hshort
    have hbound : ∀ index ∈ uncachedIndicesFrom s.cache 0 texts,
        index < (storeCachedFrom s.cache 0 texts (List.replicate texts.length default)).length := by
      intro index hmem
      rw [storeCachedFrom_length, List.length_replicate]
      have := uncachedIndicesFrom_lt s.cache texts 0 index hmem
      omega
    obtain ⟨result, hr1, hr2, hr3⟩ := fillLoop_short (uncachedIndicesFrom s.cache 0 texts)
      (uncachedSpec s.cache texts) hilen vs 0 _ s.cache (by omega) hbound
    have hk : vs.length < (uncachedIndicesFrom s.cache 0 texts).length := by omega
    have hmem : (uncachedIndicesFrom s.cache 0 texts)[vs.length]
        ∈ uncachedIndicesFrom s.cache 0 texts := List.getElem_mem _
    have hlt := uncachedIndicesFrom_lt s.cache texts 0 _ hmem
    refine ⟨result, (uncachedIndicesFrom s.cache 0 texts)[vs.length], hr1, ?_, by omega, ?_⟩
    · rw [hr2, storeCachedFrom_length, List.length_replicate]
    · rw [hr3 _ ?_, storeCachedFrom_uncached s.cache texts 0 _ _ hmem,
        List.getElem?_replicate]
      · rw [if_pos (by omega)]
      · rw [List.drop_zero]
        intro hin
        obtain ⟨k, hk1, hk2⟩ := List.getElem_of_mem hin
        rw [List.length_take] at hk1
        rw [List.getElem_take] at hk2
        have hnd := uncachedIndicesFrom_nodup s.cache texts 0
        have := (List.Nodup.getElem_inj_iff hnd).mp hk2
        omega

/-! ## `GetSuggestions` -/

theorem sliceTo_neg (suggestions : List String) (limit : Int) (h : limit < 0) :
    sliceTo suggestions limit = .panic "slice bounds out of range" := by
  unfold sliceTo
  rw [if_pos h]

theorem truncate_neg (suggestions : List String) (limit : Int) (h : limit < 0) :
    GetSuggestions.truncate suggestions limit = .panic "slice bounds out of range" := by
  unfold GetSuggestions.truncate
  have : (suggestions.length : Int) > limit := by omega
  rw [if_pos this, sliceTo_neg _ _ h]

theorem truncate_nonneg (suggestions : List String) (limit : Int) (h : 0 ≤ limit) :
    ∃ result, GetSuggestions.truncate suggestions limit = .ok result ∧
      (result.length : Int) ≤ limit ∧ result.length ≤ suggestions.length ∧
      result = suggestions.take limit.toNat := by
  unfold GetSuggestions.truncate sliceTo
  split_ifs with h1 h2
  · omega
  · refine ⟨_, rfl, ?_, ?_, rfl⟩
    · rw [List.length_take]
      omega
    · rw [List.length_take]
      omega
  · refine ⟨_, rfl, by omega, le_refl _, ?_⟩
    rw [List.take_of_length_le]
    omega

theorem getDefaultSuggestions_eq_truncate (query : String) (limit : Int) :
    getDefaultSuggestions query limit
      = GetSuggestions.truncate
          [query ++ " 黑色", query ++ " 白色", query ++ " 蓝色", query ++ " 100元以下",
           query ++ " 200元以下", query ++ " 品牌", query ++ " 大码", query ++ " 小码"] limit :=
  rfl

theorem toList_append (a b : String) : (a ++ b).toList = a.toList ++ b.toList := by
  simp

theorem default_begins_with_query (query : String) :
    ∀ suggestion ∈ [query ++ " 黑色", query ++ " 白色", query ++ " 蓝色", query ++ " 100元以下",
       query ++ " 200元以下", query ++ " 品牌", query ++ " 大码", query ++ " 小码"],
      HasPrefix suggestion query = true := by
  intro suggestion h
  simp only [List.mem_cons, List.mem_singleton, List.not_mem_nil, or_false] at h
  unfold HasPrefix
  rw [List.isPrefixOf_iff_prefix]
  rcases h with h | h | h | h | h | h | h | h <;> rw [h, toList_append] <;>
    exact List.prefix_append _ _

/-- C30 (code defect): `GetSuggestions` caps the limit at 20 and does not
raise a negative one, so for every negative limit that `fmt.Sscanf` reads from
the request the slice expression `suggestions[:limit]` is out of range and the
handler panics, whatever the suggestion service answers: in
`getDefaultSuggestions` when the service fails, at the end of `GetSuggestions`
when it succeeds. For a limit that is not negative no slice is out of range and
the handler returns at most `limit` suggestions, at most 20, which when the
service fails are default suggestions that begin with the query. With the
parameter limit=-1 the handler panics; with limit=3 and an unreachable service
it returns the first three default suggestions. -/
theorem GetSuggestions_negative_limit_panics (env : SuggestionsEnv) (query : String)
    (limitParam : Option String) :
    (query ≠ "" ∧ GetSuggestions.limit env limitParam < 0 →
      GetSuggestions env query limitParam = .panic "slice bounds out of range") ∧
    (∀ limitStr limit, env.Sscanf limitStr = some limit → limit < 0 →
      GetSuggestions.limit env (some limitStr) = limit ∧
      getDefaultSuggestions query limit = .panic "slice bounds out of range") ∧
    (query ≠ "" ∧ 0 ≤ GetSuggestions.limit env limitParam →
      ∃ suggestions,
        GetSuggestions env query limitParam
          = .ok (SuccessResponseOf env.now { Query := query, Suggestions := suggestions }) ∧
        (suggestions.length : Int) ≤ GetSuggestions.limit env limitParam ∧
        suggestions.length ≤ 20 ∧
        (isError (env.GetQuerySuggestions query) = true →
          ∀ suggestion ∈ suggestions, HasPrefix suggestion query = true)) ∧
    GetSuggestions suggestionsEnv "鞋" (some "-1") = .panic "slice bounds out of range" ∧
    GetSuggestions suggestionsEnv "鞋" (some "3")
      = .ok (SuccessResponseOf 0
          { Query := "鞋", Suggestions := ["鞋 黑色", "鞋 白色", "鞋 蓝色"] }) := by
  have hcap : GetSuggestions.limit env limitParam ≤ 20 := by
    unfold GetSuggestions.limit
    simp only
    split_ifs <;> omega
  refine ⟨?_, ?_, ?_, by decide, by decide⟩
  · rintro ⟨hq, hneg⟩
    unfold GetSuggestions
    rw [if_neg hq]
    cases env.GetQuerySuggestions query with
    | error err =>
      simp only [getDefaultSuggestions_eq_truncate, truncate_neg _ _ hneg]
    | ok suggestions =>
      simp only [truncate_neg _ _ hneg]
  · intro limitStr limit hscan hneg
    refine ⟨?_, ?_⟩
    · unfold GetSuggestions.limit
      simp only [Option.getD_some, hscan]
      rw [if_neg (by omega)]
    · rw [getDefaultSuggestions_eq_truncate, truncate_neg _ _ hneg]
  · rintro ⟨hq, hnonneg⟩
    unfold GetSuggestions
    rw [if_neg hq]
    cases hs : env.GetQuerySuggestions query with
    | error err =>
      obtain ⟨r1, h1, h2, h3, h4⟩ := truncate_nonneg
        [query ++ " 黑色", query ++ " 白色", query ++ " 蓝色", query ++ " 100元以下",
         query ++ " 200元以下", query ++ " 品牌", query ++ " 大码", query ++ " 小码"] _ hnonneg
      obtain ⟨r2, g1, g2, g3, g4⟩ := truncate_nonneg r1 _ hnonneg
      refine ⟨r2, ?_, g2, by omega, ?_⟩
      · simp only [getDefaultSuggestions_eq_truncate, h1, g1]
      · intro _ suggestion hmem
        rw [g4] at hmem
        have hmem1 := List.mem_of_mem_take hmem
        rw [h4] at hmem1
        exact default_begins_with_query query suggestion (List.mem_of_mem_take hmem1)
    | ok suggestions =>
      obtain ⟨r2, g1, g2, g3, g4⟩ := truncate_nonneg suggestions _ hnonneg
      refine ⟨r2, ?_, g2, by omega, ?_⟩
      · simp only [g1]
      · intro h
        cases h

end SearchEC2
